import Mathlib

/-!
# Backstream: a reverse-tunnel HTTP proxy

A shallow embedding of the tunnel connection (`ws/conn.go`), the connection pool
(`ws/pool.go`), the edge server (`ws/serve.go`), the synchronised map
(`internal/util/syncedmap.go`) and the envelope codecs (`ws/codec.go`), together with
theorems about them.

Conventions of the embedding.

* A Go byte slice is a list of bytes; the nil slice and the empty slice are both `[]`.
* A Go `(value, error)` result is an `Except GoError value`.
* Go interfaces (`Codec`, `EventHandler`, `ProxyHandler`) are structures of functions.
* A goroutine that blocks is a step that returns `none`; the scheduler's choice in a
  `select` with several ready cases is an explicit Boolean argument.
* Pointers (`*Conn`, reply channels) are natural-number addresses.
* A Go string that comes from a header value (the value itself, a client id, the text of a
  timeout) is a `GoString`, any sequence of bytes; header keys, methods, the fields of a URL
  and the texts of errors are Lean strings.
-/

namespace Backstream

/-! ## Basic data -/

/-- One byte. -/
abbrev Byte := Fin 256

/-- A Go `[]byte`. -/
abbrev Bytes := List Byte

/-- Go `error` values that occur in the tunnel: the sentinel `ErrConnectionClosed` of
`ws/conn.go`, the two errors a `context.Context` reports, errors made by `errors.New` or
returned by a library, and errors wrapping another one (`fmt.Errorf` with `%w`). -/
inductive GoError where
  | ErrConnectionClosed
  | Canceled
  | DeadlineExceeded
  | errorString (msg : String)
  | wrapError (msg : String) (inner : GoError)
  deriving DecidableEq, Repr

deriving instance DecidableEq for Except

/-- Go `errors.Is(err, target)` for the error values above: `err` or an error it wraps is
`target`. -/
def errorsIs : GoError → GoError → Bool
  | .wrapError msg inner, target =>
      decide (GoError.wrapError msg inner = target) || errorsIs inner target
  | err, target => decide (err = target)

/-- The text of `err.Error()`. -/
def GoError.Error : GoError → String
  | .ErrConnectionClosed => "connection closed"
  | .Canceled => "context canceled"
  | .DeadlineExceeded => "context deadline exceeded"
  | .errorString msg => msg
  | .wrapError msg _ => msg

/-- The cause a done `context.Context` reports through `ctx.Err()`. -/
inductive CtxErr where
  | Canceled
  | DeadlineExceeded
  deriving DecidableEq, Repr

/-- The `error` value of a context cause. -/
def CtxErr.toError : CtxErr → GoError
  | .Canceled => GoError.Canceled
  | .DeadlineExceeded => GoError.DeadlineExceeded

/-- A `context.Context` as the tunnel observes it: `none` while it is live, `some cause`
once `ctx.Done()` is closed. -/
abbrev Context := Option CtxErr

/-! ## Text -/

/-- The UTF-8 encoding of one character, one to four bytes. -/
def utf8EncodeChar (c : Char) : Bytes :=
  let n := c.toNat
  if n < 0x80 then [Fin.ofNat n]
  else if n < 0x800 then [Fin.ofNat (0xC0 + n / 0x40), Fin.ofNat (0x80 + n % 0x40)]
  else if n < 0x10000 then
    [Fin.ofNat (0xE0 + n / 0x1000), Fin.ofNat (0x80 + n / 0x40 % 0x40),
      Fin.ofNat (0x80 + n % 0x40)]
  else
    [Fin.ofNat (0xF0 + n / 0x40000), Fin.ofNat (0x80 + n / 0x1000 % 0x40),
      Fin.ofNat (0x80 + n / 0x40 % 0x40), Fin.ofNat (0x80 + n % 0x40)]

/-- The bytes of a Go string: the UTF-8 encoding of its characters (`[]byte(s)`). -/
def utf8 (s : String) : Bytes := (s.data.map utf8EncodeChar).flatten

/-- A continuation byte of UTF-8, `10xxxxxx`. -/
def isCont (b : Nat) : Bool := decide (0x80 ≤ b ∧ b < 0xC0)

/-- A code point that is a Unicode scalar value: not a surrogate, at most `U+10FFFF`. -/
def isScalar (n : Nat) : Bool := decide (n < 0xD800 ∨ (0xDFFF < n ∧ n < 0x110000))

/-- The first character of a UTF-8 byte sequence and the bytes after it; `none` for a
sequence that does not start with a well-formed, shortest-form encoding of a scalar value. -/
def utf8DecodeChar (b : Bytes) : Option (Char × Bytes) :=
  match b with
  | [] => none
  | b0 :: rest =>
    if b0.val < 0x80 then some (Char.ofNat b0.val, rest)
    else if b0.val < 0xC0 then none
    else if b0.val < 0xE0 then
      match rest with
      | b1 :: rest1 =>
        if isCont b1.val && decide (0x80 ≤ (b0.val - 0xC0) * 0x40 + (b1.val - 0x80)) then
          some (Char.ofNat ((b0.val - 0xC0) * 0x40 + (b1.val - 0x80)), rest1)
        else none
      | _ => none
    else if b0.val < 0xF0 then
      match rest with
      | b1 :: b2 :: rest2 =>
        if isCont b1.val && isCont b2.val &&
            decide (0x800 ≤ (b0.val - 0xE0) * 0x1000 + (b1.val - 0x80) * 0x40 + (b2.val - 0x80)) &&
            isScalar ((b0.val - 0xE0) * 0x1000 + (b1.val - 0x80) * 0x40 + (b2.val - 0x80)) then
          some (Char.ofNat ((b0.val - 0xE0) * 0x1000 + (b1.val - 0x80) * 0x40 + (b2.val - 0x80)),
            rest2)
        else none
      | _ => none
    else
      match rest with
      | b1 :: b2 :: b3 :: rest3 =>
        if isCont b1.val && isCont b2.val && isCont b3.val &&
            decide (0x10000 ≤ (b0.val - 0xF0) * 0x40000 + (b1.val - 0x80) * 0x1000 +
              (b2.val - 0x80) * 0x40 + (b3.val - 0x80)) &&
            isScalar ((b0.val - 0xF0) * 0x40000 + (b1.val - 0x80) * 0x1000 +
              (b2.val - 0x80) * 0x40 + (b3.val - 0x80)) then
          some (Char.ofNat ((b0.val - 0xF0) * 0x40000 + (b1.val - 0x80) * 0x1000 +
              (b2.val - 0x80) * 0x40 + (b3.val - 0x80)), rest3)
        else none
      | _ => none

/-- The characters of a UTF-8 byte sequence, at most `fuel` of them. -/
def utf8DecodeChars : Nat → Bytes → Option (List Char)
  | _, [] => some []
  | 0, _ :: _ => none
  | fuel + 1, b :: rest =>
    match utf8DecodeChar (b :: rest) with
    | none => none
    | some (c, rest1) => (utf8DecodeChars fuel rest1).map (fun cs => c :: cs)

/-- The Go string made of the bytes `b` (`string(b)`), `none` when they are not valid UTF-8. -/
def utf8Decode (b : Bytes) : Option String := (utf8DecodeChars b.length b).map String.mk

/-- A Go string that reaches the program from outside (a header value, and what is read
from one: a client id, the text of a timeout): its bytes. Such a string usually is UTF-8
text but need not be. -/
structure GoString where
  bytes : Bytes
  deriving DecidableEq, Repr

/-- The Go string of a text: its UTF-8 encoding. -/
@[coe] def GoString.ofString (s : String) : GoString := { bytes := utf8 s }

instance : Coe String GoString := ⟨GoString.ofString⟩

/-- Go `a + b` on strings. -/
def GoString.append (a b : GoString) : GoString := { bytes := a.bytes ++ b.bytes }

instance : Append GoString := ⟨GoString.append⟩

/-- Go `utf8.ValidString`. -/
def GoString.Valid (s : GoString) : Bool := (utf8Decode s.bytes).isSome

/-! ## Envelope -/

/-- Modelled from the spec: `message.Message_Type` of the generated package
`internal/message`, an enum number (`0 = NOTIFY`, `1 = REQUEST`, `2 = RESPONSE`). -/
abbrev Message_Type := Nat

/-- Modelled from the spec: the enum constant `NOTIFY = 0`. -/
def Message_NOTIFY : Message_Type := 0

/-- Modelled from the spec: the enum constant `REQUEST = 1`. -/
def Message_REQUEST : Message_Type := 1

/-- Modelled from the spec: the enum constant `RESPONSE = 2`. -/
def Message_RESPONSE : Message_Type := 2

/-- Modelled from the spec: the envelope `message.Message` of the generated package
`internal/message`, with the fields `Id`, `Type` and `Data` that `ws/conn.go` uses. -/
structure Message where
  Id : String
  Typ : Message_Type
  Data : Bytes
  deriving DecidableEq, Repr

/-- The interface `Codec[T]` of `ws/codec.go`. -/
structure Codec (T : Type) where
  Encode : T → Except GoError Bytes
  Decode : Bytes → Except GoError T
  IsBinary : Bool

/-! ## Envelope codecs (`ws/codec.go`): the binary form -/

/-- Modelled from the spec: the base-128 varint of the compact binary encoding (the generated
package `internal/message` and its encoder are not in the sources): seven bits per byte,
least significant group first, the high bit set on every byte but the last. -/
def putVarintAux : Nat → Nat → Bytes
  | 0, n => [Fin.ofNat n]
  | fuel + 1, n =>
    if n < 128 then [Fin.ofNat n] else Fin.ofNat (128 + n % 128) :: putVarintAux fuel (n / 128)

/-- Modelled from the spec: the varint of a number (at most as many bytes as the number is
large). -/
def putVarint (n : Nat) : Bytes := putVarintAux n n

/-- Modelled from the spec: reading a varint of the compact binary encoding, the value and the
bytes after it; `none` when the input ends inside the varint. -/
def getVarint : Bytes → Option (Nat × Bytes)
  | [] => none
  | b :: rest =>
    if b.val < 128 then some (b.val, rest)
    else
      match getVarint rest with
      | some (v, rest1) => some (b.val - 128 + 128 * v, rest1)
      | none => none

/-- The error `proto.Unmarshal` returns for malformed input. -/
def errWire : GoError := GoError.errorString "proto: cannot parse invalid wire-format data"

/-- The error `proto.Unmarshal` returns for a string field that is not valid UTF-8. -/
def errUTF8 : GoError := GoError.errorString "proto: string field contains invalid UTF-8"

/-- Modelled from the spec: a length-delimited field of the compact binary encoding (key byte,
length, bytes); a field whose value is empty is not written. -/
def lenField (key : Nat) (payload : Bytes) : Bytes :=
  if payload = [] then [] else Fin.ofNat key :: (putVarint payload.length ++ payload)

/-- Modelled from the spec: a varint field of the compact binary encoding (key byte, value);
the value zero is not written. -/
def varintField (key : Nat) (v : Nat) : Bytes :=
  if v = 0 then [] else Fin.ofNat key :: putVarint v

/-- Modelled from the spec: `proto.Marshal` on a `message.Message`, the compact binary encoding
of `(id: string, type: uint enum, data: bytes)` with the field numbers 1, 2 and 3 (the
generated package `internal/message` is not in the sources). Size limits are not modelled. -/
def protoMarshal (m : Message) : Bytes :=
  lenField 0x0A (utf8 m.Id) ++ (varintField 0x10 m.Typ ++ lenField 0x1A m.Data)

/-- Modelled from the spec: the field loop of `proto.Unmarshal` on a `message.Message`. Fields
may come in any order, a later occurrence of a field overrides an earlier one, a field with
an unknown number or an unexpected wire type is skipped; truncated input, field number 0,
a group and an id that is not valid UTF-8 are errors. `fuel` bounds the number of fields. -/
def protoFields : Nat → Bytes → Message → Except GoError Message
  | _, [], m => .ok m
  | 0, _ :: _, _ => .error errWire
  | fuel + 1, b :: rest0, m =>
    match getVarint (b :: rest0) with
    | none => .error errWire
    | some (key, rest) =>
      if key / 8 = 0 then .error errWire
      else if key % 8 = 0 then
        match getVarint rest with
        | none => .error errWire
        | some (v, rest1) =>
          protoFields fuel rest1 (if key / 8 = 2 then { m with Typ := v % 2 ^ 32 } else m)
      else if key % 8 = 1 then
        if rest.length < 8 then .error errWire else protoFields fuel (rest.drop 8) m
      else if key % 8 = 2 then
        match getVarint rest with
        | none => .error errWire
        | some (len, rest1) =>
          if rest1.length < len then .error errWire
          else if key / 8 = 1 then
            match utf8Decode (rest1.take len) with
            | none => .error errUTF8
            | some s => protoFields fuel (rest1.drop len) { m with Id := s }
          else if key / 8 = 3 then
            protoFields fuel (rest1.drop len) { m with Data := rest1.take len }
          else protoFields fuel (rest1.drop len) m
      else if key % 8 = 5 then
        if rest.length < 4 then .error errWire else protoFields fuel (rest.drop 4) m
      else .error errWire

/-- Modelled from the spec: `proto.Unmarshal` into a fresh `message.Message`. -/
def protoUnmarshal (b : Bytes) : Except GoError Message :=
  protoFields (b.length + 1) b { Id := "", Typ := 0, Data := [] }

/-- The codec `NewProtoCodec[*message.Message]()` of `ws/codec.go`: `Encode` is `proto.Marshal`,
`Decode` is `proto.Unmarshal`, and the frames are binary. -/
def NewProtoCodec : Codec Message :=
  { Encode := fun v => .ok (protoMarshal v), Decode := protoUnmarshal, IsBinary := true }

/-! ## Envelope codecs (`ws/codec.go`): the JSON form -/

/-- The double quote. -/
def chQuote : Char := Char.ofNat 34
/-- The backslash. -/
def chBackslash : Char := Char.ofNat 92
/-- The opening brace. -/
def chLBrace : Char := Char.ofNat 123
/-- The closing brace. -/
def chRBrace : Char := Char.ofNat 125

/-- The lower-case hexadecimal digit of a number below 16. -/
def hexDigit (k : Nat) : Char := "0123456789abcdef".data.getD k '0'

/-- The value of a hexadecimal digit. -/
def hexVal (c : Char) : Option Nat :=
  if 48 ≤ c.toNat ∧ c.toNat ≤ 57 then some (c.toNat - 48)
  else if 97 ≤ c.toNat ∧ c.toNat ≤ 102 then some (c.toNat - 87)
  else if 65 ≤ c.toNat ∧ c.toNat ≤ 70 then some (c.toNat - 55)
  else none

/-- Modelled from the spec: how a character is written inside a string of the JSON form (the
generated package `internal/message` and its encoder are not in the sources): the quote and
the backslash are escaped, a control character is written as its short escape or as
`\u00XX`, every other character stands for itself. -/
def jsonEscape (c : Char) : List Char :=
  if c = chQuote then [chBackslash, chQuote]
  else if c = chBackslash then [chBackslash, chBackslash]
  else if c.toNat < 0x20 then
    if c.toNat = 8 then [chBackslash, 'b']
    else if c.toNat = 12 then [chBackslash, 'f']
    else if c.toNat = 10 then [chBackslash, 'n']
    else if c.toNat = 13 then [chBackslash, 'r']
    else if c.toNat = 9 then [chBackslash, 't']
    else [chBackslash, 'u', '0', '0', hexDigit (c.toNat / 16), hexDigit (c.toNat % 16)]
  else [c]

/-- The character a one-letter escape of a JSON string stands for. -/
def jsonUnescape (e : Char) : Option Char :=
  if e = chQuote then some chQuote
  else if e = chBackslash then some chBackslash
  else if e = '/' then some '/'
  else if e = 'b' then some (Char.ofNat 8)
  else if e = 'f' then some (Char.ofNat 12)
  else if e = 'n' then some (Char.ofNat 10)
  else if e = 'r' then some (Char.ofNat 13)
  else if e = 't' then some (Char.ofNat 9)
  else none

/-- Modelled from the spec: a string of the JSON form, the escaped characters between quotes. -/
def jsonString (s : List Char) : List Char :=
  chQuote :: ((s.map jsonEscape).flatten ++ [chQuote])

/-- The code point written by four hexadecimal digits. -/
def hex4 (h1 h2 h3 h4 : Char) : Option Nat :=
  match hexVal h1, hexVal h2, hexVal h3, hexVal h4 with
  | some a, some b, some c, some d => some (((a * 16 + b) * 16 + c) * 16 + d)
  | _, _, _, _ => none

/-- Modelled from the spec: reading a string of the JSON form after its opening quote, giving
the characters of the string and the text after the closing quote. A raw control
character, an unknown escape and an escaped code point that is no scalar value are errors. -/
def parseStringBody : List Char → Option (List Char × List Char)
  | [] => none
  | c :: rest =>
    if c = chQuote then some ([], rest)
    else if c = chBackslash then
      match rest with
      | [] => none
      | e :: rest1 =>
        if e = 'u' then
          match rest1 with
          | h1 :: h2 :: h3 :: h4 :: rest2 =>
            match hex4 h1 h2 h3 h4 with
            | some n =>
              if isScalar n then
                (parseStringBody rest2).map (fun p => (Char.ofNat n :: p.1, p.2))
              else none
            | none => none
          | _ => none
        else
          match jsonUnescape e with
          | some c1 => (parseStringBody rest1).map (fun p => (c1 :: p.1, p.2))
          | none => none
    else if c.toNat < 0x20 then none
    else (parseStringBody rest).map (fun p => (c :: p.1, p.2))

/-- The digit of standard base64 for a number below 64. -/
def b64Char (k : Nat) : Char :=
  "ABCDEFGHIJKLMNOPQRSTUVWXYZabcdefghijklmnopqrstuvwxyz0123456789+/".data.getD k 'A'

/-- The value of a digit of standard base64. -/
def b64Val (c : Char) : Option Nat :=
  if 65 ≤ c.toNat ∧ c.toNat ≤ 90 then some (c.toNat - 65)
  else if 97 ≤ c.toNat ∧ c.toNat ≤ 122 then some (c.toNat - 71)
  else if 48 ≤ c.toNat ∧ c.toNat ≤ 57 then some (c.toNat + 4)
  else if c = '+' then some 62
  else if c = '/' then some 63
  else none

/-- Modelled from the spec: the bytes of `data` in the JSON form, standard base64 with padding. -/
def base64Encode : Bytes → List Char
  | [] => []
  | [a] => [b64Char (a.val / 4), b64Char (a.val % 4 * 16), '=', '=']
  | [a, b] =>
    [b64Char (a.val / 4), b64Char (a.val % 4 * 16 + b.val / 16), b64Char (b.val % 16 * 4), '=']
  | a :: b :: c :: rest =>
    b64Char (a.val / 4) :: b64Char (a.val % 4 * 16 + b.val / 16) ::
      b64Char (b.val % 16 * 4 + c.val / 64) :: b64Char (c.val % 64) :: base64Encode rest

/-- Modelled from the spec: reading standard base64 with padding; `none` for text that is no
such encoding. -/
def base64Decode : List Char → Option Bytes
  | [] => some []
  | c1 :: c2 :: c3 :: c4 :: rest =>
    match b64Val c1, b64Val c2 with
    | some v1, some v2 =>
      if c4 = '=' then
        if rest ≠ [] then none
        else if c3 = '=' then some [Fin.ofNat (v1 * 4 + v2 / 16)]
        else
          match b64Val c3 with
          | some v3 => some [Fin.ofNat (v1 * 4 + v2 / 16), Fin.ofNat (v2 % 16 * 16 + v3 / 4)]
          | none => none
      else
        match b64Val c3, b64Val c4, base64Decode rest with
        | some v3, some v4, some tail =>
          some (Fin.ofNat (v1 * 4 + v2 / 16) :: Fin.ofNat (v2 % 16 * 16 + v3 / 4) ::
            Fin.ofNat (v3 % 4 * 64 + v4) :: tail)
        | _, _, _ => none
    | _, _ => none
  | _ => none

/-- Skipping of the white space JSON allows between tokens. -/
def skipWs : List Char → List Char
  | [] => []
  | c :: rest =>
    if c = ' ' ∨ c.toNat = 9 ∨ c.toNat = 10 ∨ c.toNat = 13 then skipWs rest else c :: rest

/-- Modelled from the spec: the name of an enum number of `type`. -/
def enumName (t : Nat) : Option String :=
  if t = 0 then some "NOTIFY" else if t = 1 then some "REQUEST"
  else if t = 2 then some "RESPONSE" else none

/-- Modelled from the spec: the enum number of a name of `type`. -/
def enumNumber (name : String) : Option Nat :=
  if name = "NOTIFY" then some 0 else if name = "REQUEST" then some 1
  else if name = "RESPONSE" then some 2 else none

/-- Modelled from the spec: the value of `type` in the JSON form, the name of the enum number,
or the number itself when it has no name. -/
def jsonEnum (t : Nat) : List Char :=
  match enumName t with
  | some name => jsonString name.data
  | none => (Nat.repr t).data

/-- One member of a JSON object, the key as a string, a colon and the value. -/
def jsonMember (key : String) (value : List Char) : List Char :=
  jsonString key.data ++ ':' :: value

/-- Modelled from the spec: the members of an envelope in the JSON form, under the field names
`id`, `type` and `data`, in this order; a field with the zero value is left out. -/
def jsonMembers (m : Message) : List (List Char) :=
  (if m.Id = "" then [] else [jsonMember "id" (jsonString m.Id.data)]) ++
  ((if m.Typ = 0 then [] else [jsonMember "type" (jsonEnum m.Typ)]) ++
  (if m.Data = [] then [] else [jsonMember "data" (jsonString (base64Encode m.Data))]))

/-- Modelled from the spec: the text of an envelope in the JSON form. -/
def jsonText (m : Message) : List Char :=
  chLBrace :: (List.intercalate [','] (jsonMembers m) ++ [chRBrace])

/-- Modelled from the spec: `protojson.Marshal` on a `message.Message`, the JSON form of the
envelope in UTF-8 (the generated package `internal/message` is not in the sources). -/
def jsonMarshal (m : Message) : Bytes := utf8 (String.mk (jsonText m))

/-- Reading the decimal digits of a number. -/
def parseDigits : List Char → Nat → Nat × List Char
  | [], acc => (acc, [])
  | c :: rest, acc =>
    if 48 ≤ c.toNat ∧ c.toNat ≤ 57 then parseDigits rest (acc * 10 + (c.toNat - 48))
    else (acc, c :: rest)

/-- Modelled from the spec: reading the value of the member `key` into the envelope: a string
for `id`, a name or a number for `type`, base64 text for `data`; `none` for another key or
a value of another form. -/
def parseValue (key : String) (cs : List Char) (m : Message) : Option (Message × List Char) :=
  match cs with
  | [] => none
  | c :: rest =>
    if c = chQuote then
      match parseStringBody rest with
      | none => none
      | some (s, rest1) =>
        if key = "id" then some ({ m with Id := String.mk s }, rest1)
        else if key = "type" then
          match enumNumber (String.mk s) with
          | some t => some ({ m with Typ := t }, rest1)
          | none => none
        else if key = "data" then
          match base64Decode s with
          | some d => some ({ m with Data := d }, rest1)
          | none => none
        else none
    else if key = "type" ∧ 48 ≤ c.toNat ∧ c.toNat ≤ 57 then
      some ({ m with Typ := (parseDigits (c :: rest) 0).1 % 2 ^ 32 }, (parseDigits (c :: rest) 0).2)
    else none

/-- Modelled from the spec: reading the members of the JSON form up to the closing brace, which
must end the text. White space between tokens is skipped, the members may come in any
order, and a member that occurs twice is an error. `fuel` bounds the number of members. -/
def parseMembers : Nat → List Char → Message → List String → Option Message
  | 0, _, _, _ => none
  | fuel + 1, cs, m, seen =>
    match skipWs cs with
    | [] => none
    | q :: rest =>
      if q ≠ chQuote then none
      else
        match parseStringBody rest with
        | none => none
        | some (key, rest1) =>
          if String.mk key ∈ seen then none
          else
            match skipWs rest1 with
            | [] => none
            | c :: rest2 =>
              if c ≠ ':' then none
              else
                match parseValue (String.mk key) (skipWs rest2) m with
                | none => none
                | some (m1, rest3) =>
                  match skipWs rest3 with
                  | [] => none
                  | c2 :: rest4 =>
                    if c2 = ',' then parseMembers fuel rest4 m1 (String.mk key :: seen)
                    else if c2 = chRBrace then
                      if skipWs rest4 = [] then some m1 else none
                    else none

/-- Modelled from the spec: reading the text of an envelope in the JSON form. -/
def parseObject (cs : List Char) : Option Message :=
  match skipWs cs with
  | [] => none
  | c :: rest =>
    if c ≠ chLBrace then none
    else
      match skipWs rest with
      | [] => none
      | c1 :: rest1 =>
        if c1 = chRBrace then
          if skipWs rest1 = [] then some { Id := "", Typ := 0, Data := [] } else none
        else parseMembers 3 (c1 :: rest1) { Id := "", Typ := 0, Data := [] } []

/-- The error `protojson.Unmarshal` returns for text it cannot read. -/
def errJSON : GoError := GoError.errorString "proto: invalid JSON"

/-- Modelled from the spec: `protojson.Unmarshal` into a fresh `message.Message`. -/
def jsonUnmarshal (b : Bytes) : Except GoError Message :=
  match utf8Decode b with
  | none => .error errJSON
  | some s =>
    match parseObject s.data with
    | none => .error errJSON
    | some m => .ok m

/-- The codec `NewJsonCodec[*message.Message]()` of `ws/codec.go`: `Encode` is
`protojson.Marshal`, `Decode` is `protojson.Unmarshal`, and the frames are text. -/
def NewJsonCodec : Codec Message :=
  { Encode := fun v => .ok (jsonMarshal v), Decode := jsonUnmarshal, IsBinary := false }

/-- The interface `EventHandler` of `ws/conn.go`. `HandleNotify` returns `none` for a nil
error. -/
structure EventHandler where
  HandleRequest : Bytes → Except GoError Bytes
  HandleNotify : Bytes → Option GoError

/-! ## `util.SyncedMap` -/

/-- The map inside `util.SyncedMap[K, V]`: an association list with at most one live
binding per key (the first one). Every method runs under the mutex, so each is one atomic
step. -/
abbrev SyncedMap (K V : Type) := List (K × V)

namespace SyncedMap

variable {K V : Type} [DecidableEq K]

/-- Go `NewSyncedMap`. -/
def new : SyncedMap K V := []

/-- Go `Get`: `none` is Go's `ok = false`. -/
def Get (m : SyncedMap K V) (key : K) : Option V :=
  (m.find? (fun e => decide (e.1 = key))).map Prod.snd

/-- Go `Delete`. -/
def Delete (m : SyncedMap K V) (key : K) : SyncedMap K V :=
  m.filter (fun e => !decide (e.1 = key))

/-- Go `Set`. -/
def Set (m : SyncedMap K V) (key : K) (value : V) : SyncedMap K V :=
  (key, value) :: Delete m key

/-- Go `Size`. -/
def Size (m : SyncedMap K V) : Nat := m.length

end SyncedMap

/-! ## Channels -/

/-- A buffered Go channel: the queued values (oldest first), the capacity and whether
`close` has been called. -/
structure Chan (α : Type) where
  buf : List α
  cap : Nat
  closed : Bool
  deriving DecidableEq, Repr

/-- Go `make(chan α, cap)`. -/
def Chan.make {α : Type} (cap : Nat) : Chan α := { buf := [], cap := cap, closed := false }

/-- A send case `ch <- v` of a `select` can proceed: there is room in the buffer, or the
channel is closed (the send then proceeds by panicking). -/
def Chan.sendReady {α : Type} (ch : Chan α) : Bool :=
  ch.closed || decide (ch.buf.length < ch.cap)

/-- Go `close(ch)` guarded by `sync.OnceFunc`: closing again changes nothing. -/
def Chan.closeOnce {α : Type} (ch : Chan α) : Chan α := { ch with closed := true }

/-- The outcome of `safeSend`: the named results `closed` and `err`. -/
structure SafeSendResult where
  closed : Bool
  err : Option GoError
  deriving DecidableEq, Repr

/-- Go `safeSend(ctx, ch, value)` of `ws/conn.go`. The `select` has a send case and a
`ctx.Done()` case. `none`: neither case can proceed, the goroutine stays blocked. When both
can proceed `pick` is the scheduler's choice (`true` for the send case). A send on a closed
channel panics; the deferred `recover` then sets `closed = true` and `err` keeps its zero
value. -/
def safeSend {α : Type} (ctx : Context) (ch : Chan α) (value : α) (pick : Bool) :
    Option (SafeSendResult × Chan α) :=
  let sendCase : SafeSendResult × Chan α :=
    if ch.closed then ({ closed := true, err := none }, ch)
    else ({ closed := false, err := none }, { ch with buf := ch.buf ++ [value] })
  match ch.sendReady, ctx with
  | false, none => none
  | true, none => some sendCase
  | false, some cause => some ({ closed := false, err := some cause.toError }, ch)
  | true, some cause =>
      if pick then some sendCase
      else some ({ closed := false, err := some cause.toError }, ch)

/-! ## Tunnel connection (`ws/conn.go`) -/

/-- The address of a `*Conn`. -/
abbrev ConnRef := Nat

/-- The address of a reply channel made by `Send` (`make(chan []byte, 1)`). -/
abbrev ChanRef := Nat

/-- The mutable state of one `Conn` that `Send`, `Notify`, `handleReceived` and the two
loops share: the outbound queue `sendCh`, the pending-response table `respMap` (envelope id
to reply channel) and the reply channels themselves, `chans[a]` being the buffer of the
channel at address `a`. The fields `codec` and `handler` never change and are passed
separately (`ConnDeps`). -/
structure Conn where
  clientID : GoString
  sendCh : Chan Bytes
  respMap : SyncedMap String ChanRef
  chans : List (List Bytes)
  deriving DecidableEq, Repr

/-- The immutable collaborators of a `Conn`: its `codec` and its `handler`. -/
structure ConnDeps where
  codec : Codec Message
  handler : EventHandler

/-- Capacity of the outbound queue, `inFlightCount` of `handleConn`. -/
def inFlightCount : Nat := 1024

/-- The connection state `handleConn` builds: an open, empty outbound queue of capacity
`inFlightCount` and an empty pending-response table. -/
def Conn.init (clientID : GoString) : Conn :=
  { clientID := clientID, sendCh := Chan.make inFlightCount, respMap := SyncedMap.new,
    chans := [] }

/-- The send `respCh <- data` on the reply channel at address `a` (capacity 1, never
closed): `none` when the goroutine blocks because the buffer is full (or `a` is no channel). -/
def chanPut (chans : List (List Bytes)) (a : ChanRef) (data : Bytes) :
    Option (List (List Bytes)) :=
  match chans.get? a with
  | some buf => if buf.length < 1 then some (chans.set a (buf ++ [data])) else none
  | none => none

/-- The receive `<-respCh` on the reply channel at address `a`: `none` when the buffer is
empty (the receive case cannot proceed), otherwise the oldest value and the channels
afterwards. -/
def chanTake (chans : List (List Bytes)) (a : ChanRef) :
    Option (Bytes × List (List Bytes)) :=
  match chans.get? a with
  | some (resp :: rest) => some (resp, chans.set a rest)
  | _ => none

/-- Go `Conn.handleReceived`. The result is `none` when the goroutine blocks for ever on
`respCh <- msg.Data`; otherwise the returned frame (`none` for Go's nil) and the connection
state afterwards. -/
def Conn.handleReceived (d : ConnDeps) (c : Conn) (input : Bytes) :
    Option (Option Bytes × Conn) :=
  match d.codec.Decode input with
  | .error _ => some (none, c)
  | .ok msg =>
    if msg.Typ = Message_NOTIFY then
      match d.handler.HandleNotify msg.Data with
      | some _ => some (none, c)
      | none => some (none, c)
    else if msg.Typ = Message_REQUEST then
      match d.handler.HandleRequest msg.Data with
      | .error _ => some (none, c)
      | .ok output =>
        match d.codec.Encode { msg with Data := output, Typ := Message_RESPONSE } with
        | .error _ => some (none, c)
        | .ok data => some (some data, c)
    else if msg.Typ = Message_RESPONSE then
      match SyncedMap.Get c.respMap msg.Id with
      | some respCh =>
        match chanPut c.chans respCh msg.Data with
        | some chans => some (none, { c with chans := chans })
        | none => none
      | none => some (none, c)
    else some (none, c)

/-- Where a call of `Conn.Send` stands. `start`: before `codec.Encode`. `enqueue data`: the
reply channel is registered, `safeSend` is next. `wait`: in the final `select`.
`exit r`: the return value is fixed, the deferred `respMap.Delete` is next. `done r`: `Send`
has returned `r`. -/
inductive SendPc where
  | start
  | enqueue (data : Bytes)
  | wait
  | exit (r : Except GoError Bytes)
  | done (r : Except GoError Bytes)
  deriving Repr

/-- One call `c.Send(ctx, input)`: the id `uuid.New().String()` drew, the payload, the
caller's context as it is now, the address of the reply channel `respCh` and the program
point. -/
structure SendCall where
  id : String
  input : Bytes
  ctx : Context
  respCh : ChanRef
  pc : SendPc
  deriving Repr

/-- A fresh call of `Send`. -/
def SendCall.begin (id : String) (input : Bytes) (ctx : Context) : SendCall :=
  { id := id, input := input, ctx := ctx, respCh := 0, pc := .start }

/-- One step of `Conn.Send`. `none`: the goroutine is blocked, or `Send` has returned.
`pick` resolves a `select` in which both cases can proceed (`true` for the first case). -/
def Conn.sendStep (d : ConnDeps) (pick : Bool) (t : SendCall) (c : Conn) :
    Option (SendCall × Conn) :=
  match t.pc with
  | .start =>
    match d.codec.Encode { Id := t.id, Typ := Message_REQUEST, Data := t.input } with
    | .error err => some ({ t with pc := .done (.error err) }, c)
    | .ok data =>
      some ({ t with respCh := c.chans.length, pc := .enqueue data },
            { c with chans := c.chans ++ [[]],
                     respMap := SyncedMap.Set c.respMap t.id c.chans.length })
  | .enqueue data =>
    match safeSend t.ctx c.sendCh data pick with
    | none => none
    | some (res, sendCh) =>
      match res.err with
      | some err => some ({ t with pc := .exit (.error err) }, { c with sendCh := sendCh })
      | none =>
        if res.closed then
          some ({ t with pc := .exit (.error GoError.ErrConnectionClosed) },
                { c with sendCh := sendCh })
        else some ({ t with pc := .wait }, { c with sendCh := sendCh })
  | .wait =>
    match chanTake c.chans t.respCh, t.ctx with
    | none, none => none
    | some (resp, chans), none => some ({ t with pc := .exit (.ok resp) }, { c with chans := chans })
    | none, some cause => some ({ t with pc := .exit (.error cause.toError) }, c)
    | some (resp, chans), some cause =>
      if pick then some ({ t with pc := .exit (.ok resp) }, { c with chans := chans })
      else some ({ t with pc := .exit (.error cause.toError) }, c)
  | .exit r => some ({ t with pc := .done r }, { c with respMap := SyncedMap.Delete c.respMap t.id })
  | .done _ => none

/-- Go `Conn.Notify` with the id `uuid.New().String()` drew. Outer `none`: the goroutine is
blocked in `safeSend`. Otherwise the returned error (`none` for nil) and the connection
state afterwards. -/
def Conn.Notify (d : ConnDeps) (pick : Bool) (ctx : Context) (id : String) (input : Bytes)
    (c : Conn) : Option (Option GoError × Conn) :=
  match d.codec.Encode { Id := id, Typ := Message_NOTIFY, Data := input } with
  | .error err => some (some err, c)
  | .ok data =>
    match safeSend ctx c.sendCh data pick with
    | none => none
    | some (res, sendCh) =>
      match res.err with
      | some err => some (some err, { c with sendCh := sendCh })
      | none =>
        if res.closed then some (some GoError.ErrConnectionClosed, { c with sendCh := sendCh })
        else some (none, { c with sendCh := sendCh })

/-! ## Pool (`ws/pool.go`) -/

/-- Go `Pool`: the map `clients` from connection to client id, as an association list. Every
method runs under the mutex. -/
structure Pool where
  clients : List (ConnRef × GoString)
  deriving DecidableEq, Repr

/-- Go `NewPool`. -/
def NewPool : Pool := { clients := [] }

/-- One `for client, clientId := range m.clients` loop. Go visits the entries of a map in an
unspecified order: `visit` is the order of this loop, some permutation of the entries. -/
structure MapRange (entries : List (ConnRef × GoString)) where
  visit : List (ConnRef × GoString)
  perm : visit.Perm entries

/-- The loop that visits the entries in the order of the association list. -/
def MapRange.inOrder (entries : List (ConnRef × GoString)) : MapRange entries :=
  { visit := entries, perm := List.Perm.refl entries }

/-- Go `Pool.GetConn`: the first connection the loop visits; `none` is Go's nil. -/
def Pool.GetConn (m : Pool) (it : MapRange m.clients) : Option ConnRef :=
  it.visit.head?.map Prod.fst

/-- Go `Pool.GetConnByID`: `none` is Go's nil. -/
def Pool.GetConnByID (m : Pool) (it : MapRange m.clients) (id : GoString) : Option ConnRef :=
  (it.visit.find? (fun e => decide (e.2 = id))).map Prod.fst

/-- Go `Pool.GetConnsByID`. -/
def Pool.GetConnsByID (m : Pool) (it : MapRange m.clients) (id : GoString) : List ConnRef :=
  (it.visit.filter (fun e => decide (e.2 = id))).map Prod.fst

/-- Go `Pool.Size`. -/
def Pool.Size (m : Pool) : Nat := m.clients.length

/-- Go `Pool.unregister`: `delete(m.clients, conn)`. -/
def Pool.unregister (m : Pool) (conn : ConnRef) : Pool :=
  { clients := m.clients.filter (fun e => !decide (e.1 = conn)) }

/-- Go `Pool.register`: `m.clients[conn] = conn.clientID`. -/
def Pool.register (m : Pool) (conn : ConnRef) (clientID : GoString) : Pool :=
  { clients := (conn, clientID) :: (m.unregister conn).clients }

/-- The pool is a Go map: no connection is a key twice. -/
def Pool.Valid (m : Pool) : Prop := (m.clients.map Prod.fst).Nodup

instance (m : Pool) : Decidable m.Valid := by
  unfold Pool.Valid
  infer_instance

/-- The pool after `register` has been called for each of the connections in order, all
with the client id `clientID`. -/
def Pool.registerAll (m : Pool) (conns : List ConnRef) (clientID : GoString) : Pool :=
  conns.foldl (fun pool conn => pool.register conn clientID) m

/-! ## One `Send` running against its environment -/

/-- One connection with the pool it is registered in and one call of `Send` on it. -/
structure Tunnel where
  pool : Pool
  self : ConnRef
  conn : Conn
  call : SendCall
  deriving Repr

/-- What can happen next on a tunnel. `send pick`: the goroutine running `Send` takes a
step. `received input`: the read loop has read the frame `input` and a goroutine runs
`handleReceived` on it (the reply it returns, if any, is enqueued on `sendCh`).
`teardown`: the read loop exits and runs its deferred function, `pool.unregister(c)` and
`c.sendClose()`. `written`: the write loop takes the oldest frame off `sendCh`.
`ctxDone cause`: the context of the `Send` is done. -/
inductive Action where
  | send (pick : Bool)
  | received (input : Bytes)
  | teardown
  | written
  | ctxDone (cause : CtxErr)

/-- The deferred function of `Conn.readLoop`. -/
def Tunnel.readLoopExit (s : Tunnel) : Tunnel :=
  { s with pool := s.pool.unregister s.self,
           conn := { s.conn with sendCh := s.conn.sendCh.closeOnce } }

/-- One step of the tunnel; `none` when the action cannot proceed now. -/
def Tunnel.step (d : ConnDeps) (s : Tunnel) : Action → Option Tunnel
  | .send pick =>
    match s.conn.sendStep d pick s.call with
    | some (call, conn) => some { s with call := call, conn := conn }
    | none => none
  | .received input =>
    match s.conn.handleReceived d input with
    | none => none
    | some (none, conn) => some { s with conn := conn }
    | some (some resp, conn) =>
      match safeSend none conn.sendCh resp true with
      | some (_, sendCh) => some { s with conn := { conn with sendCh := sendCh } }
      | none => none
  | .teardown => some s.readLoopExit
  | .written =>
    match s.conn.sendCh.buf with
    | [] => none
    | _ :: rest => some { s with conn := { s.conn with sendCh := { s.conn.sendCh with buf := rest } } }
  | .ctxDone cause =>
    match s.call.ctx with
    | none => some { s with call := { s.call with ctx := some cause } }
    | some _ => some s

/-- A run of the tunnel: the actions in order; `none` when one of them cannot proceed. -/
def Tunnel.run (d : ConnDeps) (s : Tunnel) : List Action → Option Tunnel
  | [] => some s
  | a :: rest =>
    match s.step d a with
    | some s1 => s1.run d rest
    | none => none

/-! ## HTTP (`net/http` as the edge server uses it) -/

/-- A byte that may occur in a header field name (an HTTP token character). -/
def validHeaderFieldChar (c : Char) : Bool :=
  c.isAlphanum || "!#$%&*+-.^_|~".data.contains c || c.toNat = 39 || c.toNat = 96

/-- The loop of `textproto.CanonicalMIMEHeaderKey`: the first letter and every letter after
a hyphen in upper case, the other letters in lower case. -/
def canonicalLoop : Bool → List Char → List Char
  | _, [] => []
  | upper, c :: rest =>
    (if upper then c.toUpper else c.toLower) :: canonicalLoop (c = '-') rest

/-- Go `textproto.CanonicalMIMEHeaderKey`: a key with a character that is no token character is
returned unchanged. -/
def CanonicalMIMEHeaderKey (key : String) : String :=
  if key.data.all validHeaderFieldChar then String.mk (canonicalLoop true key.data) else key

/-- Go `http.Header`, a map from field name to the list of its values, as an association list
(the first binding of a key is the live one). A value is any Go string. -/
abbrev Header := List (String × List GoString)

/-- The plain map read `h[key]`: `none` when the key is absent. -/
def Header.lookup (h : Header) (key : String) : Option (List GoString) :=
  (h.find? (fun e => decide (e.1 = key))).map Prod.snd

/-- Go `Header.Get`: the first value of the canonical form of `key`, or `""`. -/
def Header.Get (h : Header) (key : String) : GoString :=
  match Header.lookup h (CanonicalMIMEHeaderKey key) with
  | some (v :: _) => v
  | _ => ""

/-- Go `Header.Del`. -/
def Header.Del (h : Header) (key : String) : Header :=
  h.filter (fun e => !decide (e.1 = CanonicalMIMEHeaderKey key))

/-- Go `Header.Set`. -/
def Header.Set (h : Header) (key : String) (value : GoString) : Header :=
  (CanonicalMIMEHeaderKey key, [value]) :: Header.Del h key

/-- Go `Header.Add`: appends `value` to the values of the canonical form of `key`. -/
def Header.Add (h : Header) (key : String) (value : GoString) : Header :=
  match Header.lookup h (CanonicalMIMEHeaderKey key) with
  | some vs => h.map (fun e => if e.1 = CanonicalMIMEHeaderKey key then (e.1, vs ++ [value]) else e)
  | none => h ++ [(CanonicalMIMEHeaderKey key, [value])]

/-- A value of type `http.Header` as a request or a response carries it: `none` is the nil
map, `some h` a map that has been made, with the entries `h`. -/
abbrev NilableHeader := Option Header

/-- The entries a `range` over the map visits and a read sees: none for the nil map. -/
def NilableHeader.entries (h : NilableHeader) : Header := h.getD []

/-- Go `Header.Get` on a map that may be nil. -/
def NilableHeader.Get (h : NilableHeader) (key : String) : GoString :=
  Header.Get h.entries key

/-- The fields of `url.URL` that the proxy reads or sets. -/
structure URL where
  Scheme : String
  Host : String
  Path : String
  RawPath : String
  RawQuery : String
  deriving DecidableEq, Repr

/-- Go `http.Request`: `Body` is what `io.ReadAll(req.Body)` returns. -/
structure Request where
  Method : String
  URL : URL
  Header : NilableHeader
  Body : Except GoError Bytes

/-- An `http.ResponseWriter` with the behaviour of `httptest.ResponseRecorder`, which is also
that of the server's writer for the final status codes (200 and above): `header` is the map
`w.Header()` returns, `wroteHeader` the status code and the copy of that map taken by the
first `WriteHeader` (or the first `Write`), `body` the bytes written, `writeErr` the error a
`Write` of bytes returns when the status allows a body (`none` for a healthy writer, which
accepts all bytes). Header fields the server adds by itself when it serialises the response
(`Date`, `Content-Length`, a detected `Content-Type`) are not part of `wroteHeader`. -/
structure ResponseWriter where
  header : Header
  wroteHeader : Option (Nat × Header)
  body : Bytes
  writeErr : Option GoError
  deriving DecidableEq, Repr

/-- Go `httptest.NewRecorder()`: nothing written yet. -/
def NewRecorder : ResponseWriter :=
  { header := [], wroteHeader := none, body := [], writeErr := none }

/-- The status code of the response, once the header is written. -/
def ResponseWriter.status (w : ResponseWriter) : Option Nat := w.wroteHeader.map Prod.fst

/-- Sending the header with a valid status code: only the first call has an effect, and it
fixes the status and the headers of the response. -/
def ResponseWriter.sendHeader (w : ResponseWriter) (code : Nat) : ResponseWriter :=
  match w.wroteHeader with
  | some _ => w
  | none => { w with wroteHeader := some (code, w.header) }

/-- Go `w.WriteHeader(code)`: `none` when the call panics, which it does for a code outside
`100..999` while the header is not sent yet. -/
def ResponseWriter.WriteHeader (w : ResponseWriter) (code : Int) : Option ResponseWriter :=
  match w.wroteHeader with
  | some _ => some w
  | none => if code < 100 ∨ code > 999 then none else some (w.sendHeader code.toNat)

/-- Go `http.ErrBodyNotAllowed`. -/
def ErrBodyNotAllowed : GoError :=
  GoError.errorString "http: request method or response status code does not allow body"

/-- Go `bodyAllowedForStatus`: no body with the status codes `1xx`, 204 and 304. -/
def bodyAllowedForStatus (status : Nat) : Bool :=
  !(decide (100 ≤ status ∧ status ≤ 199) || decide (status = 204) || decide (status = 304))

/-- The status code of the recorder now, `rw.Code`: 200 until the header is written. -/
def ResponseWriter.Code (w : ResponseWriter) : Nat :=
  match w.wroteHeader with
  | some (code, _) => code
  | none => 200

/-- Go `w.Write(p)`, as `response.write` of the server does it: the header is sent with
status 200 when it is not sent yet; a write of no bytes then returns nil; when the status
code does not allow a body nothing is written and the result is `http.ErrBodyNotAllowed`;
otherwise the bytes are written, and a failing writer takes no bytes and returns its error.
`httptest.ResponseRecorder` returns the same errors. (On a first write without `WriteHeader`
the stack also picks a `Content-Type` with `http.DetectContentType` when the header has none;
that function is not modelled, and every function here that writes a body has written the
header before.) -/
def ResponseWriter.Write (w : ResponseWriter) (p : Bytes) : Option GoError × ResponseWriter :=
  let w1 := w.sendHeader 200
  if p = [] then (none, w1)
  else if !bodyAllowedForStatus w1.Code then (some ErrBodyNotAllowed, w1)
  else
    match w1.writeErr with
    | some err => (some err, w1)
    | none => (none, { w1 with body := w1.body ++ p })

/-- Go `http.Error(w, error, code)` for a valid status code: sets the content type headers,
writes the status, then the text and a newline (`fmt.Fprintln`), ignoring the result of
that write. -/
def httpError (w : ResponseWriter) (error : GoString) (code : Nat) : ResponseWriter :=
  let h := Header.Set (Header.Set (Header.Del w.header "Content-Length")
    "Content-Type" "text/plain; charset=utf-8") "X-Content-Type-Options" "nosniff"
  (({ w with header := h }.sendHeader code).Write (error.bytes ++ [10])).2

/-- Go `http.StatusBadRequest`. -/
def StatusBadRequest : Nat := 400

/-- Go `http.StatusUnprocessableEntity`. -/
def StatusUnprocessableEntity : Nat := 422

/-- Go `http.StatusBadGateway`. -/
def StatusBadGateway : Nat := 502

/-! ## Edge server (`ws/serve.go`) -/

/-- Go `HeaderClientId`. -/
def HeaderClientId : String := "x-backstream-client-id"

/-- The interface `ProxyHandler`: an `EventHandler` with `ProxyRequest(conn, w, r)`. The
result of `ProxyRequest` is `none` when the call panics, otherwise the returned error
(`none` for nil) and the response writer as the call leaves it. -/
structure ProxyHandler extends EventHandler where
  ProxyRequest : ConnRef → ResponseWriter → Request →
    Option (Option GoError × ResponseWriter)

/-- Go `Serve`. -/
structure Serve where
  pool : Pool
  handler : ProxyHandler
  requireClientId : Bool
  codec : Codec Message

/-- What one proxied request did: the response writer afterwards, the connections on which
`ProxyRequest` was called, in order, and the call of `http.Error` the server itself made,
if any (status code and text). -/
structure ProxyOutcome where
  w : ResponseWriter
  tried : List ConnRef
  errorSent : Option (Nat × GoString)

/-- The text `fmt.Sprintf("connection for clientID='%s' not found", clientID)`. -/
def notFoundMsg (clientID : GoString) : GoString :=
  GoString.ofString "connection for clientID='" ++ clientID ++ GoString.ofString "' not found"

/-- Go `Serve.HandleProxy`; `none` when `ProxyRequest` panics. `it` is the order in which
`GetConnByID` visits the pool. -/
def Serve.HandleProxy (s : Serve) (it : MapRange s.pool.clients) (w : ResponseWriter)
    (r : Request) : Option ProxyOutcome :=
  let clientID := r.Header.Get HeaderClientId
  match s.pool.GetConnByID it clientID with
  | none =>
    let msg := notFoundMsg clientID
    some { w := httpError w msg StatusUnprocessableEntity, tried := [],
           errorSent := some (StatusUnprocessableEntity, msg) }
  | some conn =>
    match s.handler.ProxyRequest conn w r with
    | none => none
    | some (some err, w1) =>
      some { w := httpError w1 err.Error StatusBadGateway, tried := [conn],
             errorSent := some (StatusBadGateway, err.Error) }
    | some (none, w1) => some { w := w1, tried := [conn], errorSent := none }

/-- The `for _, conn := range conns` loop of `Serve.HandleProxyWithRetry`, from the
connections still to visit, the value of `err`, the writer and the connections tried so
far. The result is `none` when `ProxyRequest` panics; otherwise the value of `err` when the
function leaves the loop (by `return` with `err == nil`, or at the end of the slice), the
writer and the connections tried. -/
def Serve.retryLoop (s : Serve) (r : Request) :
    List ConnRef → Option GoError → ResponseWriter → List ConnRef →
      Option (Option GoError × ResponseWriter × List ConnRef)
  | [], err, w, tried => some (err, w, tried)
  | conn :: rest, _, w, tried =>
    match s.handler.ProxyRequest conn w r with
    | none => none
    | some (none, w1) => some (none, w1, tried ++ [conn])
    | some (some err, w1) =>
      if errorsIs err GoError.ErrConnectionClosed then
        s.retryLoop r rest (some err) w1 (tried ++ [conn])
      else
        s.retryLoop r rest (some err) w1 (tried ++ [conn])

/-- Go `Serve.HandleProxyWithRetry`; `none` when `ProxyRequest` panics. `it` is the order in
which `GetConnsByID` visits the pool. -/
def Serve.HandleProxyWithRetry (s : Serve) (it : MapRange s.pool.clients)
    (w : ResponseWriter) (r : Request) : Option ProxyOutcome :=
  let clientID := r.Header.Get HeaderClientId
  let conns := s.pool.GetConnsByID it clientID
  if conns.length = 0 then
    let msg := notFoundMsg clientID
    some { w := httpError w msg StatusUnprocessableEntity, tried := [],
           errorSent := some (StatusUnprocessableEntity, msg) }
  else
    match s.retryLoop r conns none w [] with
    | none => none
    | some (some err, w1, tried) =>
      some { w := httpError w1 err.Error StatusBadGateway, tried := tried,
             errorSent := some (StatusBadGateway, err.Error) }
    | some (none, w1, tried) => some { w := w1, tried := tried, errorSent := none }

/-- Go `ServeOption`. -/
abbrev ServeOption := Serve → Serve

/-- Go `WithRequireClientId`. -/
def WithRequireClientId (b : Bool) : ServeOption := fun s => { s with requireClientId := b }

/-- Go `NewServe`: an empty pool, the require-client-id policy on, then the options in
order. -/
def NewServe (handler : ProxyHandler) (codec : Codec Message) (opts : List ServeOption) :
    Serve :=
  opts.foldl (fun serve opt => opt serve)
    { pool := NewPool, handler := handler, requireClientId := true, codec := codec }

/-- What `upgrader.Upgrade(w, r, nil)` of the websocket library does, seen from the server:
the error it returns (`none` for nil, the connection is then a websocket) and the response
writer afterwards (on failure the upgrader has replied with an HTTP error itself). -/
structure Upgrader where
  Upgrade : ResponseWriter → Request → Option GoError × ResponseWriter

/-- Go `handleConn`, as far as the registry goes: the connection it makes at the address `ref`
and the pool after `pool.register(client)`. -/
def handleConn (pool : Pool) (ref : ConnRef) (clientID : GoString) : Pool × Conn :=
  (pool.register ref clientID, Conn.init clientID)

/-- What one upgrade request did: the response writer and the pool afterwards, whether
`upgrader.Upgrade` was called, and the connection made and registered, if any. -/
structure WSOutcome where
  w : ResponseWriter
  pool : Pool
  upgradeCalled : Bool
  conn : Option (ConnRef × Conn)

/-- The text `fmt.Sprintf("header %s is required", HeaderClientId)`. -/
def requiredMsg : String := "header " ++ HeaderClientId ++ " is required"

/-- Go `Serve.HandleWS`; `ref` is the address of the `Conn` that `handleConn` allocates. -/
def Serve.HandleWS (s : Serve) (up : Upgrader) (ref : ConnRef) (w : ResponseWriter)
    (r : Request) : WSOutcome :=
  let clientID := r.Header.Get HeaderClientId
  if s.requireClientId && clientID = "" then
    { w := httpError w requiredMsg StatusBadRequest, pool := s.pool, upgradeCalled := false,
      conn := none }
  else
    match up.Upgrade w r with
    | (some _, w1) => { w := w1, pool := s.pool, upgradeCalled := true, conn := none }
    | (none, w1) =>
      { w := w1, pool := (handleConn s.pool ref clientID).1, upgradeCalled := true,
        conn := some (ref, (handleConn s.pool ref clientID).2) }

/-- One upgrade request as the server meets it: the upgrader's behaviour on it, the address
of the connection it would make, the response writer and the request. -/
abbrev WSRequest := Upgrader × ConnRef × ResponseWriter × Request

/-- The server after it has handled the upgrade requests in order. -/
def Serve.afterWS (s : Serve) : List WSRequest → Serve
  | [] => s
  | q :: rest =>
    Serve.afterWS { s with pool := (s.HandleWS q.1 q.2.1 q.2.2.1 q.2.2.2).pool } rest

/-! ## Proxy exchange (`handler/handler.go`, `handler/convert.go`) -/

/-- Go `time.Duration`, a number of nanoseconds. -/
abbrev Duration := Int

/-- Go `HeaderRequestTimeout`. -/
def HeaderRequestTimeout : String := "x-backstream-request-timeout"

/-- Go `DefaultRequestTimeout`, three seconds. -/
def DefaultRequestTimeout : Duration := 3 * 1000000000

/-- The kinds of `structpb.Value` that `AsSlice` can yield, as far as `fromListString`
tells them apart: a string, or something else. -/
inductive StructValue where
  | StringValue (s : GoString)
  | NullValue
  | BoolValue (b : Bool)
  | NumberValue (n : Int)
  deriving DecidableEq, Repr

/-- Go `*structpb.ListValue`: `none` is the nil pointer. -/
abbrev ListValue := Option (List StructValue)

/-- The header map of an event, `map[string]*structpb.ListValue`: `none` is the nil map,
`some h` a map that has been made, with the entries `h`. -/
abbrev EventHeaders := Option (List (String × ListValue))

/-- The entries a `range` over the map visits: none for the nil map. -/
def EventHeaders.entries (hs : EventHeaders) : List (String × ListValue) := hs.getD []

/-- Modelled from the spec: `message.EventHTTPRequest` of the generated package
`internal/message`, with the fields `handler/convert.go` uses. -/
structure EventHTTPRequest where
  Method : String
  RawPath : String
  RawQuery : String
  Headers : EventHeaders
  Body : Bytes
  deriving DecidableEq, Repr

/-- Modelled from the spec: `message.EventHTTPResponse` of the generated package
`internal/message`, with the fields `handler/convert.go` uses. -/
structure EventHTTPResponse where
  StatusCode : Int
  Headers : EventHeaders
  Body : Bytes
  deriving DecidableEq, Repr

/-- The interface `HttpCodec` of `handler/httpcodec.go`. -/
structure HttpCodec where
  RequestCodec : Codec EventHTTPRequest
  ResponseCodec : Codec EventHTTPResponse
  MessageCodec : Codec Message

/-- Go `structpb.NewValue` on a string: the string value, or an error for a string that is
not valid UTF-8 (`utf8.ValidString`). The text of that error quotes the string and is not
stable from build to build; it is abbreviated here. -/
def NewValue (v : GoString) : Except GoError StructValue :=
  if v.Valid then .ok (StructValue.StringValue v)
  else .error (GoError.errorString "proto: invalid UTF-8 in string")

/-- Go `toListString`: `structpb.NewList` of the strings, which makes a value of each in
order and returns the error of the first that is not valid UTF-8. -/
def toListString (vs : List GoString) : Except GoError ListValue :=
  (vs.mapM NewValue).map some

/-- Go `fromListString`: the strings of the list in order, or an error at the first value
that is not a string; the nil list gives the nil slice. -/
def fromListString (vs : ListValue) : Except GoError (List GoString) :=
  match vs with
  | none => .ok []
  | some l =>
    l.mapM (fun v =>
      match v with
      | .StringValue s => .ok s
      | _ => .error (GoError.errorString "header value not a string"))

/-- Go `toHeaders`: the map it returns is made by `make`, so it is never nil. The loop stops
at the first key with a value that is not valid UTF-8; as the text of the error is
abbreviated, the result does not depend on the order in which the loop meets the keys. -/
def toHeaders (hs : NilableHeader) : Except GoError EventHeaders :=
  (hs.entries.mapM (fun e => (toListString e.2).map (fun l => (e.1, l)))).map some

/-- Every value of the header is valid UTF-8. -/
def Header.ValidUTF8 (h : Header) : Bool := h.all (fun e => e.2.all GoString.Valid)

/-- Go `fromHeaders`: the map it returns is made by `make`, so it is never nil. -/
def fromHeaders (hs : EventHeaders) : Except GoError NilableHeader :=
  (hs.entries.mapM (fun e => (fromListString e.2).map (fun l => (e.1, l)))).map some

/-- Go `http.Response`: `Body` is what `io.ReadAll(resp.Body)` returns. -/
structure Response where
  StatusCode : Int
  Header : NilableHeader
  Body : Except GoError Bytes

/-- The Go conversion `int32(n)` of an `int`: the value modulo `2 ^ 32` in the signed
range. -/
def int32 (n : Int) : Int := (n + 2 ^ 31) % 2 ^ 32 - 2 ^ 31

/-- Go `fromHttpResponse`. -/
def fromHttpResponse (resp : Response) : Except GoError EventHTTPResponse :=
  match resp.Body with
  | .error err => .error err
  | .ok body =>
    match toHeaders resp.Header with
    | .error err => .error err
    | .ok headers =>
      .ok { StatusCode := int32 resp.StatusCode, Body := body, Headers := headers }

/-- Go `toHttpResponse`: the body of the response is a reader over the bytes of the event. -/
def toHttpResponse (event : EventHTTPResponse) : Except GoError Response :=
  match fromHeaders event.Headers with
  | .error err => .error err
  | .ok header => .ok { StatusCode := event.StatusCode, Header := header, Body := .ok event.Body }

/-- Go `fromHttpRequest`. -/
def fromHttpRequest (req : Request) : Except GoError EventHTTPRequest :=
  match req.Body with
  | .error err => .error err
  | .ok body =>
    let rawPath := if req.URL.RawPath = "" then req.URL.Path else req.URL.RawPath
    match toHeaders req.Header with
    | .error err => .error err
    | .ok headers =>
      .ok { Method := req.Method, RawPath := rawPath, RawQuery := req.URL.RawQuery,
            Headers := headers, Body := body }

/-! ## URLs (`net/url`) and `http.NewRequest` -/

/-- The modes of escaping of `net/url` that the proxy reaches. -/
inductive encoding where
  | encodePath
  | encodeHost
  deriving DecidableEq, Repr

/-- Go `shouldEscape(c, mode)` for a byte `c`. -/
def shouldEscape (c : Fin 256) (mode : encoding) : Bool :=
  let ch := Char.ofNat c.val
  if ch.isAlphanum then false
  else if mode = .encodeHost &&
      ("!$&()*+,;=:[]<>".data.contains ch || ch.toNat = 34 || ch.toNat = 39) then false
  else if "-_.~".data.contains ch then false
  else if "$&+,/:;=?@".data.contains ch then
    match mode with
    | .encodePath => ch = '?'
    | .encodeHost => true
  else true

/-- Go `upperhex`: the digit of a number below 16. -/
def upperhex (n : Nat) : Char := "0123456789ABCDEF".data.getD n '0'

/-- Go `ishex`. -/
def ishex (c : Char) : Bool :=
  decide (48 ≤ c.toNat ∧ c.toNat ≤ 57) || decide (97 ≤ c.toNat ∧ c.toNat ≤ 102) ||
    decide (65 ≤ c.toNat ∧ c.toNat ≤ 70)

/-- Go `unhex`. -/
def unhex (c : Char) : Nat :=
  if 48 ≤ c.toNat ∧ c.toNat ≤ 57 then c.toNat - 48
  else if 97 ≤ c.toNat ∧ c.toNat ≤ 102 then c.toNat - 97 + 10
  else if 65 ≤ c.toNat ∧ c.toNat ≤ 70 then c.toNat - 65 + 10
  else 0

/-- One step of the loop of Go `escape`: a byte that should be escaped becomes `%` and its
two upper-case hexadecimal digits, every other byte (an ASCII character) is kept. -/
def escapeByte (c : Fin 256) (mode : encoding) : List Char :=
  if shouldEscape c mode then ['%', upperhex (c.val / 16), upperhex (c.val % 16)]
  else [Char.ofNat c.val]

/-- The loop of Go `escape` over the bytes of the string. -/
def escapeBytes (b : Bytes) (mode : encoding) : List Char :=
  b.flatMap (fun c => escapeByte c mode)

/-- Go `escape(s, mode)`. -/
def escape (s : String) (mode : encoding) : String := String.mk (escapeBytes (utf8 s) mode)

/-- Go `unescape(s, mode)` in the modes `encodePath` and `encodeFragment`, as the bytes of
the result: `%` must be followed by two hexadecimal digits and stands for the byte they
name; every other character stands for its own bytes. -/
def unescape : List Char → Except GoError Bytes
  | [] => .ok []
  | c :: rest =>
    if c = '%' then
      match rest with
      | h1 :: h2 :: rest1 =>
        if ishex h1 && ishex h2 then
          (unescape rest1).map (fun t => Fin.ofNat (unhex h1 * 16 + unhex h2) :: t)
        else .error (.errorString "invalid URL escape")
      | _ => .error (.errorString "invalid URL escape")
    else (unescape rest).map (fun t => utf8EncodeChar c ++ t)

/-- Go `validEncoded(s, mode)`. -/
def validEncoded (s : List Char) (mode : encoding) : Bool :=
  s.all (fun c =>
    "!$&()*+,;=:@[]%".data.contains c || c.toNat = 39 ||
      (decide (c.toNat < 0x80) && !shouldEscape (Fin.ofNat c.toNat) mode))

/-- Go `strings.Cut(s, sep)` for a separator of one character: the text before the first
`sep` and the text after it; without a `sep`, all of `s` and the empty text. -/
def cut (s : List Char) (sep : Char) : List Char × List Char :=
  (s.takeWhile (fun c => c ≠ sep), (s.dropWhile (fun c => c ≠ sep)).drop 1)

/-- Go `URL.EscapedPath`. -/
def URL.EscapedPath (u : URL) : String :=
  if u.RawPath ≠ "" ∧ validEncoded u.RawPath.data .encodePath = true ∧
      unescape u.RawPath.data = .ok (utf8 u.Path) then u.RawPath
  else if u.Path = "*" then "*"
  else escape u.Path .encodePath

/-- Go `URL.String` for a URL whose fields `Opaque`, `User`, `ForceQuery`, `OmitHost` and
`Fragment` have their zero values. -/
def URL.String (u : URL) : String :=
  let buf := if u.Scheme ≠ "" then u.Scheme ++ ":" else ""
  let buf :=
    if u.Scheme ≠ "" ∨ u.Host ≠ "" then
      (if u.Host ≠ "" ∨ u.Path ≠ "" then buf ++ "//" else buf) ++
        (if u.Host ≠ "" then escape u.Host .encodeHost else "")
    else buf
  let path := u.EscapedPath
  let buf := if path ≠ "" ∧ path.data.head? ≠ some '/' ∧ u.Host ≠ "" then buf ++ "/" else buf
  let buf := if buf = "" ∧ (cut path.data '/').1.contains ':' then buf ++ "./" else buf
  let buf := buf ++ path
  if u.RawQuery ≠ "" then buf ++ "?" ++ u.RawQuery else buf

/-- Go `stringContainsCTLByte`. -/
def stringContainsCTLByte (s : List Char) : Bool :=
  s.any (fun c => decide (c.toNat < 0x20) || decide (c.toNat = 0x7f))

/-- The loop of Go `getScheme`, at index `i` with the characters from `i` on still to read. -/
def getSchemeLoop (rawURL : List Char) : Nat → List Char →
    Except GoError (List Char × List Char)
  | _, [] => .ok ([], rawURL)
  | i, c :: rest =>
    if c.isAlpha then getSchemeLoop rawURL (i + 1) rest
    else if c.isDigit || c = '+' || c = '-' || c = '.' then
      if i = 0 then .ok ([], rawURL) else getSchemeLoop rawURL (i + 1) rest
    else if c = ':' then
      if i = 0 then .error (.errorString "missing protocol scheme")
      else .ok (rawURL.take i, rawURL.drop (i + 1))
    else .ok ([], rawURL)

/-- Go `getScheme`: the scheme and the text after its colon. -/
def getScheme (rawURL : List Char) : Except GoError (List Char × List Char) :=
  getSchemeLoop rawURL 0 rawURL

/-- Go `parseAuthority` for an authority that is a plain host name, made of ASCII letters,
digits, `-` and `.` only: there is no user information and the host is the authority.
Other authorities (user information, a port, an IP literal, escapes) are outside this
model: `none`. -/
def parseAuthority (authority : List Char) : Option String :=
  if authority.all (fun c => c.isAlphanum || c = '-' || c = '.') then some (String.mk authority)
  else none

/-- Go `URL.setPath`. A Go string holds any bytes, a string of this embedding valid UTF-8
only: a path that unescapes to bytes that are no valid UTF-8 is outside the model, `none`. -/
def URL.setPath (u : URL) (p : List Char) : Option (Except GoError URL) :=
  match unescape p with
  | .error err => some (.error err)
  | .ok path =>
    match utf8Decode path with
    | none => none
    | some s =>
      some (.ok { u with Path := s,
                         RawPath := if p = (escape s .encodePath).data then "" else String.mk p })

/-- Go `parse(rawURL, false)`, on the fields of `URL`; `none` outside the model. -/
def parse (rawURL : List Char) : Option (Except GoError URL) :=
  if stringContainsCTLByte rawURL then
    some (.error (.errorString "net/url: invalid control character in URL"))
  else if rawURL = ['*'] then
    some (.ok { Scheme := "", Host := "", Path := "*", RawPath := "", RawQuery := "" })
  else
    match getScheme rawURL with
    | .error err => some (.error err)
    | .ok (scheme0, rest0) =>
      let scheme := scheme0.map Char.toLower
      let split :=
        if rest0.getLast? = some '?' ∧ rest0.count '?' = 1 then (rest0.dropLast, [])
        else cut rest0 '?'
      let rest := split.1
      let url : URL := { Scheme := String.mk scheme, Host := "", Path := "", RawPath := "",
                         RawQuery := String.mk split.2 }
      if rest.head? ≠ some '/' ∧ scheme ≠ [] then some (.ok url)
      else if rest.head? ≠ some '/' ∧ (cut rest '/').1.contains ':' then
        some (.error (.errorString "first path segment in URL cannot contain colon"))
      else if (scheme ≠ [] ∨ rest.take 3 ≠ ['/', '/', '/']) ∧ rest.take 2 = ['/', '/'] then
        match parseAuthority ((rest.drop 2).takeWhile (fun c => c ≠ '/')) with
        | none => none
        | some host => { url with Host := host }.setPath ((rest.drop 2).dropWhile (fun c => c ≠ '/'))
      else url.setPath rest

/-- Go `url.Parse`: the fragment is cut off and checked, the rest parsed. -/
def Parse (rawURL : String) : Option (Except GoError URL) :=
  match parse (cut rawURL.data '#').1 with
  | none => none
  | some (.error err) => some (.error (.wrapError "parse" err))
  | some (.ok url) =>
    if (cut rawURL.data '#').2 = [] then some (.ok url)
    else
      match unescape (cut rawURL.data '#').2 with
      | .error err => some (.error (.wrapError "parse" err))
      | .ok _ => some (.ok url)

/-- Go `validMethod`: a method is a non-empty HTTP token. -/
def validMethod (method : String) : Bool :=
  method ≠ "" && method.data.all validHeaderFieldChar

/-- Go `removeEmptyPort`: a host that ends in a colon after its last `]` loses the colon. -/
def removeEmptyPort (host : String) : String :=
  if (host.data.reverse.takeWhile (fun c => c ≠ ']')).contains ':' ∧
      host.data.getLast? = some ':' then String.mk host.data.dropLast
  else host

/-- Go `http.NewRequest(method, url, bytes.NewReader(body))`; `none` outside the model of
`url.Parse`. -/
def NewRequest (method : String) (url : String) (body : Bytes) :
    Option (Except GoError Request) :=
  let method := if method = "" then "GET" else method
  if !validMethod method then some (.error (.errorString "net/http: invalid method"))
  else
    match Parse url with
    | none => none
    | some (.error err) => some (.error err)
    | some (.ok u) =>
      some (.ok { Method := method, URL := { u with Host := removeEmptyPort u.Host },
                  Header := some [], Body := .ok body })

/-- Go `toHttpRequest`; `none` outside the model of `url.Parse`, where no event leads. -/
def toHttpRequest (event : EventHTTPRequest) : Option (Except GoError Request) :=
  let u : URL := { Scheme := "http", Host := "localhost", RawQuery := event.RawQuery,
                   Path := event.RawPath, RawPath := "" }
  match NewRequest event.Method u.String event.Body with
  | none => none
  | some (.error err) => some (.error err)
  | some (.ok request) =>
    match fromHeaders event.Headers with
    | .error err => some (.error err)
    | .ok header => some (.ok { request with Header := header })

/-- Go `writeHttpResponse`: `none` when `w.WriteHeader` panics. `io.Copy` from a reader over an
empty body makes no call of `Write`. -/
def writeHttpResponse (w : ResponseWriter) (event : EventHTTPResponse) :
    Option (Option GoError × ResponseWriter) :=
  match fromHeaders event.Headers with
  | .error err => some (some err, w)
  | .ok header =>
    let added := header.entries.foldl
      (fun h e => e.2.foldl (fun h1 value => Header.Add h1 e.1 value) h) w.header
    match { w with header := added }.WriteHeader event.StatusCode with
    | none => none
    | some w1 => if event.Body = [] then some (none, w1) else some (w1.Write event.Body)

/-- Go `GetRequestTimeout`, given `time.ParseDuration`: the two results, the duration and the
error (`none` for nil). -/
def GetRequestTimeout (ParseDuration : GoString → Except GoError Duration) (r : Request)
    (defaultRequestTimeout : Duration) : Duration × Option GoError :=
  let rt := r.Header.Get HeaderRequestTimeout
  if rt ≠ "" then
    match ParseDuration rt with
    | .error err => (0, some err)
    | .ok requestTimeout => (requestTimeout, none)
  else (defaultRequestTimeout, none)

/-- What `ProxyHttpRequest` takes from outside the package: `time.ParseDuration`, and what
`conn.Send(ctx, input)` returns on a connection when the context of the request is bounded
by the given timeout (`none`: no timeout added). -/
structure Exchange where
  ParseDuration : GoString → Except GoError Duration
  Send : ConnRef → Option Duration → Bytes → Except GoError Bytes

/-- Go `ProxyHttpRequest`; `none` when `writeHttpResponse` panics. -/
def ProxyHttpRequest (x : Exchange) (conn : ConnRef) (w : ResponseWriter) (r : Request)
    (codec : HttpCodec) (defaultRequestTimeout : Duration) :
    Option (Option GoError × ResponseWriter) :=
  match fromHttpRequest r with
  | .error err => some (some err, w)
  | .ok inputEvent =>
    match codec.RequestCodec.Encode inputEvent with
    | .error err => some (some err, w)
    | .ok input =>
      match GetRequestTimeout x.ParseDuration r defaultRequestTimeout with
      | (_, some err) => some (some err, w)
      | (requestTimeout, none) =>
        let timeout : Option Duration := if requestTimeout > 0 then some requestTimeout else none
        match x.Send conn timeout input with
        | .error err => some (some err, w)
        | .ok output =>
          match codec.ResponseCodec.Decode output with
          | .error err => some (some err, w)
          | .ok outputEvent => writeHttpResponse w outputEvent

/-- Go `NewProxyHandler(codec, opts...)` with the given default request timeout: its
`ProxyRequest` is `ProxyHttpRequest`. -/
def NewProxyHandler (x : Exchange) (codec : HttpCodec) (defaultRequestTimeout : Duration) :
    ProxyHandler :=
  { HandleRequest := fun _ => .error (GoError.errorString "proxy request is not implemented"),
    HandleNotify := fun _ => some (GoError.errorString "proxy notification is not implemented"),
    ProxyRequest := fun conn w r => ProxyHttpRequest x conn w r codec defaultRequestTimeout }

/-! ## HTTP handler of the agent (`handler/handler.go`) -/

/-- Go `http.HandlerFunc` as `HttpRequestHandler` calls it on a recorder: what the handler
leaves in the recorder. The first argument is the timeout of the context of the request it
is handed: `some t` when `context.WithTimeout(ctx, t)` was applied, `none` when the request
carries the context of the call as it came. A handler that panics is not modelled. -/
abbrev HandlerFunc := Option Duration → ResponseWriter → Request → ResponseWriter

/-- Go `ResponseRecorder.Result`: the status code and the headers as they were when the
header was written (status 200 and the headers as they are now when it never was), and the
bytes written as body. -/
def ResponseWriter.Result (w : ResponseWriter) : Response :=
  match w.wroteHeader with
  | some (code, header) => { StatusCode := code, Header := some header, Body := .ok w.body }
  | none => { StatusCode := 200, Header := some w.header, Body := .ok w.body }

/-- Go `HttpRequestHandler`, given `time.ParseDuration`; `none` outside the model of
`toHttpRequest`. -/
def HttpRequestHandler (ParseDuration : GoString → Except GoError Duration)
    (handler : HandlerFunc) (event : Bytes) (codec : HttpCodec)
    (defaultRequestTimeout : Duration) : Option (Except GoError Bytes) :=
  match codec.RequestCodec.Decode event with
  | .error err => some (.error err)
  | .ok inputEvent =>
    match toHttpRequest inputEvent with
    | none => none
    | some (.error err) => some (.error err)
    | some (.ok req) =>
      match GetRequestTimeout ParseDuration req defaultRequestTimeout with
      | (_, some err) => some (.error err)
      | (requestTimeout, none) =>
        let timeout : Option Duration := if requestTimeout > 0 then some requestTimeout else none
        let w := handler timeout NewRecorder req
        match fromHttpResponse w.Result with
        | .error err => some (.error err)
        | .ok outputEvent =>
          match codec.ResponseCodec.Encode outputEvent with
          | .error err => some (.error err)
          | .ok output => some (.ok output)

/-- Go `HttpNotifyHandler`, given `time.ParseDuration`: the returned error (`none` for nil);
outer `none` outside the model of `toHttpRequest`. The second component is the recorder as
the handler left it, which the function drops. -/
def HttpNotifyHandler (ParseDuration : GoString → Except GoError Duration)
    (handler : HandlerFunc) (event : Bytes) (codec : HttpCodec)
    (defaultRequestTimeout : Duration) : Option (Option GoError × Option ResponseWriter) :=
  match codec.RequestCodec.Decode event with
  | .error err => some (some err, none)
  | .ok inputEvent =>
    match toHttpRequest inputEvent with
    | none => none
    | some (.error err) => some (some err, none)
    | some (.ok req) =>
      match GetRequestTimeout ParseDuration req defaultRequestTimeout with
      | (_, some err) => some (some err, none)
      | (requestTimeout, none) =>
        let timeout : Option Duration := if requestTimeout > 0 then some requestTimeout else none
        some (none, some (handler timeout NewRecorder req))

/-- Go `HTTPHandler`. -/
structure HTTPHandler where
  handlerFunc : HandlerFunc
  codec : HttpCodec
  defaultRequestTimeout : Duration

/-- Go `HTTPHandlerOption`. -/
abbrev HTTPHandlerOption := HTTPHandler → HTTPHandler

/-- Go `WithHTTPDefaultRequestTimeout`. -/
def WithHTTPDefaultRequestTimeout (timeout : Duration) : HTTPHandlerOption :=
  fun c => { c with defaultRequestTimeout := timeout }

/-- Go `NewHTTPHandler`: the default request timeout is 0 unless an option sets it. -/
def NewHTTPHandler (handlerFunc : HandlerFunc) (codec : HttpCodec)
    (opts : List HTTPHandlerOption) : HTTPHandler :=
  opts.foldl (fun h opt => opt h)
    { handlerFunc := handlerFunc, codec := codec, defaultRequestTimeout := 0 }

/-- Go `HTTPHandler.HandleRequest`. -/
def HTTPHandler.HandleRequest (ParseDuration : GoString → Except GoError Duration)
    (h : HTTPHandler) (event : Bytes) : Option (Except GoError Bytes) :=
  HttpRequestHandler ParseDuration h.handlerFunc event h.codec h.defaultRequestTimeout

/-- Go `HTTPHandler.HandleNotify`. -/
def HTTPHandler.HandleNotify (ParseDuration : GoString → Except GoError Duration)
    (h : HTTPHandler) (event : Bytes) : Option (Option GoError × Option ResponseWriter) :=
  HttpNotifyHandler ParseDuration h.handlerFunc event h.codec h.defaultRequestTimeout

/-! ## Recovery handler (`handler/handler.go`) -/

/-- How a call of a Go function ends: it returns its results, or it panics with a value. -/
inductive Outcome (α : Type) where
  | returned (a : α)
  | panicked (value : String)
  deriving DecidableEq, Repr

/-- The interface `ws.EventHandler` for handlers that may panic. `HandleNotify` returns
`none` for a nil error. -/
structure PanickingHandler where
  HandleRequest : Bytes → Outcome (Except GoError Bytes)
  HandleNotify : Bytes → Outcome (Option GoError)

/-- A function with unnamed results that runs `body` under the deferred call
`func() { if err := recover(); err != nil { h.logger.Error(...) } }()`: when `body` returns,
the function returns the same results; when `body` panics, `recover` stops the panic, the
value is logged and the function returns the zero values of its results. The second
component is what was logged. -/
def recovering {α : Type} (zero : α) (body : Outcome α) : Outcome α × List String :=
  match body with
  | .returned a => (.returned a, [])
  | .panicked value => (.returned zero, ["[Recovery] panic recovered error=" ++ value])

/-- Go `recoveryHandler.HandleRequest`, with what it logs. -/
def recoveryHandler.HandleRequest (target : PanickingHandler) (event : Bytes) :
    Outcome (Except GoError Bytes) × List String :=
  recovering (.ok []) (target.HandleRequest event)

/-- Go `recoveryHandler.HandleNotify`, with what it logs. -/
def recoveryHandler.HandleNotify (target : PanickingHandler) (event : Bytes) :
    Outcome (Option GoError) × List String :=
  recovering none (target.HandleNotify event)

/-- Go `NewRecoveryHandler`. -/
def NewRecoveryHandler (target : PanickingHandler) : PanickingHandler :=
  { HandleRequest := fun event => (recoveryHandler.HandleRequest target event).1,
    HandleNotify := fun event => (recoveryHandler.HandleNotify target event).1 }

/-! ## Small instances used to run the definitions -/

/-- A two-byte-header codec, an implementation of the `Codec` interface small enough to
evaluate by hand: the frame is the type byte, one byte naming the id (`0` for `"a"`, else
`"b"`), then the payload. -/
def demoCodec : Codec Message :=
  { Encode := fun m => .ok (Fin.ofNat m.Typ :: (if m.Id = "a" then 0 else 1) :: m.Data),
    Decode := fun b =>
      match b with
      | t :: i :: data => .ok { Id := if i = 0 then "a" else "b", Typ := t.val, Data := data }
      | _ => .error (GoError.errorString "short frame"),
    IsBinary := true }

/-- A codec whose `Encode` always fails. -/
def failingCodec : Codec Message :=
  { Encode := fun _ => .error (GoError.errorString "encode"),
    Decode := fun _ => .error (GoError.errorString "decode"),
    IsBinary := true }

/-- An event handler that echoes the request payload. -/
def echoHandler : EventHandler :=
  { HandleRequest := fun b => .ok b, HandleNotify := fun _ => none }

/-- The collaborators used to run the definitions. -/
def demoDeps : ConnDeps := { codec := demoCodec, handler := echoHandler }

/-- What a call of `Send` has returned, if it has returned. -/
def SendCall.result (t : SendCall) : Option (Except GoError Bytes) :=
  match t.pc with
  | .done r => some r
  | _ => none

/-- What the `Send` of a tunnel has returned, if it has returned. -/
def Tunnel.result (s : Tunnel) : Option (Except GoError Bytes) := s.call.result

/-- A registered connection on which another caller waits under id `"b"` (reply channel 0)
and a call `Send(ctx, [5])` that drew the id `"a"` is about to start. -/
def demoTunnel : Tunnel :=
  { pool := NewPool.register 7 "c1", self := 7,
    conn := { clientID := "c1", sendCh := Chan.make 4, respMap := [("b", 0)], chans := [[]] },
    call := SendCall.begin "a" [5] none }

/-- The state of `demoTunnel` once its `Send` has registered reply channel 1, enqueued the
request frame and waits in the final `select`. -/
def demoWaiting : Tunnel :=
  { demoTunnel with
    conn := { clientID := "c1", sendCh := { buf := [[1, 0, 5]], cap := 4, closed := false },
              respMap := [("a", 1), ("b", 0)], chans := [[], []] },
    call := { id := "a", input := [5], ctx := none, respCh := 1, pc := .wait } }

/-- The state `demoWaiting` after the frame `[2, 0, 99]`, a `RESPONSE` with id `"a"` and data
`[99]`, has been handled. -/
def demoDelivered : Tunnel :=
  { demoWaiting with conn := { demoWaiting.conn with chans := [[], [[99]]] } }

/-- The state of `demoTunnel` once its `Send` has returned the reply `[99]`. -/
def demoReplied : Tunnel :=
  { demoWaiting with
    conn := { demoWaiting.conn with respMap := [("b", 0)] },
    call := { demoWaiting.call with pc := .done (.ok [99]) } }

/-- The state of `demoTunnel` when the read loop has exited before `Send` is called: the
connection is deregistered and its outbound queue is closed. -/
def demoClosed : Tunnel := demoTunnel.readLoopExit

/-- The state `demoClosed` with a `Send` whose context is already cancelled. -/
def demoClosedCancelled : Tunnel :=
  { demoClosed with call := SendCall.begin "a" [5] (some .Canceled) }

/-- A request that carries the client id `"c1"`. -/
def demoRequest : Request :=
  { Method := "GET",
    URL := { Scheme := "", Host := "", Path := "/test", RawPath := "", RawQuery := "" },
    Header := some [("X-Backstream-Client-Id", ["c1"])], Body := .ok [] }

/-- A proxy handler whose `ProxyRequest` fails with the error `boom` on connection 1 and,
on any other connection, writes status 200 and returns nil. -/
def demoProxyHandler : ProxyHandler :=
  { HandleRequest := fun b => .ok b, HandleNotify := fun _ => none,
    ProxyRequest := fun conn w _ =>
      if conn = 1 then some (some (GoError.errorString "boom"), w)
      else some (none, w.sendHeader 200) }

/-- An edge server with two tunnels, connections 1 and 2, both of client `"c1"`. -/
def demoServe : Serve :=
  { pool := (NewPool.register 2 "c1").register 1 "c1", handler := demoProxyHandler,
    requireClientId := true, codec := demoCodec }

/-- An HTTP codec that encodes every event as the empty frame and decodes nothing. -/
def demoHttpCodec : HttpCodec :=
  { RequestCodec := { Encode := fun _ => .ok [], IsBinary := true,
                      Decode := fun _ => .error (GoError.errorString "decode") },
    ResponseCodec := { Encode := fun _ => .ok [], IsBinary := true,
                       Decode := fun _ => .error (GoError.errorString "decode") },
    MessageCodec := demoCodec }

/-- An exchange on which every `Send` runs into the deadline. -/
def demoExchange : Exchange :=
  { ParseDuration := fun _ => .error (GoError.errorString "time: invalid duration"),
    Send := fun _ _ _ => .error GoError.DeadlineExceeded }

/-- An edge server with one tunnel of client `"c1"` and the proxy handler of
`NewProxyHandler`. -/
def demoProxyServe : Serve :=
  { pool := NewPool.register 1 "c1",
    handler := NewProxyHandler demoExchange demoHttpCodec DefaultRequestTimeout,
    requireClientId := true, codec := demoCodec }

/-- An upgrader that upgrades every request. -/
def demoUpgrader : Upgrader := { Upgrade := fun w _ => (none, w) }

/-- An upgrade request without the client id header. -/
def demoAnonymous : Request := { demoRequest with Header := some [] }

/-- The header of `TestHeaderConv`: a key without values, one with one value and one with
two. -/
def demoHeader : Header :=
  [("Key1", []), ("Key2", ["value2_1"]), ("Key3", ["value3_1", "value3_2"])]

/-- A response with status 403, one header and the body `OK`. -/
def demoResponse : Response :=
  { StatusCode := 403, Header := some [("key1", ["value1"])], Body := .ok [79, 75] }

/-- A response with the nil header, as in `TestFromHttpResponse`. -/
def demoBareResponse : Response := { StatusCode := 200, Header := none, Body := .ok [] }

/-- The response event of `TestWriteHttpResponse`: status 403, one header, the body `OK`. -/
def demoEvent : EventHTTPResponse :=
  { StatusCode := 403,
    Headers := some [("Key1", some [.StringValue "value1", .StringValue "value1"])],
    Body := [79, 75] }

/-- The header of `demoEvent` as `fromHeaders` gives it. -/
def demoEventHeader : Header := [("Key1", ["value1", "value1"])]

/-- A response event without a status code (the zero value of the field). -/
def demoEventNoStatus : EventHTTPResponse := { demoEvent with StatusCode := 0 }

/-- A response event with the status 204 No Content and the body `OK`. -/
def demoEventNoContent : EventHTTPResponse := { demoEvent with StatusCode := 204 }

/-- A response event with a header key that has no values. -/
def demoEventEmptyKey : EventHTTPResponse :=
  { demoEvent with Headers := some [("Key1", some []), ("Key2", some [.StringValue "v"])] }

/-- A stand-in for `time.ParseDuration` that knows the texts `5s`, `0s` and `-1s` only. -/
def demoParseDuration (s : GoString) : Except GoError Duration :=
  if s = "5s" then .ok 5000000000
  else if s = "0s" then .ok 0
  else if s = "-1s" then .ok (-1000000000)
  else .error (GoError.errorString "time: invalid duration")

/-- The request `demoRequest` with the request timeout header set to `value`. -/
def demoTimed (value : GoString) : Request :=
  { demoRequest with Header := some [("X-Backstream-Request-Timeout", [value])] }

/-- An exchange whose `Send` fails with a text that tells which timeout bounded it. -/
def timedExchange : Exchange :=
  { ParseDuration := demoParseDuration,
    Send := fun _ timeout _ =>
      match timeout with
      | none => .error (GoError.errorString "no deadline")
      | some t =>
        if t = 5000000000 then .error (GoError.errorString "deadline 5s")
        else .error (GoError.errorString "other deadline") }

/-- An HTTP codec for running the agent: the frame `[0]` decodes to a request event with the
timeout header `0s`, `[1]` to one with `-1s`, `[2]` to one with `5s` and every other frame
to one without the header; a response event encodes to the byte of its status code. -/
def timedHttpCodec : HttpCodec :=
  { RequestCodec :=
      { Encode := fun _ => .ok [], IsBinary := true,
        Decode := fun b =>
          .ok { Method := "GET", RawPath := "/", RawQuery := "", Body := [],
                Headers :=
                  if b = [0] then
                    some [("X-Backstream-Request-Timeout", some [.StringValue "0s"])]
                  else if b = [1] then
                    some [("X-Backstream-Request-Timeout", some [.StringValue "-1s"])]
                  else if b = [2] then
                    some [("X-Backstream-Request-Timeout", some [.StringValue "5s"])]
                  else some [] } },
    ResponseCodec :=
      { Encode := fun ev => .ok [Fin.ofNat ev.StatusCode.toNat], IsBinary := true,
        Decode := fun _ => .error (GoError.errorString "decode") },
    MessageCodec := demoCodec }

/-- A handler that answers 202 when the context of its request has a timeout and 200 when
it has none. -/
def timedHandlerFunc : HandlerFunc :=
  fun timeout w _ => w.sendHeader (if timeout.isSome then 202 else 200)

/-- The request `toHttpRequest` builds from the event of the frame `[2]`. -/
def demoAgentRequest : Request :=
  { Method := "GET",
    URL := { Scheme := "http", Host := "localhost", Path := "/", RawPath := "",
             RawQuery := "" },
    Header := some [("X-Backstream-Request-Timeout", ["5s"])], Body := .ok [] }

/-- An event handler whose two methods fail. -/
def failingHandler : EventHandler :=
  { HandleRequest := fun _ => .error (GoError.errorString "boom"),
    HandleNotify := fun _ => some (GoError.errorString "boom") }

/-- The collaborators of a connection whose handler fails. -/
def failingDeps : ConnDeps := { codec := demoCodec, handler := failingHandler }

/-- The collaborators of a connection whose codec cannot encode. -/
def brokenCodecDeps : ConnDeps := { codec := failingCodec, handler := echoHandler }

/-- The collaborators of a connection that uses the binary codec of the repository. -/
def protoDeps : ConnDeps := { codec := NewProtoCodec, handler := echoHandler }

/-- A pool with the connections 1 and 2 of client `c1` and the connection 3 of client
`c2`. -/
def demoPool : Pool := ((NewPool.register 3 "c2").register 2 "c1").register 1 "c1"

/-- A loop over `demoPool` that visits the connections in the order 3, 2, 1. -/
def demoPoolReversed : MapRange demoPool.clients :=
  { visit := demoPool.clients.reverse, perm := List.reverse_perm demoPool.clients }

/-- A handler that panics on the empty event and echoes every other event. -/
def demoPanicking : PanickingHandler :=
  { HandleRequest := fun b => if b = [] then .panicked "boom" else .returned (.ok b),
    HandleNotify := fun b => if b = [] then .panicked "boom" else .returned none }

/-- A header value that is not valid UTF-8: the byte `0xff`, which the HTTP server accepts
in a field value. -/
def demoInvalidValue : GoString := { bytes := [255] }

/-- The request `demoRequest` with a second header whose value is not valid UTF-8. -/
def demoBadHeaderRequest : Request :=
  { demoRequest with
    Header := some [("X-Backstream-Client-Id", ["c1"]), ("X-Tag", [demoInvalidValue])] }

/-- The response `demoResponse` with a header whose value is not valid UTF-8. -/
def demoBadHeaderResponse : Response :=
  { demoResponse with Header := some [("X-Tag", [demoInvalidValue])] }

/-- The request `POST http://bing.com/search?q=dotnet` with one header and the body `OK`. -/
def demoSearch : Request :=
  { Method := "POST",
    URL := { Scheme := "http", Host := "bing.com", Path := "/search", RawPath := "",
             RawQuery := "q=dotnet" },
    Header := some [("key1", ["value1"])],
    Body := .ok [79, 75] }

/-- The request `demoSearch` with a body whose reading fails. -/
def demoUnreadable : Request :=
  { demoSearch with Body := .error (.errorString "unexpected EOF") }

/-- The request `demoSearch` with the raw query `q=dotnet#top`. -/
def demoHashQuery : Request :=
  { demoSearch with URL := { demoSearch.URL with RawQuery := "q=dotnet#top" } }

/-- The request `demoSearch` with an empty method, which stands for `GET`. -/
def demoNoMethod : Request := { demoSearch with Method := "" }

/-- The request `demoSearch` with the path `search`, without a leading slash. -/
def demoRelative : Request :=
  { demoSearch with URL := { demoSearch.URL with Path := "search" } }

/-- The request `demoSearch` with a line feed in the raw query. -/
def demoControlQuery : Request :=
  { demoSearch with URL := { demoSearch.URL with RawQuery := "q=dot\nnet" } }

/-- The request for the path `/a/b` whose encoded form is `/a%2Fb`, as `url.Parse` gives it
for `http://bing.com/a%2Fb`. -/
def demoEncodedSlash : Request :=
  { demoSearch with URL := { demoSearch.URL with Path := "/a/b", RawPath := "/a%2Fb" } }

/-- The text `http://localhost`. -/
def httpLocalhost : List Char :=
  ['h', 't', 't', 'p', ':', '/', '/', 'l', 'o', 'c', 'a', 'l', 'h', 'o', 's', 't']

/-! ## Invariants used in the proofs -/

/-- What `ProxyHttpRequest` goes on to do once `conn.Send` has returned `sent`. -/
def proxyReply (w : ResponseWriter) (codec : HttpCodec) (sent : Except GoError Bytes) :
    Option (Option GoError × ResponseWriter) :=
  match sent with
  | .error err => some (some err, w)
  | .ok output =>
    match codec.ResponseCodec.Decode output with
    | .error err => some (some err, w)
    | .ok outputEvent => writeHttpResponse w outputEvent

/-- What `HttpRequestHandler` goes on to do once the handler has returned, leaving the
recorder `w`. -/
def recorderReply (codec : HttpCodec) (w : ResponseWriter) : Option (Except GoError Bytes) :=
  match fromHttpResponse w.Result with
  | .error err => some (.error err)
  | .ok outputEvent =>
    match codec.ResponseCodec.Encode outputEvent with
    | .error err => some (.error err)
    | .ok output => some (.ok output)

/-- A result of `Send` that is a reply with a nil error, or the error of the context. -/
def ReplyOrCtxErr (r : Except GoError Bytes) : Prop :=
  (∃ data, r = .ok data) ∨ (∃ cause : CtxErr, r = .error cause.toError)

/-- Where a `Send` can be once it has enqueued its request: still waiting, or leaving or
gone with a reply or the context's error. -/
def WaitInv (s : Tunnel) : Prop :=
  s.call.pc = .wait ∨ ∃ r, (s.call.pc = .exit r ∨ s.call.pc = .done r) ∧ ReplyOrCtxErr r

/-- The `REQUEST` envelope a call of `Send` builds. -/
def SendCall.request (t : SendCall) : Message :=
  { Id := t.id, Typ := Message_REQUEST, Data := t.input }

/-- What a call of `Send` that started in tunnel state `s0` has done to the
pending-response table by the time the tunnel is in state `s`: the entries of all other ids
are those of `s0`; before the call registers its channel the entry of its own id is that of
`s0` too; once the call has returned, its id has no entry, unless it returned the encoding
error before touching the table. -/
def SendInv (d : ConnDeps) (s0 s : Tunnel) : Prop :=
  s.call.id = s0.call.id ∧ s.call.input = s0.call.input ∧
  (∀ k, k ≠ s0.call.id →
    SyncedMap.Get s.conn.respMap k = SyncedMap.Get s0.conn.respMap k) ∧
  (s.call.pc = .start →
    SyncedMap.Get s.conn.respMap s0.call.id = SyncedMap.Get s0.conn.respMap s0.call.id) ∧
  (∀ r, s.call.pc = .done r →
    SyncedMap.Get s.conn.respMap s0.call.id = none ∨
    (SyncedMap.Get s.conn.respMap s0.call.id = SyncedMap.Get s0.conn.respMap s0.call.id ∧
      ∃ e, r = .error e ∧ d.codec.Encode s0.call.request = .error e))

/-- A member text `mt` that the member loop reads as the member `k`, applying `u` to the
envelope, whatever follows it. -/
def GoodMember (mt : List Char) (k : String) (u : Message → Message) : Prop :=
  ∀ fuel m seen c2 rest, k ∉ seen → (c2 = ',' ∨ c2 = chRBrace) →
    parseMembers (fuel + 1) (mt ++ c2 :: rest) m seen =
      if c2 = ',' then parseMembers fuel rest (u m) (k :: seen)
      else if skipWs rest = [] then some (u m) else none

/-- The members of the JSON form of an envelope, each with its key and its effect on the
envelope read. -/
def memberSpecs (m : Message) : List (List Char × String × (Message → Message)) :=
  (if m.Id = "" then []
    else [(jsonMember "id" (jsonString m.Id.data), "id", fun e => { e with Id := m.Id })]) ++
  ((if m.Typ = 0 then []
    else [(jsonMember "type" (jsonEnum m.Typ), "type", fun e => { e with Typ := m.Typ })]) ++
  (if m.Data = [] then []
    else [(jsonMember "data" (jsonString (base64Encode m.Data)), "data",
      fun e => { e with Data := m.Data })]))

/-! # Theorems -/

/-! ## `SyncedMap` -/

namespace SyncedMap

variable {K V : Type} [DecidableEq K]

theorem Get_cons (a : K) (b : V) (m : SyncedMap K V) (j : K) :
    Get ((a, b) :: m) j = if a = j then some b else Get m j := by
  unfold Get
  rw [List.find?_cons]
  by_cases h : a = j <;> simp [h]

theorem Delete_cons (a : K) (b : V) (m : SyncedMap K V) (k : K) :
    Delete ((a, b) :: m) k = if a = k then Delete m k else (a, b) :: Delete m k := by
  unfold Delete
  rw [List.filter_cons]
  by_cases h : a = k <;> simp [h]

theorem Get_Delete_self (m : SyncedMap K V) (k : K) : Get (Delete m k) k = none := by
  induction m with
  | nil => rfl
  | cons e m ih =>
    obtain ⟨a, b⟩ := e
    rw [Delete_cons]
    by_cases h : a = k
    · rw [if_pos h]; exact ih
    · rw [if_neg h, Get_cons, if_neg h]; exact ih

theorem Get_Delete_other (m : SyncedMap K V) {k j : K} (h : j ≠ k) :
    Get (Delete m k) j = Get m j := by
  induction m with
  | nil => rfl
  | cons e m ih =>
    obtain ⟨a, b⟩ := e
    rw [Delete_cons, Get_cons]
    by_cases h1 : a = k
    · have h2 : ¬ a = j := fun h3 => h (h3.symm.trans h1)
      rw [if_pos h1, if_neg h2]; exact ih
    · rw [if_neg h1, Get_cons, ih]

theorem Get_Set_self (m : SyncedMap K V) (k : K) (v : V) : Get (Set m k v) k = some v := by
  unfold Set
  rw [Get_cons, if_pos rfl]

theorem Get_Set_other (m : SyncedMap K V) {k j : K} (v : V) (h : j ≠ k) :
    Get (Set m k v) j = Get m j := by
  unfold Set
  rw [Get_cons, if_neg (fun h3 => h h3.symm), Get_Delete_other m h]
end SyncedMap

/-! ## Frame lemmas -/

theorem handleReceived_frame (d : ConnDeps) (c c1 : Conn) (input : Bytes) (out : Option Bytes)
    (h : c.handleReceived d input = some (out, c1)) :
    c1.respMap = c.respMap ∧ c1.sendCh = c.sendCh ∧ c1.clientID = c.clientID := by
  unfold Conn.handleReceived at h
  split at h
  · cases h; simp
  · split at h
    · split at h <;> (cases h; simp)
    · split at h
      · split at h
        · cases h; simp
        · split at h <;> (cases h; simp)
      · split at h
        · split at h
          · split at h
            · cases h; simp
            · cases h
          · cases h; simp
        · cases h; simp

theorem sendStep_frame (d : ConnDeps) (pick : Bool) (t t1 : SendCall) (c c1 : Conn)
    (h : c.sendStep d pick t = some (t1, c1)) :
    t1.id = t.id ∧ t1.input = t.input ∧ t1.ctx = t.ctx ∧ t1.pc ≠ .start ∧
    (∀ k, k ≠ t.id → SyncedMap.Get c1.respMap k = SyncedMap.Get c.respMap k) ∧
    (∀ r, t1.pc = .done r →
      SyncedMap.Get c1.respMap t.id = none ∨
      (t.pc = .start ∧ c1 = c ∧ ∃ e, r = .error e ∧ d.codec.Encode t.request = .error e)) := by
  unfold Conn.sendStep at h
  split at h
  · -- start
    rename_i hpc
    split at h
    · rename_i err henc
      cases h
      refine ⟨rfl, rfl, rfl, by simp, fun _ _ => rfl, ?_⟩
      intro r hr
      right
      simp only [SendPc.done.injEq] at hr
      exact ⟨hpc, rfl, err, hr.symm, henc⟩
    · cases h
      refine ⟨rfl, rfl, rfl, by simp, ?_, by simp⟩
      intro k hk
      exact SyncedMap.Get_Set_other _ _ hk
  · -- enqueue
    split at h
    · cases h
    · split at h
      · cases h; exact ⟨rfl, rfl, rfl, by simp, fun _ _ => rfl, by simp⟩
      · split at h <;> (cases h; exact ⟨rfl, rfl, rfl, by simp, fun _ _ => rfl, by simp⟩)
  · -- wait
    split at h
    · cases h
    · cases h; exact ⟨rfl, rfl, rfl, by simp, fun _ _ => rfl, by simp⟩
    · cases h; exact ⟨rfl, rfl, rfl, by simp, fun _ _ => rfl, by simp⟩
    · split at h <;> (cases h; exact ⟨rfl, rfl, rfl, by simp, fun _ _ => rfl, by simp⟩)
  · -- exit
    cases h
    refine ⟨rfl, rfl, rfl, by simp, ?_, ?_⟩
    · intro k hk
      exact SyncedMap.Get_Delete_other _ hk
    · intro r _
      left
      exact SyncedMap.Get_Delete_self _ _
  · cases h

theorem step_other_frame (d : ConnDeps) (s s1 : Tunnel) (a : Action)
    (hs : s.step d a = some s1) (ha : ∀ pick, a ≠ .send pick) :
    s1.conn.respMap = s.conn.respMap ∧ s1.call.pc = s.call.pc ∧ s1.call.id = s.call.id ∧
    s1.call.input = s.call.input ∧ s1.call.respCh = s.call.respCh := by
  cases a with
  | send pick => exact absurd rfl (ha pick)
  | received input =>
    simp only [Tunnel.step] at hs
    split at hs
    · cases hs
    · rename_i conn hrecv
      cases hs
      exact ⟨(handleReceived_frame d _ _ _ _ hrecv).1, rfl, rfl, rfl, rfl⟩
    · rename_i resp conn hrecv
      split at hs
      · cases hs
        exact ⟨(handleReceived_frame d _ _ _ _ hrecv).1, rfl, rfl, rfl, rfl⟩
      · cases hs
  | teardown => cases hs; exact ⟨rfl, rfl, rfl, rfl, rfl⟩
  | written =>
    simp only [Tunnel.step] at hs
    split at hs
    · cases hs
    · cases hs; exact ⟨rfl, rfl, rfl, rfl, rfl⟩
  | ctxDone cause =>
    simp only [Tunnel.step] at hs
    split at hs <;> (cases hs; exact ⟨rfl, rfl, rfl, rfl, rfl⟩)

theorem SendInv_step (d : ConnDeps) (s0 s s1 : Tunnel) (a : Action)
    (hinv : SendInv d s0 s) (hs : s.step d a = some s1) : SendInv d s0 s1 := by
  obtain ⟨hid, hin, hoth, hst, hdn⟩ := hinv
  cases a with
  | send pick =>
    simp only [Tunnel.step] at hs
    split at hs
    · rename_i call conn hstep
      cases hs
      obtain ⟨h1, h2, _, h4, h5, h6⟩ := sendStep_frame d pick _ _ _ _ hstep
      refine ⟨h1.trans hid, h2.trans hin, ?_, fun h => absurd h h4, ?_⟩
      · intro k hk
        rw [h5 k (by rw [hid]; exact hk)]
        exact hoth k hk
      · intro r hr
        rcases h6 r hr with h7 | ⟨h7, h8, e, h9, h10⟩
        · left; rw [← hid]; exact h7
        · right
          refine ⟨?_, e, h9, ?_⟩
          · show SyncedMap.Get conn.respMap s0.call.id = _
            rw [h8]; exact hst h7
          · have : s.call.request = s0.call.request := by
              simp [SendCall.request, hid, hin]
            rw [← this]; exact h10
    · cases hs
  | received input =>
    obtain ⟨h1, h2, h3, h4, _⟩ := step_other_frame d s s1 _ hs (by simp)
    exact ⟨h3.trans hid, h4.trans hin, by rw [h1]; exact hoth, by rw [h1, h2]; exact hst,
      by rw [h1, h2]; exact hdn⟩
  | teardown =>
    obtain ⟨h1, h2, h3, h4, _⟩ := step_other_frame d s s1 _ hs (by simp)
    exact ⟨h3.trans hid, h4.trans hin, by rw [h1]; exact hoth, by rw [h1, h2]; exact hst,
      by rw [h1, h2]; exact hdn⟩
  | written =>
    obtain ⟨h1, h2, h3, h4, _⟩ := step_other_frame d s s1 _ hs (by simp)
    exact ⟨h3.trans hid, h4.trans hin, by rw [h1]; exact hoth, by rw [h1, h2]; exact hst,
      by rw [h1, h2]; exact hdn⟩
  | ctxDone cause =>
    obtain ⟨h1, h2, h3, h4, _⟩ := step_other_frame d s s1 _ hs (by simp)
    exact ⟨h3.trans hid, h4.trans hin, by rw [h1]; exact hoth, by rw [h1, h2]; exact hst,
      by rw [h1, h2]; exact hdn⟩

theorem SendInv_run (d : ConnDeps) (s0 : Tunnel) (acts : List Action) :
    ∀ s s1 : Tunnel, SendInv d s0 s → s.run d acts = some s1 → SendInv d s0 s1 := by
  induction acts with
  | nil =>
    intro s s1 hinv hrun
    simp only [Tunnel.run, Option.some.injEq] at hrun
    rw [← hrun]; exact hinv
  | cons a rest ih =>
    intro s s1 hinv hrun
    simp only [Tunnel.run] at hrun
    split at hrun
    · rename_i s2 hstep
      exact ih s2 s1 (SendInv_step d s0 s s2 a hinv hstep) hrun
    · cases hrun

/-! ## `Send` and the pending-response table -/

/-- C2. Take any call of `Send` at its start and any run of the tunnel (steps of that `Send`
interleaved with received frames, teardown, writes and the expiry of its context) after
which the call has returned, whatever it returned. Then the entries of all ids other than
the generated one are what they were before the call; the generated id has no entry when it
had none before the call (it is fresh); and it has no entry, fresh or not, whenever the
envelope was encoded, that is on the reply, context and closed-queue exits. -/
theorem Send_leaves_no_waiter (d : ConnDeps) (s s1 : Tunnel) (acts : List Action)
    (r : Except GoError Bytes) (hstart : s.call.pc = .start)
    (hrun : s.run d acts = some s1) (hdone : s1.call.pc = .done r) :
    (∀ k, k ≠ s.call.id →
      SyncedMap.Get s1.conn.respMap k = SyncedMap.Get s.conn.respMap k) ∧
    (SyncedMap.Get s.conn.respMap s.call.id = none →
      SyncedMap.Get s1.conn.respMap s.call.id = none) ∧
    ((∃ data, d.codec.Encode s.call.request = .ok data) →
      SyncedMap.Get s1.conn.respMap s.call.id = none) := by
  have h0 : SendInv d s s :=
    ⟨rfl, rfl, fun _ _ => rfl, fun _ => rfl, fun r hr => by rw [hstart] at hr; cases hr⟩
  obtain ⟨_, _, hoth, _, hdn⟩ := SendInv_run d s acts s s1 h0 hrun
  refine ⟨hoth, ?_, ?_⟩
  · intro hfresh
    rcases hdn r hdone with h | ⟨h, _⟩
    · exact h
    · rw [h]; exact hfresh
  · rintro ⟨data, hdata⟩
    rcases hdn r hdone with h | ⟨_, e, _, he⟩
    · exact h
    · rw [hdata] at he; cases he

/-! ## `handleReceived` -/

/-- C4. A `RESPONSE` envelope whose id has no entry in the pending-response table is
dropped: `handleReceived` does not block, returns no frame (Go's nil) and leaves the whole
connection state as it was, so the table and every reply channel are unchanged. -/
theorem handleReceived_response_without_waiter (d : ConnDeps) (c : Conn) (input : Bytes)
    (id : String) (data : Bytes)
    (hdec : d.codec.Decode input = .ok { Id := id, Typ := Message_RESPONSE, Data := data })
    (hfree : SyncedMap.Get c.respMap id = none) :
    c.handleReceived d input = some (none, c) := by
  simp [Conn.handleReceived, hdec, hfree, Message_RESPONSE, Message_NOTIFY, Message_REQUEST]

theorem handleReceived_response_without_waiter_witness :
    (Conn.init "c1").handleReceived demoDeps [2, 0, 42] = some (none, Conn.init "c1") :=
  handleReceived_response_without_waiter demoDeps (Conn.init "c1") [2, 0, 42] "a" [42] rfl rfl

/-- C7. A frame that decodes to a `REQUEST` envelope with id `i` and data `data`, for which
`HandleRequest data` returns `(out, nil)`, makes `handleReceived` return what the codec
encodes for the envelope with id `i`, type `RESPONSE` and data `out` (Go's nil when that
encoding fails), without touching the connection state. -/
theorem handleReceived_request_reply (d : ConnDeps) (c : Conn) (input : Bytes)
    (i : String) (data out : Bytes)
    (hdec : d.codec.Decode input = .ok { Id := i, Typ := Message_REQUEST, Data := data })
    (hreq : d.handler.HandleRequest data = .ok out) :
    c.handleReceived d input =
      some ((d.codec.Encode { Id := i, Typ := Message_RESPONSE, Data := out }).toOption, c) := by
  simp only [Conn.handleReceived, hdec, hreq, Message_RESPONSE, Message_NOTIFY, Message_REQUEST]
  cases d.codec.Encode { Id := i, Typ := 2, Data := out } <;> simp [Except.toOption]

theorem handleReceived_request_reply_witness :
    (Conn.init "c1").handleReceived demoDeps [1, 1, 7, 8] =
      some ((demoCodec.Encode { Id := "b", Typ := Message_RESPONSE, Data := [7, 8] }).toOption,
        Conn.init "c1") :=
  handleReceived_request_reply demoDeps (Conn.init "c1") [1, 1, 7, 8] "b" [7, 8] [7, 8] rfl rfl


/-! ## Reply channels -/

theorem chanPut_spec (chans chans1 : List (List Bytes)) (a : ChanRef) (data : Bytes)
    (h : chanPut chans a data = some chans1) :
    chans.get? a = some [] ∧ chans1 = chans.set a [data] := by
  unfold chanPut at h
  split at h
  · rename_i buf hget
    split at h
    · rename_i hlen
      have hb : buf = [] := List.length_eq_zero.mp (by omega)
      subst hb
      simp only [Option.some.injEq] at h
      exact ⟨hget, by simpa using h.symm⟩
    · cases h
  · cases h

theorem chanTake_after_put (chans : List (List Bytes)) (a : ChanRef) (data : Bytes)
    (h : chans.get? a = some []) :
    chanTake (chans.set a [data]) a = some (data, chans.set a []) := by
  have hlt : a < chans.length := by
    rcases Nat.lt_or_ge a chans.length with h1 | h1
    · exact h1
    · rw [List.get?_eq_none.mpr h1] at h; cases h
  unfold chanTake
  simp [List.get?_eq_getElem?, hlt]

/-- The two steps by which a waiting `Send` whose reply channel holds `data` returns: the
final `select`, then the deferred `Delete`. -/
theorem waiting_Send_returns (d : ConnDeps) (s : Tunnel) (data : Bytes)
    (chans : List (List Bytes)) (hwait : s.call.pc = .wait)
    (htake : chanTake s.conn.chans s.call.respCh = some (data, chans)) (p1 p2 : Bool) :
    (s.run d [.send p1, .send p2]).map Tunnel.result =
      some (some (match s.call.ctx with
        | none => .ok data
        | some cause => if p1 then .ok data else .error cause.toError)) := by
  cases hctx : s.call.ctx with
  | none =>
    simp [Tunnel.run, Tunnel.step, Conn.sendStep, hwait, htake, hctx, Tunnel.result,
      SendCall.result]
  | some cause =>
    cases p1 <;>
    simp [Tunnel.run, Tunnel.step, Conn.sendStep, hwait, htake, hctx, Tunnel.result,
      SendCall.result]

/-! ## Correlation of replies -/

/-- C3 (as amended). Let a `Send` wait in its final `select` under id `i`, its reply
channel being the one registered for `i`, and let `handleReceived` handle to completion a
frame that decodes to a `RESPONSE` with id `i` and data `data`. Then that reply channel was
empty and now holds exactly `data`, every other reply channel is unchanged, and the `Send`
then returns: exactly `(data, nil)` when its context is not done; when its context is done
the `select` returns either `(data, nil)` or the context's error, as the scheduler picks. -/
theorem Send_gets_matching_response (d : ConnDeps) (s s1 : Tunnel) (input data : Bytes)
    (hwait : s.call.pc = .wait)
    (hreg : SyncedMap.Get s.conn.respMap s.call.id = some s.call.respCh)
    (hdec : d.codec.Decode input =
      .ok { Id := s.call.id, Typ := Message_RESPONSE, Data := data })
    (hrecv : s.step d (.received input) = some s1) :
    s.conn.chans.get? s.call.respCh = some [] ∧
    s1.conn.chans = s.conn.chans.set s.call.respCh [data] ∧
    (∀ a, a ≠ s.call.respCh → s1.conn.chans.get? a = s.conn.chans.get? a) ∧
    (∀ p1 p2, (s1.run d [.send p1, .send p2]).map Tunnel.result =
      some (some (match s.call.ctx with
        | none => .ok data
        | some cause => if p1 then .ok data else .error cause.toError))) := by
  have hHR : s.conn.handleReceived d input =
      match chanPut s.conn.chans s.call.respCh data with
      | some chans => some (none, { s.conn with chans := chans })
      | none => none := by
    simp [Conn.handleReceived, hdec, hreg, Message_RESPONSE, Message_NOTIFY, Message_REQUEST]
  simp only [Tunnel.step, hHR] at hrecv
  cases hput : chanPut s.conn.chans s.call.respCh data with
  | none => rw [hput] at hrecv; cases hrecv
  | some chans =>
    rw [hput] at hrecv
    simp only [Option.some.injEq] at hrecv
    obtain ⟨hempty, hchans⟩ := chanPut_spec _ _ _ _ hput
    subst hchans
    subst hrecv
    refine ⟨hempty, rfl, ?_, ?_⟩
    · intro a ha
      simp [List.get?_eq_getElem?, List.getElem?_set, Ne.symm ha]
    · intro p1 p2
      exact waiting_Send_returns d
        { s with conn := { s.conn with chans := s.conn.chans.set s.call.respCh [data] } }
        data _ hwait (chanTake_after_put _ _ _ hempty) p1 p2

theorem Send_gets_matching_response_witness :
    demoWaiting.conn.chans.get? 1 = some [] ∧
    demoDelivered.conn.chans = demoWaiting.conn.chans.set 1 [[99]] ∧
    (∀ a, a ≠ 1 → demoDelivered.conn.chans.get? a = demoWaiting.conn.chans.get? a) ∧
    (∀ p1 p2, (demoDelivered.run demoDeps [.send p1, .send p2]).map Tunnel.result =
      some (some (.ok [99]))) :=
  Send_gets_matching_response demoDeps demoWaiting demoDelivered [2, 0, 99] [99] rfl rfl rfl rfl

/-- C3 (counterexample). The `Send` of `demoTunnel` registers, enqueues and waits; the
`RESPONSE` frame for its id arrives and `[99]` is put in its reply channel; its context then
reaches its deadline and the `select` takes the `ctx.Done()` case: the `Send` returns the
deadline error, not `([99], nil)`. -/
theorem Send_may_return_ctx_error_after_delivery :
    (demoTunnel.run demoDeps [.send true, .send true, .received [2, 0, 99]]).map
        (fun s => s.conn.chans) = some [[], [[99]]] ∧
    (demoTunnel.run demoDeps [.send true, .send true, .received [2, 0, 99],
        .ctxDone .DeadlineExceeded, .send false, .send true]).map Tunnel.result =
      some (some (.error GoError.DeadlineExceeded)) :=
  ⟨rfl, rfl⟩


theorem Send_leaves_no_waiter_witness :
    (∀ k, k ≠ "a" →
      SyncedMap.Get demoReplied.conn.respMap k = SyncedMap.Get demoTunnel.conn.respMap k) ∧
    (SyncedMap.Get demoTunnel.conn.respMap "a" = none →
      SyncedMap.Get demoReplied.conn.respMap "a" = none) ∧
    ((∃ data, demoCodec.Encode demoTunnel.call.request = .ok data) →
      SyncedMap.Get demoReplied.conn.respMap "a" = none) :=
  Send_leaves_no_waiter demoDeps demoTunnel demoReplied
    [.send true, .send true, .received [2, 0, 99], .send true, .send true] (.ok [99])
    rfl rfl rfl

/-- The four ways `Send` returns, run on `demoTunnel`: the reply, the context's error, the
closed queue and the encoding error. -/
theorem Send_returns_each_way :
    (demoTunnel.run demoDeps
      [.send true, .send true, .received [2, 0, 99], .send true, .send true]).map
        Tunnel.result = some (some (.ok [99])) ∧
    (demoTunnel.run demoDeps
      [.send true, .send true, .ctxDone .DeadlineExceeded, .send true, .send true]).map
        Tunnel.result = some (some (.error GoError.DeadlineExceeded)) ∧
    (demoTunnel.run demoDeps [.teardown, .send true, .send true, .send true]).map
        Tunnel.result = some (some (.error GoError.ErrConnectionClosed)) ∧
    (demoTunnel.run { demoDeps with codec := failingCodec } [.send true]).map
        Tunnel.result = some (some (.error (GoError.errorString "encode"))) :=
  ⟨rfl, rfl, rfl, rfl⟩

/-! ## Teardown while a `Send` waits -/

theorem ctx_error_ne_closed (cause : CtxErr) :
    cause.toError ≠ GoError.ErrConnectionClosed := by
  cases cause <;> simp [CtxErr.toError]

theorem WaitInv_step (d : ConnDeps) (s s1 : Tunnel) (a : Action)
    (hinv : WaitInv s) (hs : s.step d a = some s1) : WaitInv s1 := by
  cases a with
  | send pick =>
    simp only [Tunnel.step] at hs
    split at hs
    · rename_i call conn hstep
      cases hs
      rcases hinv with hw | ⟨r, hr | hr, hgood⟩
      · right
        simp only [Conn.sendStep, hw] at hstep
        split at hstep
        · cases hstep
        · cases hstep; exact ⟨_, Or.inl rfl, Or.inl ⟨_, rfl⟩⟩
        · cases hstep; exact ⟨_, Or.inl rfl, Or.inr ⟨_, rfl⟩⟩
        · split at hstep
          · cases hstep; exact ⟨_, Or.inl rfl, Or.inl ⟨_, rfl⟩⟩
          · cases hstep; exact ⟨_, Or.inl rfl, Or.inr ⟨_, rfl⟩⟩
      · right
        simp only [Conn.sendStep, hr] at hstep
        cases hstep
        exact ⟨r, Or.inr rfl, hgood⟩
      · simp only [Conn.sendStep, hr] at hstep
        cases hstep
    · cases hs
  | received input =>
    obtain ⟨_, h2, _⟩ := step_other_frame d s s1 _ hs (by simp)
    unfold WaitInv; rw [h2]; exact hinv
  | teardown =>
    obtain ⟨_, h2, _⟩ := step_other_frame d s s1 _ hs (by simp)
    unfold WaitInv; rw [h2]; exact hinv
  | written =>
    obtain ⟨_, h2, _⟩ := step_other_frame d s s1 _ hs (by simp)
    unfold WaitInv; rw [h2]; exact hinv
  | ctxDone cause =>
    obtain ⟨_, h2, _⟩ := step_other_frame d s s1 _ hs (by simp)
    unfold WaitInv; rw [h2]; exact hinv

theorem WaitInv_run (d : ConnDeps) (acts : List Action) :
    ∀ s s1 : Tunnel, WaitInv s → s.run d acts = some s1 → WaitInv s1 := by
  induction acts with
  | nil =>
    intro s s1 hinv hrun
    simp only [Tunnel.run, Option.some.injEq] at hrun
    rw [← hrun]; exact hinv
  | cons a rest ih =>
    intro s s1 hinv hrun
    simp only [Tunnel.run] at hrun
    split at hrun
    · rename_i s2 hstep
      exact ih s2 s1 (WaitInv_step d s s2 a hinv hstep) hrun
    · cases hrun

/-- C5 (as amended). Let a `Send` have enqueued its request and wait for the reply. The
teardown of the connection (deregistration, closing of the outbound queue) always proceeds
and leaves the call, the pending-response table and the reply channels as they were. After
it, while the reply channel is empty and the context is not done, the `Send` stays blocked.
And in every run from the waiting state, with the teardown anywhere in it, a `Send` that
returns returns a reply with a nil error or the error of its context, never
`ErrConnectionClosed`. -/
theorem waiting_Send_ignores_teardown (d : ConnDeps) (s : Tunnel)
    (hwait : s.call.pc = .wait) :
    s.step d .teardown = some s.readLoopExit ∧
    s.readLoopExit.conn.sendCh.closed = true ∧
    s.readLoopExit.pool = s.pool.unregister s.self ∧
    s.readLoopExit.conn.respMap = s.conn.respMap ∧
    s.readLoopExit.conn.chans = s.conn.chans ∧
    s.readLoopExit.call.pc = .wait ∧
    (s.call.ctx = none → chanTake s.conn.chans s.call.respCh = none →
      ∀ pick, (s.readLoopExit.step d (.send pick)).isNone = true) ∧
    (∀ acts s1 r, s.run d acts = some s1 → s1.call.pc = .done r →
      ReplyOrCtxErr r ∧ r ≠ .error GoError.ErrConnectionClosed) := by
  refine ⟨rfl, rfl, rfl, rfl, rfl, hwait, ?_, ?_⟩
  · intro hctx htake pick
    simp [Tunnel.step, Tunnel.readLoopExit, Conn.sendStep, hwait, hctx, htake]
  · intro acts s1 r hrun hdone
    rcases WaitInv_run d acts s s1 (Or.inl hwait) hrun with hw | ⟨r1, hr | hr, hgood⟩
    · rw [hw] at hdone; cases hdone
    · rw [hr] at hdone; cases hdone
    · rw [hr] at hdone
      cases hdone
      refine ⟨hgood, ?_⟩
      rcases hgood with ⟨data, h⟩ | ⟨cause, h⟩
      · rw [h]; simp
      · rw [h]
        intro h2
        exact ctx_error_ne_closed cause (by simpa using h2)

theorem waiting_Send_ignores_teardown_witness :
    demoWaiting.step demoDeps .teardown = some demoWaiting.readLoopExit ∧
    demoWaiting.readLoopExit.conn.sendCh.closed = true ∧
    demoWaiting.readLoopExit.pool = demoWaiting.pool.unregister 7 ∧
    demoWaiting.readLoopExit.conn.respMap = demoWaiting.conn.respMap ∧
    demoWaiting.readLoopExit.conn.chans = demoWaiting.conn.chans ∧
    demoWaiting.readLoopExit.call.pc = .wait ∧
    (demoWaiting.call.ctx = none → chanTake demoWaiting.conn.chans 1 = none →
      ∀ pick, (demoWaiting.readLoopExit.step demoDeps (.send pick)).isNone = true) ∧
    (∀ acts s1 r, demoWaiting.run demoDeps acts = some s1 → s1.call.pc = .done r →
      ReplyOrCtxErr r ∧ r ≠ .error GoError.ErrConnectionClosed) :=
  waiting_Send_ignores_teardown demoDeps demoWaiting rfl

/-- C5 (counterexample). The `Send` of `demoTunnel` registers, enqueues and waits; then the
connection is torn down. The `Send` cannot take a step, it stays blocked; and when its
context is cancelled afterwards it returns `context.Canceled`, not `ErrConnectionClosed`. -/
theorem Send_waiting_at_teardown_not_closed_error :
    (demoTunnel.run demoDeps [.send true, .send true, .teardown]).map
        (fun s => s.conn.sendCh.closed) = some true ∧
    (demoTunnel.run demoDeps [.send true, .send true, .teardown, .send true]).isNone = true ∧
    (demoTunnel.run demoDeps [.send true, .send true, .teardown, .send false]).isNone = true ∧
    (demoTunnel.run demoDeps [.send true, .send true, .teardown, .ctxDone .Canceled,
        .send true, .send true]).map Tunnel.result = some (some (.error GoError.Canceled)) :=
  ⟨rfl, rfl, rfl, rfl⟩


/-! ## Enqueueing on a closed queue -/

theorem safeSend_closed {α : Type} (ctx : Context) (ch : Chan α) (value : α) (pick : Bool)
    (hclosed : ch.closed = true) :
    safeSend ctx ch value pick =
      some (match ctx with
        | none => ({ closed := true, err := none }, ch)
        | some cause =>
          if pick then ({ closed := true, err := none }, ch)
          else ({ closed := false, err := some cause.toError }, ch)) := by
  cases ctx with
  | none => simp [safeSend, Chan.sendReady, hclosed]
  | some cause => cases pick <;> simp [safeSend, Chan.sendReady, hclosed]

/-- C6 (as amended). On a connection whose outbound queue is closed, `safeSend` never blocks,
never lets the panic escape and never enqueues: with a context that is not done it returns
`closed = true` and a nil error; with a done context it returns that, or `closed = false`
and the context's error, as the scheduler picks. Hence `Notify` and `Send`, called with a
context that is not done and a payload whose envelope encodes, return `ErrConnectionClosed`
and leave the queue as it was. -/
theorem closed_queue_gives_ErrConnectionClosed (d : ConnDeps) (s : Tunnel)
    (hclosed : s.conn.sendCh.closed = true) :
    (∀ (value : Bytes) (pick : Bool),
      safeSend none s.conn.sendCh value pick =
        some ({ closed := true, err := none }, s.conn.sendCh)) ∧
    (∀ (value : Bytes) (cause : CtxErr) (pick : Bool),
      safeSend (some cause) s.conn.sendCh value pick =
        some (if pick then ({ closed := true, err := none }, s.conn.sendCh)
          else ({ closed := false, err := some cause.toError }, s.conn.sendCh))) ∧
    (∀ (id : String) (input data : Bytes) (pick : Bool),
      d.codec.Encode { Id := id, Typ := Message_NOTIFY, Data := input } = .ok data →
      s.conn.Notify d pick none id input =
        some (some GoError.ErrConnectionClosed, s.conn)) ∧
    (∀ (data : Bytes) (p1 p2 p3 : Bool),
      s.call.pc = .start → s.call.ctx = none → d.codec.Encode s.call.request = .ok data →
      (s.run d [.send p1, .send p2, .send p3]).map
          (fun s1 => (s1.result, s1.conn.sendCh)) =
        some (some (.error GoError.ErrConnectionClosed), s.conn.sendCh)) := by
  refine ⟨?_, ?_, ?_, ?_⟩
  · intro value pick
    rw [safeSend_closed none _ value pick hclosed]
  · intro value cause pick
    rw [safeSend_closed (some cause) _ value pick hclosed]
  · intro id input data pick henc
    simp [Conn.Notify, henc, safeSend_closed none _ data pick hclosed]
  · intro data p1 p2 p3 hstart hctx henc
    have henc1 : d.codec.Encode
        { Id := s.call.id, Typ := Message_REQUEST, Data := s.call.input } = .ok data := henc
    simp [Tunnel.run, Tunnel.step, Conn.sendStep, hstart, hctx, henc1,
      safeSend_closed none _ data p2 hclosed, Tunnel.result, SendCall.result]

theorem closed_queue_gives_ErrConnectionClosed_witness :
    (∀ (value : Bytes) (pick : Bool),
      safeSend none demoClosed.conn.sendCh value pick =
        some ({ closed := true, err := none }, demoClosed.conn.sendCh)) ∧
    (∀ (value : Bytes) (cause : CtxErr) (pick : Bool),
      safeSend (some cause) demoClosed.conn.sendCh value pick =
        some (if pick then ({ closed := true, err := none }, demoClosed.conn.sendCh)
          else ({ closed := false, err := some cause.toError }, demoClosed.conn.sendCh))) ∧
    (∀ (id : String) (input data : Bytes) (pick : Bool),
      demoCodec.Encode { Id := id, Typ := Message_NOTIFY, Data := input } = .ok data →
      demoClosed.conn.Notify demoDeps pick none id input =
        some (some GoError.ErrConnectionClosed, demoClosed.conn)) ∧
    (∀ (data : Bytes) (p1 p2 p3 : Bool),
      demoClosed.call.pc = .start → demoClosed.call.ctx = none →
      demoCodec.Encode demoClosed.call.request = .ok data →
      (demoClosed.run demoDeps [.send p1, .send p2, .send p3]).map
          (fun s1 => (s1.result, s1.conn.sendCh)) =
        some (some (.error GoError.ErrConnectionClosed), demoClosed.conn.sendCh)) :=
  closed_queue_gives_ErrConnectionClosed demoDeps demoClosed rfl

/-- C6 (counterexample). The outbound queue of `demoClosedCancelled` is closed and the
context of the caller is already cancelled. `safeSend` may take the `ctx.Done()` case and
return `closed = false` with `context.Canceled`; `Send` and `Notify` then return
`context.Canceled`, not `ErrConnectionClosed`. And with a codec that cannot encode the
envelope, `Send` on the closed queue returns the encoding error. -/
theorem closed_queue_may_give_ctx_error :
    demoClosedCancelled.conn.sendCh.closed = true ∧
    safeSend (some .Canceled) demoClosedCancelled.conn.sendCh ([1, 0, 5] : Bytes) false =
      some ({ closed := false, err := some GoError.Canceled },
        demoClosedCancelled.conn.sendCh) ∧
    (demoClosedCancelled.run demoDeps [.send true, .send false, .send true]).map
        Tunnel.result = some (some (.error GoError.Canceled)) ∧
    (demoClosedCancelled.conn.Notify demoDeps false (some .Canceled) "a" [5]).map Prod.fst =
      some (some GoError.Canceled) ∧
    (demoClosed.run { demoDeps with codec := failingCodec } [.send true]).map
        Tunnel.result = some (some (.error (GoError.errorString "encode"))) :=
  ⟨rfl, rfl, rfl, rfl, rfl⟩


/-! ## Edge server -/

theorem utf8_append (a b : String) : utf8 (a ++ b) = utf8 a ++ utf8 b := by
  simp [utf8, String.data_append, List.map_append, List.flatten_append]

theorem GetConnByID_none (m : Pool) (it : MapRange m.clients) (id : GoString)
    (h : ∀ e ∈ m.clients, e.2 ≠ id) : m.GetConnByID it id = none := by
  unfold Pool.GetConnByID
  rw [Option.map_eq_none', List.find?_eq_none]
  intro e he
  have := h e (it.perm.mem_iff.mp he)
  simpa using this

theorem httpError_fresh (w : ResponseWriter) (msg : GoString) (code : Nat)
    (hfresh : w.wroteHeader = none) (hok : w.writeErr = none)
    (hbody : bodyAllowedForStatus code = true) :
    (httpError w msg code).status = some code ∧
    (httpError w msg code).body = w.body ++ (msg.bytes ++ [10]) := by
  simp [httpError, ResponseWriter.sendHeader, ResponseWriter.Write, ResponseWriter.status,
    ResponseWriter.Code, hfresh, hok, hbody]

/-- C9. When no registered connection has the client id of the request's
`x-backstream-client-id` header, `HandleProxy` never calls `ProxyRequest`, answers with
`http.Error` and status 422, and on a writer that has sent nothing yet the response has
status 422 and a body, the text and a newline, that contains the client id. -/
theorem HandleProxy_unknown_client (s : Serve) (it : MapRange s.pool.clients)
    (w : ResponseWriter) (r : Request)
    (hnone : ∀ e ∈ s.pool.clients, e.2 ≠ r.Header.Get HeaderClientId)
    (hfresh : w.wroteHeader = none) (hok : w.writeErr = none) :
    ∃ o, s.HandleProxy it w r = some o ∧ o.tried = [] ∧
      o.errorSent = some (422, notFoundMsg (r.Header.Get HeaderClientId)) ∧
      o.w.status = some 422 ∧
      o.w.body = w.body ++ ((notFoundMsg (r.Header.Get HeaderClientId)).bytes ++ [10]) ∧
      (r.Header.Get HeaderClientId).bytes <:+: o.w.body := by
  have hget := GetConnByID_none s.pool it _ hnone
  have herr := httpError_fresh w (notFoundMsg (r.Header.Get HeaderClientId))
    StatusUnprocessableEntity hfresh hok (by decide)
  refine ⟨{ w := httpError w (notFoundMsg (r.Header.Get HeaderClientId))
              StatusUnprocessableEntity,
            tried := [],
            errorSent := some (StatusUnprocessableEntity,
              notFoundMsg (r.Header.Get HeaderClientId)) },
    by simp only [Serve.HandleProxy, hget], rfl, rfl, herr.1, herr.2, ?_⟩
  show _ <:+: (httpError w _ _).body
  rw [herr.2]
  refine ⟨w.body ++ utf8 "connection for clientID='", utf8 "' not found" ++ [10], ?_⟩
  have hmsg : (notFoundMsg (r.Header.Get HeaderClientId)).bytes =
      utf8 "connection for clientID='" ++ (r.Header.Get HeaderClientId).bytes ++
        utf8 "' not found" := rfl
  rw [hmsg]
  simp only [List.append_assoc]

theorem HandleProxy_unknown_client_witness :
    ∃ o, demoServe.HandleProxy (MapRange.inOrder _) NewRecorder
        { demoRequest with Header := some [("X-Backstream-Client-Id", ["missing"])] } = some o ∧
      o.tried = [] ∧
      o.errorSent = some (422, notFoundMsg "missing") ∧
      o.w.status = some 422 ∧
      o.w.body = [] ++ ((notFoundMsg "missing").bytes ++ [10]) ∧
      utf8 "missing" <:+: o.w.body :=
  HandleProxy_unknown_client demoServe (MapRange.inOrder _) NewRecorder
    { demoRequest with Header := some [("X-Backstream-Client-Id", ["missing"])] }
    (by decide) rfl rfl


theorem ProxyHttpRequest_error_source (x : Exchange) (conn : ConnRef) (w w1 : ResponseWriter)
    (r : Request) (codec : HttpCodec) (dflt : Duration) (e : GoError)
    (h : ProxyHttpRequest x conn w r codec dflt = some (some e, w1)) :
    w1 = w ∨ ∃ event, writeHttpResponse w event = some (some e, w1) := by
  unfold ProxyHttpRequest at h
  split at h
  · cases h; exact Or.inl rfl
  · split at h
    · cases h; exact Or.inl rfl
    · split at h
      · cases h; exact Or.inl rfl
      · simp only at h
        split at h
        · cases h; exact Or.inl rfl
        · split at h
          · cases h; exact Or.inl rfl
          · exact Or.inr ⟨_, h⟩

/-- C10. Let `HandleProxy` find a connection and let `ProxyRequest` on it return `err`,
leaving the writer as `w1`. Then `HandleProxy` calls `ProxyRequest` on that connection only
and answers with `http.Error`, status 502 and the text of the error, if and only if `err`
is not nil; when `err` is nil the writer is left exactly as `ProxyRequest` left it. When
`err` is not nil and nothing was sent before, the response has status 502 and the body is
the error text and a newline; that is the case for the handler of `NewProxyHandler`
whenever the error does not come from writing the response (request conversion, timeout
header, tunnel, response decoding): `ProxyHttpRequest` then returns the writer untouched. -/
theorem HandleProxy_bad_gateway_iff_error (s : Serve) (it : MapRange s.pool.clients)
    (w w1 : ResponseWriter) (r : Request) (conn : ConnRef) (err : Option GoError)
    (hfound : s.pool.GetConnByID it (r.Header.Get HeaderClientId) = some conn)
    (hcall : s.handler.ProxyRequest conn w r = some (err, w1)) :
    ∃ o, s.HandleProxy it w r = some o ∧ o.tried = [conn] ∧
      o.errorSent = err.map (fun e => (502, GoString.ofString e.Error)) ∧
      ((∃ text, o.errorSent = some (502, text)) ↔ err ≠ none) ∧
      (err = none → o.w = w1) ∧
      (∀ e, err = some e → o.w = httpError w1 e.Error 502 ∧
        (w1.wroteHeader = none → w1.writeErr = none →
          o.w.status = some 502 ∧ o.w.body = w1.body ++ (utf8 e.Error ++ [10]))) ∧
      (∀ x codec dflt e, err = some e →
        s.handler.ProxyRequest = (NewProxyHandler x codec dflt).ProxyRequest →
        w1 = w ∨ ∃ event, writeHttpResponse w event = some (some e, w1)) := by
  cases err with
  | none =>
    refine ⟨{ w := w1, tried := [conn], errorSent := none },
      by simp only [Serve.HandleProxy, hfound, hcall], rfl, rfl, by simp, fun _ => rfl,
      by simp, by simp⟩
  | some e =>
    refine ⟨{ w := httpError w1 e.Error StatusBadGateway, tried := [conn],
              errorSent := some (StatusBadGateway, e.Error) },
      by simp only [Serve.HandleProxy, hfound, hcall], rfl, rfl, ?_, by simp, ?_, ?_⟩
    · simp [StatusBadGateway]
    · intro e1 he1
      cases he1
      exact ⟨rfl, fun hfresh hok => httpError_fresh w1 e.Error 502 hfresh hok (by decide)⟩
    · intro x codec dflt e1 he1 hhandler
      cases he1
      rw [hhandler] at hcall
      exact ProxyHttpRequest_error_source x conn w w1 r codec dflt e hcall

theorem HandleProxy_bad_gateway_iff_error_witness :
    ∃ o, demoProxyServe.HandleProxy (MapRange.inOrder _) NewRecorder demoRequest = some o ∧
      o.tried = [1] ∧
      o.errorSent =
        (some GoError.DeadlineExceeded).map (fun e => (502, GoString.ofString e.Error)) ∧
      ((∃ text, o.errorSent = some (502, text)) ↔ some GoError.DeadlineExceeded ≠ none) ∧
      (some GoError.DeadlineExceeded = none → o.w = NewRecorder) ∧
      (∀ e, some GoError.DeadlineExceeded = some e →
        o.w = httpError NewRecorder e.Error 502 ∧
        (NewRecorder.wroteHeader = none → NewRecorder.writeErr = none →
          o.w.status = some 502 ∧ o.w.body = NewRecorder.body ++ (utf8 e.Error ++ [10]))) ∧
      (∀ x codec dflt e, some GoError.DeadlineExceeded = some e →
        demoProxyServe.handler.ProxyRequest = (NewProxyHandler x codec dflt).ProxyRequest →
        NewRecorder = NewRecorder ∨
          ∃ event, writeHttpResponse NewRecorder event = some (some e, NewRecorder)) :=
  HandleProxy_bad_gateway_iff_error demoProxyServe (MapRange.inOrder _) NewRecorder
    NewRecorder demoRequest 1 (some GoError.DeadlineExceeded) (by decide) (by decide)

/-- C8 (the code at the failing input). Connections 1 and 2 both match the client id. On
connection 1 `ProxyRequest` returns the error `boom`, which is not `ErrConnectionClosed`;
`HandleProxyWithRetry` nevertheless goes on to connection 2, whose `ProxyRequest` writes
status 200 and returns nil, and the request ends without any error response. -/
theorem HandleProxyWithRetry_tries_next_after_other_error :
    demoProxyHandler.ProxyRequest 1 NewRecorder demoRequest =
      some (some (GoError.errorString "boom"), NewRecorder) ∧
    errorsIs (GoError.errorString "boom") GoError.ErrConnectionClosed = false ∧
    demoServe.pool.GetConnsByID (MapRange.inOrder _) "c1" = [1, 2] ∧
    (demoServe.HandleProxyWithRetry (MapRange.inOrder _) NewRecorder demoRequest).map
        (fun o => (o.tried, o.errorSent, o.w.status)) = some ([1, 2], none, some 200) := by
  refine ⟨rfl, rfl, by decide, by decide⟩

/-! ## Envelope codecs -/

theorem char_scalar (c : Char) : c.toNat < 0xD800 ∨ (0xDFFF < c.toNat ∧ c.toNat < 0x110000) :=
  c.valid

theorem byte_val (n : Nat) (h : n < 256) : (Fin.ofNat n : Fin 256).val = n := by
  simp [Fin.ofNat]; omega

theorem utf8DecodeChar_encode (c : Char) (rest : Bytes) :
    utf8DecodeChar (utf8EncodeChar c ++ rest) = some (c, rest) := by
  have hv := char_scalar c
  have hc : Char.ofNat c.toNat = c := Char.ofNat_toNat c
  generalize hn : c.toNat = n at hv hc
  unfold utf8EncodeChar
  simp only [hn]
  by_cases h1 : n < 0x80
  · rw [if_pos h1]
    simp only [List.cons_append, List.nil_append, utf8DecodeChar]
    rw [byte_val n (by omega), if_pos h1, hc]
  · rw [if_neg h1]
    by_cases h2 : n < 0x800
    · rw [if_pos h2]
      simp only [List.cons_append, List.nil_append, utf8DecodeChar]
      rw [byte_val _ (by omega), byte_val _ (by omega)]
      have e : (0xC0 + n / 0x40 - 0xC0) * 0x40 + (0x80 + n % 0x40 - 0x80) = n := by omega
      rw [e, hc, if_neg (by omega), if_neg (by omega), if_pos (by omega)]
      have c1 : isCont (0x80 + n % 0x40) = true := by simp [isCont]; omega
      have c2 : decide (0x80 ≤ n) = true := by simp; omega
      rw [c1, c2]; rfl
    · rw [if_neg h2]
      by_cases h3 : n < 0x10000
      · rw [if_pos h3]
        simp only [List.cons_append, List.nil_append, utf8DecodeChar]
        rw [byte_val _ (by omega), byte_val _ (by omega), byte_val _ (by omega)]
        have e : (0xE0 + n / 0x1000 - 0xE0) * 0x1000 + (0x80 + n / 0x40 % 0x40 - 0x80) * 0x40 +
            (0x80 + n % 0x40 - 0x80) = n := by omega
        rw [e, hc, if_neg (by omega), if_neg (by omega), if_neg (by omega), if_pos (by omega)]
        have c1 : isCont (0x80 + n / 0x40 % 0x40) = true := by simp [isCont]; omega
        have c2 : isCont (0x80 + n % 0x40) = true := by simp [isCont]; omega
        have c3 : decide (0x800 ≤ n) = true := by simp; omega
        have c4 : isScalar n = true := by simp [isScalar]; omega
        rw [c1, c2, c3, c4]; rfl
      · rw [if_neg h3]
        simp only [List.cons_append, List.nil_append, utf8DecodeChar]
        rw [byte_val _ (by omega), byte_val _ (by omega), byte_val _ (by omega),
          byte_val _ (by omega)]
        have e : (0xF0 + n / 0x40000 - 0xF0) * 0x40000 + (0x80 + n / 0x1000 % 0x40 - 0x80) * 0x1000
            + (0x80 + n / 0x40 % 0x40 - 0x80) * 0x40 + (0x80 + n % 0x40 - 0x80) = n := by omega
        rw [e, hc, if_neg (by omega), if_neg (by omega), if_neg (by omega), if_neg (by omega)]
        have c0 : isCont (0x80 + n / 0x1000 % 0x40) = true := by simp [isCont]; omega
        have c1 : isCont (0x80 + n / 0x40 % 0x40) = true := by simp [isCont]; omega
        have c2 : isCont (0x80 + n % 0x40) = true := by simp [isCont]; omega
        have c3 : decide (0x10000 ≤ n) = true := by simp; omega
        have c4 : isScalar n = true := by simp [isScalar]; omega
        rw [c0, c1, c2, c3, c4]; rfl

theorem getVarint_putVarintAux (rest : Bytes) :
    ∀ fuel n, n ≤ fuel → getVarint (putVarintAux fuel n ++ rest) = some (n, rest) := by
  intro fuel
  induction fuel with
  | zero =>
    intro n hn
    have h0 : n = 0 := by omega
    subst h0
    rfl
  | succ fuel ih =>
    intro n hn
    rw [putVarintAux]
    by_cases h : n < 128
    · rw [if_pos h]
      simp only [List.cons_append, List.nil_append, getVarint, List.append_eq]
      rw [byte_val n (by omega), if_pos h]
    · rw [if_neg h]
      simp only [List.cons_append, getVarint, List.append_eq]
      rw [byte_val _ (by omega), if_neg (by omega), ih (n / 128) (by omega)]
      simp only [Option.some.injEq, Prod.mk.injEq, and_true]
      omega

theorem getVarint_putVarint (n : Nat) (rest : Bytes) :
    getVarint (putVarint n ++ rest) = some (n, rest) :=
  getVarint_putVarintAux rest n n (Nat.le_refl n)

theorem utf8EncodeChar_ne_nil (c : Char) : utf8EncodeChar c ≠ [] := by
  unfold utf8EncodeChar
  simp only
  split_ifs <;> simp

theorem utf8DecodeChars_encode (cs : List Char) :
    ∀ fuel, ((cs.map utf8EncodeChar).flatten).length ≤ fuel →
      utf8DecodeChars fuel ((cs.map utf8EncodeChar).flatten) = some cs := by
  induction cs with
  | nil => intro fuel _; cases fuel <;> rfl
  | cons c cs ih =>
    intro fuel hfuel
    simp only [List.map_cons, List.flatten_cons, List.length_append] at hfuel ⊢
    have hne := utf8EncodeChar_ne_nil c
    cases henc : utf8EncodeChar c with
    | nil => exact absurd henc hne
    | cons b tail =>
      rw [henc] at hfuel
      cases fuel with
      | zero => simp at hfuel
      | succ fuel =>
        have hdec := utf8DecodeChar_encode c ((cs.map utf8EncodeChar).flatten)
        rw [henc] at hdec
        simp only [List.cons_append] at hdec ⊢
        simp only [utf8DecodeChars, hdec]
        rw [ih fuel (by simp only [List.length_cons] at hfuel; omega)]
        rfl

theorem utf8Decode_utf8 (s : String) : utf8Decode (utf8 s) = some s := by
  unfold utf8Decode utf8
  rw [utf8DecodeChars_encode s.data _ (Nat.le_refl _)]
  rfl

theorem utf8_eq_nil (s : String) : utf8 s = [] ↔ s = "" := by
  constructor
  · intro h
    obtain ⟨cs⟩ := s
    cases cs with
    | nil => rfl
    | cons c cs =>
      simp only [utf8, List.map_cons, List.flatten_cons, List.append_eq_nil] at h
      exact absurd h.1 (utf8EncodeChar_ne_nil c)
  · intro h; subst h; rfl

theorem protoFields_nil (fuel : Nat) (m : Message) : protoFields fuel [] m = .ok m := by
  cases fuel <;> rfl

theorem protoFields_lenField_id (fuel : Nat) (s : String) (rest : Bytes) (m : Message)
    (hs : s ≠ "") :
    protoFields (fuel + 1) (lenField 0x0A (utf8 s) ++ rest) m =
      protoFields fuel rest { m with Id := s } := by
  have hne : utf8 s ≠ [] := fun h => hs ((utf8_eq_nil s).mp h)
  simp only [lenField, if_neg hne, List.cons_append, List.append_assoc]
  have hkey : getVarint ((Fin.ofNat 0x0A : Byte) :: (putVarint (utf8 s).length ++ (utf8 s ++ rest)))
      = some (10, putVarint (utf8 s).length ++ (utf8 s ++ rest)) := by
    rw [getVarint, byte_val _ (by norm_num), if_pos (by norm_num)]
  simp only [protoFields, hkey, getVarint_putVarint]
  simp [utf8Decode_utf8]

theorem protoFields_lenField_data (fuel : Nat) (data rest : Bytes) (m : Message)
    (hd : data ≠ []) :
    protoFields (fuel + 1) (lenField 0x1A data ++ rest) m =
      protoFields fuel rest { m with Data := data } := by
  simp only [lenField, if_neg hd, List.cons_append, List.append_assoc]
  have hkey : getVarint ((Fin.ofNat 0x1A : Byte) :: (putVarint data.length ++ (data ++ rest)))
      = some (26, putVarint data.length ++ (data ++ rest)) := by
    rw [getVarint, byte_val _ (by norm_num), if_pos (by norm_num)]
  simp only [protoFields, hkey, getVarint_putVarint]
  simp

theorem protoFields_varintField (fuel : Nat) (v : Nat) (rest : Bytes) (m : Message)
    (hv : v ≠ 0) (hlt : v < 2 ^ 32) :
    protoFields (fuel + 1) (varintField 0x10 v ++ rest) m =
      protoFields fuel rest { m with Typ := v } := by
  simp only [varintField, if_neg hv, List.cons_append]
  have hkey : getVarint ((Fin.ofNat 0x10 : Byte) :: (putVarint v ++ rest))
      = some (16, putVarint v ++ rest) := by
    rw [getVarint, byte_val _ (by norm_num), if_pos (by norm_num)]
  simp only [protoFields, hkey, getVarint_putVarint]
  have hmod : v % 4294967296 = v := Nat.mod_eq_of_lt (by norm_num at hlt; exact hlt)
  simp [hmod]

theorem protoFields_data_only (fuel : Nat) (data : Bytes) (m : Message) (hm : m.Data = []) :
    protoFields (fuel + 1) (lenField 0x1A data) m = .ok { m with Data := data } := by
  by_cases hd : data = []
  · subst hd
    obtain ⟨i, t, d⟩ := m
    simp only at hm
    subst hm
    exact protoFields_nil _ _
  · have h := protoFields_lenField_data fuel data [] m hd
    rw [List.append_nil] at h
    rw [h, protoFields_nil]

theorem protoFields_typ_data (t : Nat) (data : Bytes) (m : Message) (ht : t < 2 ^ 32)
    (hm1 : m.Typ = 0) (hm2 : m.Data = []) :
    ∀ fuel, (varintField 0x10 t ++ lenField 0x1A data).length ≤ fuel →
      protoFields (fuel + 1) (varintField 0x10 t ++ lenField 0x1A data) m =
        .ok { m with Typ := t, Data := data } := by
  intro fuel hfuel
  by_cases h0 : t = 0
  · subst h0
    simp only [varintField, if_true, List.nil_append]
    rw [protoFields_data_only fuel data m hm2]
    obtain ⟨i, t, d⟩ := m
    simp only at hm1
    subst hm1
    rfl
  · rw [protoFields_varintField fuel t _ m h0 ht]
    have hlen : 1 ≤ (varintField 0x10 t).length := by
      simp [varintField, h0]
    rw [List.length_append] at hfuel
    obtain ⟨f1, hf1⟩ : ∃ f1, fuel = f1 + 1 := ⟨fuel - 1, by omega⟩
    subst hf1
    rw [protoFields_data_only f1 data { m with Typ := t } hm2]

theorem protoFields_protoMarshal (m : Message) (ht : m.Typ < 2 ^ 32) :
    ∀ fuel, (protoMarshal m).length ≤ fuel →
      protoFields (fuel + 1) (protoMarshal m) { Id := "", Typ := 0, Data := [] } = .ok m := by
  intro fuel hfuel
  unfold protoMarshal at hfuel ⊢
  by_cases hid : m.Id = ""
  · have hnil : lenField 0x0A (utf8 m.Id) = [] := by
      simp [lenField, (utf8_eq_nil m.Id).mpr hid]
    rw [hnil, List.nil_append] at hfuel ⊢
    rw [protoFields_typ_data m.Typ m.Data _ ht rfl rfl fuel hfuel, ← hid]
  · rw [protoFields_lenField_id fuel m.Id _ _ hid]
    have hlen : 1 ≤ (lenField 0x0A (utf8 m.Id)).length := by
      have hne : utf8 m.Id ≠ [] := fun h => hid ((utf8_eq_nil m.Id).mp h)
      simp [lenField, hne]
    rw [List.length_append] at hfuel
    obtain ⟨f1, hf1⟩ : ∃ f1, fuel = f1 + 1 := ⟨fuel - 1, by omega⟩
    subst hf1
    rw [protoFields_typ_data m.Typ m.Data _ ht rfl rfl f1 (by omega)]

theorem protoUnmarshal_protoMarshal (m : Message) (ht : m.Typ < 2 ^ 32) :
    protoUnmarshal (protoMarshal m) = .ok m :=
  protoFields_protoMarshal m ht _ (Nat.le_refl _)

theorem hexVal_hexDigit (k : Nat) (h : k < 16) : hexVal (hexDigit k) = some k := by
  interval_cases k <;> rfl

theorem char_of_toNat (c : Char) (n : Nat) (h : c.toNat = n) : c = Char.ofNat n := by
  rw [← h, Char.ofNat_toNat]

theorem parseStringBody_quote (rest : List Char) :
    parseStringBody (chQuote :: rest) = some ([], rest) := by
  rw [parseStringBody.eq_def]
  simp only [if_true]

theorem parseStringBody_short (e c1 : Char) (rest : List Char) (hu : e ≠ 'u')
    (he : jsonUnescape e = some c1) :
    parseStringBody (chBackslash :: e :: rest) =
      (parseStringBody rest).map (fun p => (c1 :: p.1, p.2)) := by
  have hbs : ¬ chBackslash = chQuote := by decide
  rw [parseStringBody.eq_def]
  simp only [hbs, if_false, if_true, hu, he]

theorem parseStringBody_hex (h1 h2 h3 h4 : Char) (n : Nat) (rest : List Char)
    (hx : hex4 h1 h2 h3 h4 = some n) (hsc : isScalar n = true) :
    parseStringBody (chBackslash :: 'u' :: h1 :: h2 :: h3 :: h4 :: rest) =
      (parseStringBody rest).map (fun p => (Char.ofNat n :: p.1, p.2)) := by
  have hbs : ¬ chBackslash = chQuote := by decide
  rw [parseStringBody.eq_def]
  simp only [hbs, if_false, if_true, hx, hsc]

theorem parseStringBody_plain (c : Char) (rest : List Char) (h1 : c ≠ chQuote)
    (h2 : c ≠ chBackslash) (h3 : ¬ c.toNat < 0x20) :
    parseStringBody (c :: rest) = (parseStringBody rest).map (fun p => (c :: p.1, p.2)) := by
  rw [parseStringBody.eq_def]
  simp only [h1, h2, h3, if_false]

theorem parseStringBody_escape (c : Char) (rest : List Char) :
    parseStringBody (jsonEscape c ++ rest) =
      (parseStringBody rest).map (fun p => (c :: p.1, p.2)) := by
  unfold jsonEscape
  by_cases h1 : c = chQuote
  · subst h1
    rw [if_pos rfl]
    exact parseStringBody_short chQuote chQuote rest (by decide) rfl
  · rw [if_neg h1]
    by_cases h2 : c = chBackslash
    · subst h2
      rw [if_pos rfl]
      exact parseStringBody_short chBackslash chBackslash rest (by decide) rfl
    · rw [if_neg h2]
      by_cases h3 : c.toNat < 0x20
      · rw [if_pos h3]
        by_cases h8 : c.toNat = 8
        · rw [if_pos h8, char_of_toNat c 8 h8]
          exact parseStringBody_short 'b' _ rest (by decide) rfl
        · rw [if_neg h8]
          by_cases h12 : c.toNat = 12
          · rw [if_pos h12, char_of_toNat c 12 h12]
            exact parseStringBody_short 'f' _ rest (by decide) rfl
          · rw [if_neg h12]
            by_cases h10 : c.toNat = 10
            · rw [if_pos h10, char_of_toNat c 10 h10]
              exact parseStringBody_short 'n' _ rest (by decide) rfl
            · rw [if_neg h10]
              by_cases h13 : c.toNat = 13
              · rw [if_pos h13, char_of_toNat c 13 h13]
                exact parseStringBody_short 'r' _ rest (by decide) rfl
              · rw [if_neg h13]
                by_cases h9 : c.toNat = 9
                · rw [if_pos h9, char_of_toNat c 9 h9]
                  exact parseStringBody_short 't' _ rest (by decide) rfl
                · rw [if_neg h9]
                  have hx : hex4 '0' '0' (hexDigit (c.toNat / 16)) (hexDigit (c.toNat % 16)) =
                      some c.toNat := by
                    have e1 := hexVal_hexDigit (c.toNat / 16) (by omega)
                    have e2 := hexVal_hexDigit (c.toNat % 16) (by omega)
                    have e0 : hexVal '0' = some 0 := rfl
                    simp only [hex4, e0, e1, e2, Option.some.injEq]
                    omega
                  have hsc : isScalar c.toNat = true := by simp [isScalar]; omega
                  have h := parseStringBody_hex '0' '0' (hexDigit (c.toNat / 16))
                    (hexDigit (c.toNat % 16)) c.toNat rest hx hsc
                  rw [Char.ofNat_toNat] at h
                  exact h
      · rw [if_neg h3]
        exact parseStringBody_plain c rest h1 h2 h3

theorem parseStringBody_jsonString (s rest : List Char) :
    parseStringBody ((s.map jsonEscape).flatten ++ chQuote :: rest) = some (s, rest) := by
  induction s with
  | nil => exact parseStringBody_quote rest
  | cons c s ih =>
    simp only [List.map_cons, List.flatten_cons, List.append_assoc]
    rw [parseStringBody_escape, ih]
    rfl

theorem b64Val_b64Char (k : Nat) (h : k < 64) : b64Val (b64Char k) = some k := by
  interval_cases k <;> rfl

theorem b64Char_ne_pad (k : Nat) (h : k < 64) : b64Char k ≠ '=' := by
  interval_cases k <;> decide

theorem base64Decode_encode (data : Bytes) : base64Decode (base64Encode data) = some data := by
  induction data using base64Encode.induct with
  | case1 => rfl
  | case2 a =>
    have ha := a.isLt
    simp only [base64Encode, base64Decode, b64Val_b64Char (a.val / 4) (by omega),
      b64Val_b64Char (a.val % 4 * 16) (by omega)]
    simp
    apply Fin.ext
    simp [Fin.ofNat]
    omega
  | case3 a b =>
    have ha := a.isLt
    have hb := b.isLt
    simp only [base64Encode, base64Decode, b64Val_b64Char (a.val / 4) (by omega),
      b64Val_b64Char (a.val % 4 * 16 + b.val / 16) (by omega),
      b64Val_b64Char (b.val % 16 * 4) (by omega)]
    have hne := b64Char_ne_pad (b.val % 16 * 4) (by omega)
    simp [hne]
    constructor <;> (apply Fin.ext; simp [Fin.ofNat]; omega)
  | case4 a b c rest ih =>
    have ha := a.isLt
    have hb := b.isLt
    have hc := c.isLt
    simp only [base64Encode, base64Decode, b64Val_b64Char (a.val / 4) (by omega),
      b64Val_b64Char (a.val % 4 * 16 + b.val / 16) (by omega),
      b64Val_b64Char (b.val % 16 * 4 + c.val / 64) (by omega),
      b64Val_b64Char (c.val % 64) (by omega), ih]
    have hne := b64Char_ne_pad (c.val % 64) (by omega)
    simp [hne]
    refine ⟨?_, ?_, ?_⟩ <;> (apply Fin.ext; simp [Fin.ofNat]; omega)

theorem skipWs_cons (c : Char) (rest : List Char)
    (h : ¬ (c = ' ' ∨ c.toNat = 9 ∨ c.toNat = 10 ∨ c.toNat = 13)) :
    skipWs (c :: rest) = c :: rest := by
  rw [skipWs, if_neg h]

theorem skipWs_quote (rest : List Char) : skipWs (chQuote :: rest) = chQuote :: rest :=
  skipWs_cons _ _ (by decide)

theorem jsonString_append (s tail : List Char) :
    jsonString s ++ tail = chQuote :: ((s.map jsonEscape).flatten ++ chQuote :: tail) := by
  simp [jsonString]

theorem parseValue_id (s tail : List Char) (m : Message) :
    parseValue "id" (jsonString s ++ tail) m = some ({ m with Id := String.mk s }, tail) := by
  rw [jsonString_append, parseValue, if_pos rfl, parseStringBody_jsonString]
  simp

theorem parseValue_data (d : Bytes) (tail : List Char) (m : Message) :
    parseValue "data" (jsonString (base64Encode d) ++ tail) m =
      some ({ m with Data := d }, tail) := by
  rw [jsonString_append, parseValue, if_pos rfl, parseStringBody_jsonString]
  have h1 : ¬ ("data" = "id") := by decide
  have h2 : ¬ ("data" = "type") := by decide
  simp [h1, h2, base64Decode_encode]

theorem parseValue_type (t : Nat) (tail : List Char) (m : Message) (h0 : t ≠ 0) (h2 : t ≤ 2) :
    parseValue "type" (jsonEnum t ++ tail) m = some ({ m with Typ := t }, tail) := by
  have h1 : ¬ ("type" = "id") := by decide
  have ht : t = 1 ∨ t = 2 := by omega
  rcases ht with ht | ht
  · subst ht
    have he : jsonEnum 1 = jsonString "REQUEST".data := rfl
    rw [he, jsonString_append, parseValue, if_pos rfl, parseStringBody_jsonString]
    have hn : enumNumber (String.mk "REQUEST".data) = some 1 := by decide
    simp [h1, hn]
  · subst ht
    have he : jsonEnum 2 = jsonString "RESPONSE".data := rfl
    rw [he, jsonString_append, parseValue, if_pos rfl, parseStringBody_jsonString]
    have hn : enumNumber (String.mk "RESPONSE".data) = some 2 := by decide
    simp [h1, hn]

theorem goodMember_of_value (k : String) (value : List Char) (u : Message → Message)
    (hq : ∀ tail, skipWs (value ++ tail) = value ++ tail)
    (hval : ∀ m tail, parseValue k (value ++ tail) m = some (u m, tail)) :
    GoodMember (jsonMember k value) k u := by
  intro fuel m seen c2 rest hseen hc2
  have hc2ws : skipWs (c2 :: rest) = c2 :: rest := by
    rcases hc2 with h | h <;> (subst h; exact skipWs_cons _ _ (by decide))
  have hcolon : ∀ tail, skipWs (':' :: tail) = ':' :: tail :=
    fun tail => skipWs_cons _ _ (by decide)
  have hk : String.mk k.data = k := rfl
  have hshape : jsonMember k value ++ c2 :: rest =
      chQuote :: ((k.data.map jsonEscape).flatten ++
        chQuote :: (':' :: (value ++ c2 :: rest))) := by
    simp [jsonMember, jsonString]
  rw [hshape, parseMembers, skipWs_quote]
  simp only [ne_eq, not_true_eq_false, if_false, parseStringBody_jsonString, hk, hseen,
    hcolon, hq, hval, hc2ws]
  rcases hc2 with h | h
  · subst h; simp
  · subst h
    have : ¬ chRBrace = ',' := by decide
    simp [this]

theorem goodMember_specs (m : Message) (h2 : m.Typ ≤ 2) :
    ∀ sp ∈ memberSpecs m, GoodMember sp.1 sp.2.1 sp.2.2 := by
  intro sp hsp
  simp only [memberSpecs, List.mem_append] at hsp
  rcases hsp with h | h | h
  · split at h
    · cases h
    · simp only [List.mem_singleton] at h
      subst h
      exact goodMember_of_value "id" _ _ (fun tail => by rw [jsonString_append, skipWs_quote])
        (fun e tail => parseValue_id m.Id.data tail e)
  · split at h
    · cases h
    · rename_i h0
      simp only [List.mem_singleton] at h
      subst h
      refine goodMember_of_value "type" _ _ (fun tail => ?_)
        (fun e tail => parseValue_type m.Typ tail e h0 h2)
      have hnat : ∀ t : Nat, ¬ t = 0 → t ≤ 2 → t = 1 ∨ t = 2 := by
        intro t a1 a2; omega
      have ht : m.Typ = 1 ∨ m.Typ = 2 := hnat m.Typ h0 h2
      rcases ht with ht | ht <;> rw [ht]
      · have he : jsonEnum 1 = jsonString "REQUEST".data := rfl
        rw [he, jsonString_append, skipWs_quote]
      · have he : jsonEnum 2 = jsonString "RESPONSE".data := rfl
        rw [he, jsonString_append, skipWs_quote]
  · split at h
    · cases h
    · simp only [List.mem_singleton] at h
      subst h
      exact goodMember_of_value "data" _ _ (fun tail => by rw [jsonString_append, skipWs_quote])
        (fun e tail => parseValue_data m.Data tail e)

theorem parseMembers_specs (specs : List (List Char × String × (Message → Message)))
    (hgood : ∀ sp ∈ specs, GoodMember sp.1 sp.2.1 sp.2.2) :
    ∀ fuel m seen, specs ≠ [] → specs.length ≤ fuel →
      (specs.map (fun sp => sp.2.1)).Nodup → (∀ sp ∈ specs, sp.2.1 ∉ seen) →
      parseMembers fuel (List.intercalate [','] (specs.map (fun sp => sp.1)) ++ [chRBrace])
          m seen =
        some (specs.foldl (fun acc sp => sp.2.2 acc) m) := by
  induction specs with
  | nil => intro fuel m seen hne; exact absurd rfl hne
  | cons sp tl ih =>
    intro fuel m seen _ hfuel hnodup hseen
    obtain ⟨f1, hf1⟩ : ∃ f1, fuel = f1 + 1 :=
      ⟨fuel - 1, by simp only [List.length_cons] at hfuel; omega⟩
    subst hf1
    have hsp := hgood sp (List.mem_cons_self _ _)
    cases tl with
    | nil =>
      have h := hsp f1 m seen chRBrace [] (hseen sp (List.mem_cons_self _ _)) (Or.inr rfl)
      have hne : ¬ chRBrace = ',' := by decide
      simp only [List.map_cons, List.map_nil, List.intercalate, List.intersperse_single,
        List.flatten_cons, List.flatten_nil, List.append_nil]
      rw [h, if_neg hne]
      rfl
    | cons sp2 tl2 =>
      have hshape : List.intercalate [','] ((sp :: sp2 :: tl2).map (fun sp => sp.1)) ++
          [chRBrace] =
          sp.1 ++ ',' :: (List.intercalate [','] ((sp2 :: tl2).map (fun sp => sp.1)) ++
            [chRBrace]) := by
        simp [List.intercalate]
      rw [hshape, hsp f1 m seen ',' _ (hseen sp (List.mem_cons_self _ _)) (Or.inl rfl),
        if_pos rfl]
      rw [List.map_cons, List.nodup_cons] at hnodup
      rw [ih (fun s hs => hgood s (List.mem_cons_of_mem _ hs)) f1 (sp.2.2 m) (sp.2.1 :: seen)
        (List.cons_ne_nil _ _) (by simp only [List.length_cons] at hfuel ⊢; omega)
        hnodup.2]
      · rfl
      · intro s hs hmem
        rcases List.mem_cons.mp hmem with h | h
        · apply hnodup.1
          rw [← h]
          show s.2.1 ∈ List.map (fun sp => sp.2.1) (sp2 :: tl2)
          exact List.mem_map.mpr ⟨s, hs, rfl⟩
        · exact hseen s (List.mem_cons_of_mem _ hs) h

theorem memberSpecs_texts (m : Message) :
    (memberSpecs m).map (fun sp => sp.1) = jsonMembers m := by
  unfold memberSpecs jsonMembers
  by_cases h1 : m.Id = "" <;> by_cases h2 : m.Typ = 0 <;> by_cases h3 : m.Data = [] <;>
    simp [h1, h2, h3]

theorem memberSpecs_keys (m : Message) : ((memberSpecs m).map (fun sp => sp.2.1)).Nodup := by
  unfold memberSpecs
  by_cases h1 : m.Id = "" <;> by_cases h2 : m.Typ = 0 <;> by_cases h3 : m.Data = [] <;>
    simp [h1, h2, h3]

theorem memberSpecs_length (m : Message) : (memberSpecs m).length ≤ 3 := by
  unfold memberSpecs
  by_cases h1 : m.Id = "" <;> by_cases h2 : m.Typ = 0 <;> by_cases h3 : m.Data = [] <;>
    simp [h1, h2, h3]

theorem memberSpecs_effect (m : Message) :
    (memberSpecs m).foldl (fun acc sp => sp.2.2 acc) { Id := "", Typ := 0, Data := [] } = m := by
  obtain ⟨i, t, d⟩ := m
  unfold memberSpecs
  by_cases h1 : i = "" <;> by_cases h2 : t = 0 <;> by_cases h3 : d = [] <;>
    simp [h1, h2, h3]

theorem memberSpecs_head (m : Message) (hne : memberSpecs m ≠ []) :
    ∃ tail, List.intercalate [','] (jsonMembers m) ++ [chRBrace] = chQuote :: tail := by
  rw [← memberSpecs_texts]
  cases hs : memberSpecs m with
  | nil => exact absurd hs hne
  | cons sp tl =>
    have hmem : sp ∈ memberSpecs m := by rw [hs]; exact List.mem_cons_self _ _
    have hq : ∃ t1, sp.1 = chQuote :: t1 := by
      simp only [memberSpecs, List.mem_append] at hmem
      rcases hmem with h | h | h
      · split at h
        · cases h
        · simp only [List.mem_singleton] at h
          subst h
          exact ⟨_, rfl⟩
      · split at h
        · cases h
        · simp only [List.mem_singleton] at h
          subst h
          exact ⟨_, rfl⟩
      · split at h
        · cases h
        · simp only [List.mem_singleton] at h
          subst h
          exact ⟨_, rfl⟩
    obtain ⟨t1, ht1⟩ := hq
    cases tl with
    | nil => exact ⟨t1 ++ [chRBrace], by simp [List.intercalate, ht1]⟩
    | cons sp2 tl2 => exact ⟨_, by simp [List.intercalate, ht1]; rfl⟩

theorem parseObject_jsonText (m : Message) (h2 : m.Typ ≤ 2) :
    parseObject (jsonText m) = some m := by
  have hbrace : skipWs (chLBrace :: (List.intercalate [','] (jsonMembers m) ++ [chRBrace])) =
      chLBrace :: (List.intercalate [','] (jsonMembers m) ++ [chRBrace]) :=
    skipWs_cons _ _ (by decide)
  unfold parseObject jsonText
  rw [hbrace]
  simp only [ne_eq, not_true_eq_false, if_false]
  by_cases hne : memberSpecs m = []
  · have ht : jsonMembers m = [] := by rw [← memberSpecs_texts, hne]; rfl
    have hm := memberSpecs_effect m
    rw [hne] at hm
    have hrb : skipWs [chRBrace] = [chRBrace] := skipWs_cons _ _ (by decide)
    simp only [ht, List.intercalate, List.intersperse_nil, List.flatten_nil, List.nil_append,
      hrb, if_true]
    simp only [List.foldl_nil] at hm
    rw [← hm]
    rfl
  · obtain ⟨tail, htail⟩ := memberSpecs_head m hne
    have hparse := parseMembers_specs (memberSpecs m) (goodMember_specs m h2) 3
      { Id := "", Typ := 0, Data := [] } [] hne (memberSpecs_length m) (memberSpecs_keys m)
      (fun _ _ h => by cases h)
    rw [memberSpecs_texts, memberSpecs_effect, htail] at hparse
    rw [htail, skipWs_quote]
    have hq : ¬ chQuote = chRBrace := by decide
    simp only [hq, if_false]
    exact hparse

theorem jsonUnmarshal_jsonMarshal (m : Message) (h2 : m.Typ ≤ 2) :
    jsonUnmarshal (jsonMarshal m) = .ok m := by
  unfold jsonUnmarshal jsonMarshal
  rw [utf8Decode_utf8]
  simp only [parseObject_jsonText m h2]

/-- The two forms of the envelope with id `ab`, type `RESPONSE` and data `[42]`, and the
reading of a JSON text with white space, members out of order and a numeric enum value. -/
theorem codec_frames_example :
    protoMarshal { Id := "ab", Typ := 2, Data := [42] } = [10, 2, 97, 98, 16, 2, 26, 1, 42] ∧
    protoUnmarshal [26, 1, 42, 16, 2, 10, 2, 97, 98] =
      .ok { Id := "ab", Typ := 2, Data := [42] } ∧
    jsonText { Id := "ab", Typ := 2, Data := [42] } =
      [chLBrace] ++ "\"id\":\"ab\",\"type\":\"RESPONSE\",\"data\":\"Kg==\"".data ++
        [chRBrace] ∧
    parseObject ([chLBrace] ++ " \"data\" : \"Kg==\", \"type\": 2 ".data ++ [chRBrace]) =
      some { Id := "", Typ := 2, Data := [42] } ∧
    (NewJsonCodec.IsBinary, NewProtoCodec.IsBinary) = (false, true) := by
  decide

/-- C1. For both envelope codecs and every envelope `m` whose type is `NOTIFY`, `REQUEST` or
`RESPONSE`, whatever its id and its data (the empty payload included), `Encode m` succeeds
and `Decode` of the bytes succeeds and yields `m` again: the same id, type and data. -/
theorem codec_round_trip (m : Message)
    (htyp : m.Typ = Message_NOTIFY ∨ m.Typ = Message_REQUEST ∨ m.Typ = Message_RESPONSE) :
    (∃ b, NewJsonCodec.Encode m = .ok b ∧ NewJsonCodec.Decode b = .ok m) ∧
    (∃ b, NewProtoCodec.Encode m = .ok b ∧ NewProtoCodec.Decode b = .ok m) := by
  have h2 : m.Typ ≤ 2 := by
    rcases htyp with h | h | h <;> rw [h] <;> decide
  have h32 : m.Typ < 2 ^ 32 := Nat.lt_of_le_of_lt h2 (by norm_num)
  exact ⟨⟨jsonMarshal m, rfl, jsonUnmarshal_jsonMarshal m h2⟩,
    ⟨protoMarshal m, rfl, protoUnmarshal_protoMarshal m h32⟩⟩

theorem codec_round_trip_witness :
    (∃ b, NewJsonCodec.Encode { Id := "7f3c", Typ := Message_REQUEST, Data := [42] } = .ok b ∧
      NewJsonCodec.Decode b = .ok { Id := "7f3c", Typ := Message_REQUEST, Data := [42] }) ∧
    (∃ b, NewProtoCodec.Encode { Id := "7f3c", Typ := Message_REQUEST, Data := [42] } = .ok b ∧
      NewProtoCodec.Decode b = .ok { Id := "7f3c", Typ := Message_REQUEST, Data := [42] }) :=
  codec_round_trip { Id := "7f3c", Typ := Message_REQUEST, Data := [42] } (Or.inr (Or.inl rfl))

/-! ## Tunnel upgrade -/

theorem httpError_status (w : ResponseWriter) (msg : GoString) (code : Nat)
    (hfresh : w.wroteHeader = none) : (httpError w msg code).status = some code := by
  cases hw : w.writeErr <;> cases hb : bodyAllowedForStatus code <;>
    simp [httpError, ResponseWriter.sendHeader, ResponseWriter.Write, ResponseWriter.status,
      ResponseWriter.Code, hfresh, hw, hb]

theorem HandleWS_pool (s : Serve) (up : Upgrader) (ref : ConnRef) (w : ResponseWriter)
    (r : Request) (hreq : s.requireClientId = true) :
    ∀ e ∈ (s.HandleWS up ref w r).pool.clients, e ∈ s.pool.clients ∨ e.2 ≠ "" := by
  intro e he
  unfold Serve.HandleWS at he
  simp only [hreq, Bool.true_and] at he
  split at he
  · exact Or.inl he
  · rename_i hid
    split at he
    · exact Or.inl he
    · simp only [handleConn, Pool.register, Pool.unregister, List.mem_cons, List.mem_filter]
        at he
      rcases he with h | h
      · right
        rw [h]
        simpa using hid
      · exact Or.inl h.1

theorem afterWS_client_ids (reqs : List WSRequest) :
    ∀ s : Serve, s.requireClientId = true → (∀ e ∈ s.pool.clients, e.2 ≠ "") →
      (s.afterWS reqs).requireClientId = true ∧ ∀ e ∈ (s.afterWS reqs).pool.clients, e.2 ≠ "" := by
  induction reqs with
  | nil => intro s hreq hall; exact ⟨hreq, hall⟩
  | cons q rest ih =>
    intro s hreq hall
    rw [Serve.afterWS]
    refine ih { s with pool := (s.HandleWS q.1 q.2.1 q.2.2.1 q.2.2.2).pool } hreq ?_
    intro e he
    rcases HandleWS_pool s q.1 q.2.1 q.2.2.1 q.2.2.2 hreq e he with h | h
    · exact hall e h
    · exact h

/-- C11. Let the require-client-id policy of the server be on, as it is after `NewServe`
without options. When the `x-backstream-client-id` header of an upgrade request is absent
or empty, `HandleWS` answers with `http.Error` and status 400, does not call the upgrader,
registers nothing and leaves the pool as it was. For any upgrade request, every entry of
the pool afterwards is an entry of the pool before or has a non-empty client id; hence,
from a pool whose client ids are non-empty (the empty pool of `NewServe`), the client ids
stay non-empty over any sequence of upgrade requests. -/
theorem HandleWS_requires_client_id (s : Serve) (up : Upgrader) (ref : ConnRef)
    (w : ResponseWriter) (r : Request) (hreq : s.requireClientId = true) :
    (∀ handler codec, (NewServe handler codec []).requireClientId = true ∧
      (NewServe handler codec []).pool = NewPool) ∧
    (Header.lookup r.Header.entries "X-Backstream-Client-Id" = none →
      r.Header.Get HeaderClientId = "") ∧
    (r.Header.Get HeaderClientId = "" →
      (s.HandleWS up ref w r).w = httpError w "header x-backstream-client-id is required" 400 ∧
      (w.wroteHeader = none → (s.HandleWS up ref w r).w.status = some 400) ∧
      (s.HandleWS up ref w r).upgradeCalled = false ∧
      (s.HandleWS up ref w r).conn = none ∧
      (s.HandleWS up ref w r).pool = s.pool) ∧
    (∀ e ∈ (s.HandleWS up ref w r).pool.clients, e ∈ s.pool.clients ∨ e.2 ≠ "") ∧
    ((∀ e ∈ s.pool.clients, e.2 ≠ "") →
      ∀ reqs, ∀ e ∈ (s.afterWS reqs).pool.clients, e.2 ≠ "") := by
  refine ⟨fun _ _ => ⟨rfl, rfl⟩, ?_, ?_, HandleWS_pool s up ref w r hreq, ?_⟩
  · intro hnone
    have hkey : CanonicalMIMEHeaderKey HeaderClientId = "X-Backstream-Client-Id" := by decide
    simp only [NilableHeader.Get, Header.Get, hkey, hnone]
  · intro hempty
    have hw : (s.HandleWS up ref w r) =
        { w := httpError w requiredMsg StatusBadRequest, pool := s.pool,
          upgradeCalled := false, conn := none } := by
      simp [Serve.HandleWS, hreq, hempty]
    rw [hw]
    refine ⟨rfl, ?_, rfl, rfl, rfl⟩
    intro hfresh
    exact httpError_status w requiredMsg 400 hfresh
  · intro hall reqs
    exact (afterWS_client_ids reqs s hreq hall).2

theorem HandleWS_requires_client_id_witness :
    demoServe.requireClientId = true ∧
    demoAnonymous.Header.Get HeaderClientId = "" ∧
    (demoServe.HandleWS demoUpgrader 9 NewRecorder demoAnonymous).w =
      httpError NewRecorder "header x-backstream-client-id is required" 400 ∧
    (demoServe.HandleWS demoUpgrader 9 NewRecorder demoAnonymous).w.status = some 400 ∧
    (demoServe.HandleWS demoUpgrader 9 NewRecorder demoAnonymous).upgradeCalled = false ∧
    (demoServe.HandleWS demoUpgrader 9 NewRecorder demoAnonymous).conn = none ∧
    (demoServe.HandleWS demoUpgrader 9 NewRecorder demoAnonymous).pool = demoServe.pool ∧
    (∀ reqs, ∀ e ∈ (demoServe.afterWS reqs).pool.clients, e.2 ≠ "") :=
  have h := HandleWS_requires_client_id demoServe demoUpgrader 9 NewRecorder demoAnonymous rfl
  have h400 := h.2.2.1 (by decide)
  ⟨rfl, by decide, h400.1, h400.2.1 rfl, h400.2.2.1, h400.2.2.2.1, h400.2.2.2.2,
    h.2.2.2.2 (by decide)⟩

/-- An upgrade request with a client id is upgraded and its connection registered; one
without is refused with status 400 and the pool keeps its two connections. -/
theorem HandleWS_example :
    ((demoServe.HandleWS demoUpgrader 9 NewRecorder demoRequest).pool.clients,
      (demoServe.HandleWS demoUpgrader 9 NewRecorder demoRequest).upgradeCalled) =
      ([(9, GoString.ofString "c1"), (1, "c1"), (2, "c1")], true) ∧
    ((demoServe.HandleWS demoUpgrader 9 NewRecorder demoAnonymous).pool.clients,
      (demoServe.HandleWS demoUpgrader 9 NewRecorder demoAnonymous).w.status) =
      ([(1, GoString.ofString "c1"), (2, "c1")], some 400) := by
  decide

/-! ## Request timeout -/

/-- C12. `GetRequestTimeout(r, d)` returns `(d, nil)` when the `x-backstream-request-timeout`
header is absent or empty; `(t, nil)` when the header value is non-empty and
`time.ParseDuration` gives `t` for it; and the error of `time.ParseDuration`, with the
duration 0, when the value is non-empty and does not parse, which is the only case in
which it returns an error. -/
theorem GetRequestTimeout_cases (ParseDuration : GoString → Except GoError Duration)
    (r : Request) (d : Duration) :
    (Header.lookup r.Header.entries "X-Backstream-Request-Timeout" = none →
      r.Header.Get HeaderRequestTimeout = "") ∧
    (r.Header.Get HeaderRequestTimeout = "" →
      GetRequestTimeout ParseDuration r d = (d, none)) ∧
    (∀ t, r.Header.Get HeaderRequestTimeout ≠ "" →
      ParseDuration (r.Header.Get HeaderRequestTimeout) = .ok t →
      GetRequestTimeout ParseDuration r d = (t, none)) ∧
    (∀ err, r.Header.Get HeaderRequestTimeout ≠ "" →
      ParseDuration (r.Header.Get HeaderRequestTimeout) = .error err →
      GetRequestTimeout ParseDuration r d = (0, some err)) ∧
    ((∃ err, (GetRequestTimeout ParseDuration r d).2 = some err) ↔
      (r.Header.Get HeaderRequestTimeout ≠ "" ∧
        ∃ err, ParseDuration (r.Header.Get HeaderRequestTimeout) = .error err)) := by
  refine ⟨?_, ?_, ?_, ?_, ?_⟩
  · intro hnone
    have hkey : CanonicalMIMEHeaderKey HeaderRequestTimeout = "X-Backstream-Request-Timeout" := by
      decide
    simp only [NilableHeader.Get, Header.Get, hkey, hnone]
  · intro h
    simp [GetRequestTimeout, h]
  · intro t h hp
    simp [GetRequestTimeout, h, hp]
  · intro err h hp
    simp [GetRequestTimeout, h, hp]
  · by_cases h : r.Header.Get HeaderRequestTimeout = ""
    · simp [GetRequestTimeout, h]
    · cases hp : ParseDuration (r.Header.Get HeaderRequestTimeout) with
      | error err => simp [GetRequestTimeout, h, hp]
      | ok t => simp [GetRequestTimeout, h, hp]

/-- The three cases on concrete requests: no header gives the default, `5s` parses and gives
five seconds, `soon` does not parse and gives the error with the duration 0. -/
theorem GetRequestTimeout_example :
    GetRequestTimeout demoParseDuration demoRequest 3000000000 = (3000000000, none) ∧
    GetRequestTimeout demoParseDuration (demoTimed "") 3000000000 = (3000000000, none) ∧
    GetRequestTimeout demoParseDuration (demoTimed "5s") 3000000000 = (5000000000, none) ∧
    GetRequestTimeout demoParseDuration (demoTimed "soon") 3000000000 =
      (0, some (GoError.errorString "time: invalid duration")) := by
  decide

/-! ## Headers of events -/

theorem mapM_ok_map {α β : Type} (f : α → β) (l : List α) :
    l.mapM (fun a => (Except.ok (f a) : Except GoError β)) = .ok (l.map f) := by
  induction l with
  | nil => rfl
  | cons a l ih =>
    rw [List.mapM_cons, ih]
    rfl

theorem NewValue_mapM (vs : List GoString) (hvalid : vs.all GoString.Valid = true) :
    vs.mapM NewValue = .ok (vs.map StructValue.StringValue) := by
  induction vs with
  | nil => rfl
  | cons v vs ih =>
    rw [List.all_cons, Bool.and_eq_true] at hvalid
    rw [List.mapM_cons, ih hvalid.2]
    simp only [NewValue, hvalid.1, if_true]
    rfl

theorem NewValue_mapM_invalid (vs : List GoString) (hvalid : vs.all GoString.Valid = false) :
    vs.mapM NewValue = .error (GoError.errorString "proto: invalid UTF-8 in string") := by
  induction vs with
  | nil => simp at hvalid
  | cons v vs ih =>
    rw [List.mapM_cons]
    cases hv : v.Valid with
    | false =>
      simp only [NewValue, hv, Bool.false_eq_true, if_false]
      rfl
    | true =>
      rw [List.all_cons, hv, Bool.true_and] at hvalid
      rw [ih hvalid]
      simp only [NewValue, hv, if_true]
      rfl

theorem toListString_valid (vs : List GoString) (hvalid : vs.all GoString.Valid = true) :
    toListString vs = .ok (some (vs.map StructValue.StringValue)) := by
  unfold toListString
  rw [NewValue_mapM vs hvalid]
  rfl

theorem toHeaders_entries (entries : Header) (hvalid : entries.ValidUTF8 = true) :
    entries.mapM (fun e => (toListString e.2).map (fun l => (e.1, l))) =
      .ok (entries.map (fun e => (e.1, some (e.2.map StructValue.StringValue)))) := by
  induction entries with
  | nil => rfl
  | cons e entries ih =>
    unfold Header.ValidUTF8 at hvalid ih
    rw [List.all_cons, Bool.and_eq_true] at hvalid
    rw [List.mapM_cons, ih hvalid.2, toListString_valid e.2 hvalid.1]
    rfl

theorem toHeaders_entries_invalid (entries : Header) (hvalid : entries.ValidUTF8 = false) :
    entries.mapM (fun e => (toListString e.2).map (fun l => (e.1, l))) =
      .error (GoError.errorString "proto: invalid UTF-8 in string") := by
  induction entries with
  | nil => simp [Header.ValidUTF8] at hvalid
  | cons e entries ih =>
    unfold Header.ValidUTF8 at hvalid ih
    rw [List.mapM_cons]
    cases he : e.2.all GoString.Valid with
    | false =>
      unfold toListString
      rw [NewValue_mapM_invalid e.2 he]
      rfl
    | true =>
      rw [List.all_cons, he, Bool.true_and] at hvalid
      rw [ih hvalid, toListString_valid e.2 he]
      rfl

theorem toHeaders_ok (h : NilableHeader) (hvalid : h.entries.ValidUTF8 = true) :
    toHeaders h =
      .ok (some (h.entries.map (fun e => (e.1, some (e.2.map StructValue.StringValue))))) := by
  unfold toHeaders
  rw [toHeaders_entries h.entries hvalid]
  rfl

theorem toHeaders_invalid (h : NilableHeader) (hvalid : h.entries.ValidUTF8 = false) :
    toHeaders h = .error (GoError.errorString "proto: invalid UTF-8 in string") := by
  unfold toHeaders
  rw [toHeaders_entries_invalid h.entries hvalid]
  rfl

theorem toHeaders_made (h : NilableHeader) (ev : EventHeaders) (hev : toHeaders h = .ok ev) :
    ev ≠ none := by
  unfold toHeaders at hev
  cases hm : h.entries.mapM (fun e => (toListString e.2).map (fun l => (e.1, l))) with
  | error err =>
    rw [hm] at hev
    cases hev
  | ok l =>
    rw [hm] at hev
    cases hev
    simp

theorem fromListString_strings (vs : List GoString) :
    fromListString (some (vs.map StructValue.StringValue)) = .ok vs := by
  unfold fromListString
  induction vs with
  | nil => rfl
  | cons v vs ih =>
    simp only [List.map_cons, List.mapM_cons] at ih ⊢
    rw [ih]
    rfl

theorem fromHeaders_strings (entries : Header) :
    fromHeaders (some (entries.map (fun e => (e.1, some (e.2.map StructValue.StringValue))))) =
      .ok (some entries) := by
  unfold fromHeaders EventHeaders.entries
  simp only [Option.getD_some]
  have h : (entries.map (fun e : String × List GoString =>
      (e.1, (some (e.2.map StructValue.StringValue) : ListValue)))).mapM
        (fun e => (fromListString e.2).map (fun l => (e.1, l))) = .ok entries := by
    induction entries with
    | nil => rfl
    | cons e entries ih =>
      simp only [List.map_cons, List.mapM_cons, fromListString_strings] at ih ⊢
      rw [ih]
      rfl
  rw [h]
  rfl

/-- C13 (as amended). For every header `h`, nil or made, whose values are all valid UTF-8,
`toHeaders h` succeeds and `fromHeaders` of its result succeeds and yields a made map with
exactly the entries of `h`: the same keys, and under each key the same values in the same
order, duplicates and empty value lists included. -/
theorem fromHeaders_toHeaders (h : NilableHeader) (hvalid : h.entries.ValidUTF8 = true) :
    ∃ ev, toHeaders h = .ok ev ∧ fromHeaders ev = .ok (some h.entries) ∧
      ∀ back, fromHeaders ev = .ok back →
        (back.entries.map Prod.fst = h.entries.map Prod.fst ∧
         ∀ key, Header.lookup back.entries key = Header.lookup h.entries key) := by
  refine ⟨_, toHeaders_ok h hvalid, fromHeaders_strings h.entries, ?_⟩
  intro back hback
  rw [fromHeaders_strings] at hback
  cases hback
  exact ⟨rfl, fun _ => rfl⟩

theorem fromHeaders_toHeaders_witness :
    ∃ ev, toHeaders (some demoHeader) = .ok ev ∧ fromHeaders ev = .ok (some demoHeader) ∧
      ∀ back, fromHeaders ev = .ok back →
        (back.entries.map Prod.fst = ["Key1", "Key2", "Key3"] ∧
         ∀ key, Header.lookup back.entries key = Header.lookup demoHeader key) :=
  fromHeaders_toHeaders (some demoHeader) (by decide)

/-- C13 (counterexample). The header with the one key `X-Tag` whose one value is the byte
`0xff` has a value that is not valid UTF-8, and `toHeaders` returns the error of
`structpb.NewList` for it: there is no event to convert back. -/
theorem toHeaders_rejects_invalid_utf8 :
    demoInvalidValue.bytes = [255] ∧ demoInvalidValue.Valid = false ∧
    (∃ err, toHeaders (some [("X-Tag", [demoInvalidValue])]) = .error err) ∧
    (toHeaders (some [("X-Tag", [demoInvalidValue])])).bind fromHeaders ≠
      .ok (some [("X-Tag", [demoInvalidValue])]) :=
  ⟨rfl, by decide, ⟨GoError.errorString "proto: invalid UTF-8 in string", by decide⟩,
    by decide⟩

/-- The header of `TestHeaderConv` goes through `toHeaders` and `fromHeaders` unchanged, the
key without values included. -/
theorem TestHeaderConv :
    (toHeaders (some demoHeader)).bind fromHeaders = .ok (some demoHeader) ∧
    Header.lookup demoHeader "Key1" = some [] ∧
    Header.lookup demoHeader "Key3" = some [GoString.ofString "value3_1", "value3_2"] := by
  decide

/-! ## Conversions between HTTP messages and events -/

theorem fromHttpRequest_ok (r : Request) (body : Bytes) (hbody : r.Body = .ok body)
    (hvalid : r.Header.entries.ValidUTF8 = true) :
    fromHttpRequest r =
      .ok { Method := r.Method,
            RawPath := if r.URL.RawPath = "" then r.URL.Path else r.URL.RawPath,
            RawQuery := r.URL.RawQuery,
            Headers := some (r.Header.entries.map
              (fun e => (e.1, some (e.2.map StructValue.StringValue)))),
            Body := body } := by
  unfold fromHttpRequest
  rw [hbody, toHeaders_ok _ hvalid]

/-- C15 (as amended). For every request whose body can be read and whose header values are
all valid UTF-8, `fromHttpRequest` yields the event with the method of the request, as raw
path `URL.RawPath` when that is not empty and `URL.Path` otherwise, as raw query
`URL.RawQuery`, as headers what `toHeaders` gives for the header of the request, and as
body all the bytes read. -/
theorem fromHttpRequest_fields (r : Request) (body : Bytes) (hbody : r.Body = .ok body)
    (hvalid : r.Header.entries.ValidUTF8 = true) :
    ∃ headers, toHeaders r.Header = .ok headers ∧
      fromHttpRequest r =
        .ok { Method := r.Method,
              RawPath := if r.URL.RawPath ≠ "" then r.URL.RawPath else r.URL.Path,
              RawQuery := r.URL.RawQuery,
              Headers := headers,
              Body := body } := by
  refine ⟨_, toHeaders_ok r.Header hvalid, ?_⟩
  rw [fromHttpRequest_ok r body hbody hvalid]
  by_cases h : r.URL.RawPath = "" <;> simp [h]

theorem fromHttpRequest_fields_witness :
    ∃ headers, toHeaders demoRequest.Header = .ok headers ∧
      fromHttpRequest demoRequest =
        .ok { Method := "GET",
              RawPath := if demoRequest.URL.RawPath ≠ "" then "" else "/test",
              RawQuery := "",
              Headers := headers,
              Body := [] } :=
  fromHttpRequest_fields demoRequest [] rfl (by decide)

/-- C15 (counterexample). The body of the request can be read, but one of its header values
is the byte `0xff`, which is not valid UTF-8: `toHeaders` fails on the header and
`fromHttpRequest` returns that error instead of an event. -/
theorem fromHttpRequest_rejects_invalid_utf8 :
    demoBadHeaderRequest.Body = .ok [] ∧
    Header.lookup demoBadHeaderRequest.Header.entries "X-Tag" = some [{ bytes := [255] }] ∧
    demoBadHeaderRequest.Header.entries.ValidUTF8 = false ∧
    (∃ err, toHeaders demoBadHeaderRequest.Header = .error err ∧
      fromHttpRequest demoBadHeaderRequest = .error err) :=
  ⟨rfl, by decide, by decide,
    ⟨GoError.errorString "proto: invalid UTF-8 in string", by decide, by decide⟩⟩

theorem fromHttpResponse_ok (resp : Response) (body : Bytes)
    (hbody : resp.Body = .ok body) (hvalid : resp.Header.entries.ValidUTF8 = true) :
    fromHttpResponse resp =
      .ok { StatusCode := int32 resp.StatusCode,
            Headers := some (resp.Header.entries.map
              (fun e => (e.1, some (e.2.map StructValue.StringValue)))),
            Body := body } := by
  unfold fromHttpResponse
  rw [hbody, toHeaders_ok _ hvalid]

/-- C16. `toHeaders` never returns the nil map on success; and for every request and every
response whose body can be read and whose header is nil or has no keys, `fromHttpRequest`
and `fromHttpResponse` yield an event whose header map is a made map without entries, not
the nil map. -/
theorem empty_header_gives_empty_map (r : Request) (resp : Response) (body1 body2 : Bytes)
    (hbody1 : r.Body = .ok body1) (hbody2 : resp.Body = .ok body2)
    (hr : r.Header = none ∨ r.Header = some [])
    (hresp : resp.Header = none ∨ resp.Header = some []) :
    (∀ h ev, toHeaders h = .ok ev → ev ≠ none) ∧
    (∃ ev, fromHttpRequest r = .ok ev ∧ ev.Headers = some []) ∧
    (∃ ev, fromHttpResponse resp = .ok ev ∧ ev.Headers = some []) := by
  have he1 : r.Header.entries = [] := by
    rcases hr with h | h <;> rw [h] <;> rfl
  have he2 : resp.Header.entries = [] := by
    rcases hresp with h | h <;> rw [h] <;> rfl
  refine ⟨toHeaders_made, ?_, ?_⟩
  · refine ⟨_, fromHttpRequest_ok r body1 hbody1 (by rw [he1]; rfl), ?_⟩
    simp only [he1, List.map_nil]
  · refine ⟨_, fromHttpResponse_ok resp body2 hbody2 (by rw [he2]; rfl), ?_⟩
    simp only [he2, List.map_nil]

theorem empty_header_gives_empty_map_witness :
    (∀ h ev, toHeaders h = .ok ev → ev ≠ none) ∧
    (∃ ev, fromHttpRequest demoAnonymous = .ok ev ∧ ev.Headers = some []) ∧
    (∃ ev, fromHttpResponse demoBareResponse = .ok ev ∧ ev.Headers = some []) :=
  empty_header_gives_empty_map demoAnonymous demoBareResponse [] [] rfl rfl
    (Or.inr rfl) (Or.inl rfl)

/-- C17 (as amended). For every response whose body can be read, whose header values are
all valid UTF-8 and whose status code is in the range of the event's 32-bit status field,
`fromHttpResponse` succeeds and `toHttpResponse` of the event succeeds and yields a response
with the same status code, a header with exactly the entries of the original (the same
keys, each with the same values in the same order) and the same body bytes. -/
theorem toHttpResponse_fromHttpResponse (resp : Response) (body : Bytes)
    (hbody : resp.Body = .ok body)
    (hvalid : resp.Header.entries.ValidUTF8 = true)
    (hfit : -2 ^ 31 ≤ resp.StatusCode ∧ resp.StatusCode < 2 ^ 31) :
    ∃ ev, fromHttpResponse resp = .ok ev ∧
      toHttpResponse ev =
        .ok { StatusCode := resp.StatusCode, Header := some resp.Header.entries,
              Body := .ok body } := by
  have h32 : int32 resp.StatusCode = resp.StatusCode := by
    unfold int32
    obtain ⟨h1, h2⟩ := hfit
    norm_num at h1 h2 ⊢
    omega
  refine ⟨_, fromHttpResponse_ok resp body hbody hvalid, ?_⟩
  simp only [toHttpResponse, fromHeaders_strings, h32]

theorem toHttpResponse_fromHttpResponse_witness :
    ∃ ev, fromHttpResponse demoResponse = .ok ev ∧
      toHttpResponse ev =
        .ok { StatusCode := 403, Header := some demoResponse.Header.entries,
              Body := .ok [79, 75] } :=
  toHttpResponse_fromHttpResponse demoResponse [79, 75] rfl (by decide) (by decide)

/-- C17 (counterexample). The response has status 403 and a body that can be read, but its
header value is the byte `0xff`, which is not valid UTF-8: `fromHttpResponse` returns the
error of `toHeaders`, so there is no event for `toHttpResponse`. -/
theorem fromHttpResponse_rejects_invalid_utf8 :
    demoBadHeaderResponse.StatusCode = 403 ∧
    demoBadHeaderResponse.Body = .ok [79, 75] ∧
    Header.lookup demoBadHeaderResponse.Header.entries "X-Tag" = some [{ bytes := [255] }] ∧
    demoBadHeaderResponse.Header.entries.ValidUTF8 = false ∧
    (∃ err, fromHttpResponse demoBadHeaderResponse = .error err) :=
  ⟨rfl, rfl, by decide, by decide,
    ⟨GoError.errorString "proto: invalid UTF-8 in string", by decide⟩⟩

/-! ## Writing a response event -/

theorem lookup_of_mem_nodup (h : Header) (x : String × List GoString) (hx : x ∈ h)
    (hnd : (h.map Prod.fst).Nodup) : Header.lookup h x.1 = some x.2 := by
  unfold Header.lookup
  induction h with
  | nil => cases hx
  | cons e h ih =>
    rw [List.map_cons, List.nodup_cons] at hnd
    rcases List.mem_cons.mp hx with heq | hmem
    · subst heq
      simp
    · have hne : ¬ e.1 = x.1 := by
        intro heq
        apply hnd.1
        rw [heq]
        exact List.mem_map_of_mem Prod.fst hmem
      simp only [List.find?_cons, hne, decide_False]
      exact ih hmem hnd.2

theorem Header_lookup_append_new (h : Header) (k : String) (vs : List GoString)
    (hk : k ∉ h.map Prod.fst) : Header.lookup (h ++ [(k, vs)]) k = some vs := by
  unfold Header.lookup
  induction h with
  | nil => simp
  | cons e h ih =>
    simp only [List.map_cons, List.mem_cons, not_or] at hk
    have hne : ¬ e.1 = k := fun heq => hk.1 heq.symm
    simp only [List.cons_append, List.find?_cons, hne, decide_False]
    exact ih hk.2

theorem Header_lookup_absent (h : Header) (k : String) (hk : k ∉ h.map Prod.fst) :
    Header.lookup h k = none := by
  unfold Header.lookup
  rw [Option.map_eq_none', List.find?_eq_none]
  intro e he
  have hne : ¬ e.1 = k := fun heq => hk (heq ▸ List.mem_map_of_mem Prod.fst he)
  simpa using hne

theorem Header_Add_new (h : Header) (k : String) (v : GoString) (hc : CanonicalMIMEHeaderKey k = k)
    (hk : k ∉ h.map Prod.fst) : Header.Add h k v = h ++ [(k, [v])] := by
  unfold Header.Add
  rw [hc, Header_lookup_absent h k hk]

theorem Header_Add_last (h : Header) (k : String) (v : GoString) (acc : List GoString)
    (hc : CanonicalMIMEHeaderKey k = k) (hk : k ∉ h.map Prod.fst) :
    Header.Add (h ++ [(k, acc)]) k v = h ++ [(k, acc ++ [v])] := by
  unfold Header.Add
  rw [hc, Header_lookup_append_new h k acc hk]
  simp only [List.map_append, List.map_cons, List.map_nil, if_true]
  congr 1
  induction h with
  | nil => rfl
  | cons e h ih =>
    simp only [List.map_cons, List.mem_cons, not_or] at hk
    have hne : ¬ e.1 = k := fun heq => hk.1 heq.symm
    simp only [List.map_cons, hne, if_false]
    rw [ih hk.2]

theorem Header_Add_values (vs : List GoString) (h : Header) (k : String) (acc : List GoString)
    (hc : CanonicalMIMEHeaderKey k = k) (hk : k ∉ h.map Prod.fst) :
    vs.foldl (fun h1 value => Header.Add h1 k value) (h ++ [(k, acc)]) =
      h ++ [(k, acc ++ vs)] := by
  induction vs generalizing acc with
  | nil => simp
  | cons v vs ih =>
    rw [List.foldl_cons, Header_Add_last h k v acc hc hk, ih]
    simp

theorem Header_Add_key (vs : List GoString) (h : Header) (k : String)
    (hc : CanonicalMIMEHeaderKey k = k) (hk : k ∉ h.map Prod.fst) :
    vs.foldl (fun h1 value => Header.Add h1 k value) h =
      h ++ [(k, vs)].filter (fun e => !e.2.isEmpty) := by
  cases vs with
  | nil => simp
  | cons v vs =>
    rw [List.foldl_cons, Header_Add_new h k v hc hk, Header_Add_values vs h k [v] hc hk]
    simp

theorem Header_Add_entries (entries : Header) :
    ∀ h : Header, (∀ e ∈ entries, CanonicalMIMEHeaderKey e.1 = e.1) →
      (entries.map Prod.fst).Nodup → (∀ e ∈ entries, e.1 ∉ h.map Prod.fst) →
      entries.foldl (fun h e => e.2.foldl (fun h1 value => Header.Add h1 e.1 value) h) h =
        h ++ entries.filter (fun e => !e.2.isEmpty) := by
  induction entries with
  | nil => intro h _ _ _; simp
  | cons e entries ih =>
    intro h hcanon hnodup hfresh
    rw [List.foldl_cons, Header_Add_key e.2 h e.1 (hcanon e (List.mem_cons_self _ _))
      (hfresh e (List.mem_cons_self _ _))]
    rw [List.map_cons, List.nodup_cons] at hnodup
    rw [ih _ (fun x hx => hcanon x (List.mem_cons_of_mem _ hx)) hnodup.2]
    · rw [List.filter_cons]
      by_cases hv : e.2.isEmpty = true
      · simp [hv]
      · simp [hv]
    · intro x hx hmem
      rw [List.map_append, List.mem_append] at hmem
      rcases hmem with hm | hm
      · exact hfresh x (List.mem_cons_of_mem _ hx) hm
      · have hx1 : x.1 = e.1 := by
          by_cases hv : e.2.isEmpty = true
          · simp [hv] at hm
          · simp [hv] at hm
            exact hm
        apply hnodup.1
        rw [← hx1]
        exact List.mem_map_of_mem Prod.fst hx

/-- C18 (as amended). Let `e` be a response event whose status code is in `100..999` and
allows a body (it is not `1xx`, 204 or 304) unless the body of `e` is empty, whose header
values are all strings (`fromHeaders` gives `header`) and whose header keys are in
canonical casing (and distinct, the header being a map). On a fresh response writer
`writeHttpResponse` returns nil without panicking, and the response has the status of the
event, exactly its body, and as headers the entries of `header` that have at least one
value, each key with all its values in order, duplicates included; a key without values is
not written. The headers sent with the status are all of these, so they were set before
the status, and the body is written after it. -/
theorem writeHttpResponse_fresh (e : EventHTTPResponse) (header : Header)
    (hcode : 100 ≤ e.StatusCode ∧ e.StatusCode ≤ 999)
    (hallowed : bodyAllowedForStatus e.StatusCode.toNat = true ∨ e.Body = [])
    (hstrings : fromHeaders e.Headers = .ok (some header))
    (hcanon : ∀ x ∈ header, CanonicalMIMEHeaderKey x.1 = x.1)
    (hkeys : (header.map Prod.fst).Nodup) :
    ∃ w, writeHttpResponse NewRecorder e = some (none, w) ∧
      (w.status.map Int.ofNat) = some e.StatusCode ∧
      w.body = e.Body ∧
      w.header = header.filter (fun x => !x.2.isEmpty) ∧
      w.wroteHeader = some (e.StatusCode.toNat, header.filter (fun x => !x.2.isEmpty)) ∧
      (∀ x ∈ header, x.2 ≠ [] → Header.lookup w.header x.1 = some x.2) := by
  have hadd := Header_Add_entries header [] hcanon hkeys (fun _ _ h => by cases h)
  rw [List.nil_append] at hadd
  have hnat : (Int.ofNat e.StatusCode.toNat) = e.StatusCode := by
    simp only [Int.ofNat_eq_coe]
    omega
  have hvalid : ¬ (e.StatusCode < 100 ∨ e.StatusCode > 999) := by omega
  have hlook : ∀ x ∈ header, x.2 ≠ [] →
      Header.lookup (header.filter (fun x => !x.2.isEmpty)) x.1 = some x.2 := by
    intro x hx hne
    have hmem : x ∈ header.filter (fun x => !x.2.isEmpty) := by
      rw [List.mem_filter]
      refine ⟨hx, ?_⟩
      cases hx2 : x.2 with
      | nil => exact absurd hx2 hne
      | cons _ _ => rfl
    have hnd : ((header.filter (fun x => !x.2.isEmpty)).map Prod.fst).Nodup :=
      (hkeys.sublist ((List.filter_sublist header).map Prod.fst))
    exact lookup_of_mem_nodup _ x hmem hnd
  by_cases hb : e.Body = []
  · refine ⟨{ header := header.filter (fun x => !x.2.isEmpty),
              wroteHeader := some (e.StatusCode.toNat, header.filter (fun x => !x.2.isEmpty)),
              body := [], writeErr := none }, ?_, ?_, hb.symm, rfl, rfl, hlook⟩
    · simp only [writeHttpResponse, hstrings, NilableHeader.entries, Option.getD_some,
        NewRecorder, hadd, ResponseWriter.WriteHeader, hvalid, if_false,
        ResponseWriter.sendHeader, hb, if_true]
    · simp only [ResponseWriter.status, Option.map_some', hnat]
  · refine ⟨{ header := header.filter (fun x => !x.2.isEmpty),
              wroteHeader := some (e.StatusCode.toNat, header.filter (fun x => !x.2.isEmpty)),
              body := e.Body, writeErr := none }, ?_, ?_, rfl, rfl, rfl, hlook⟩
    · have hok : bodyAllowedForStatus e.StatusCode.toNat = true :=
        hallowed.resolve_right hb
      simp [writeHttpResponse, hstrings, NilableHeader.entries,
        NewRecorder, hadd, ResponseWriter.WriteHeader, hvalid,
        ResponseWriter.sendHeader, hb, ResponseWriter.Write, ResponseWriter.Code, hok]
    · simp only [ResponseWriter.status, Option.map_some', hnat]

theorem writeHttpResponse_fresh_witness :
    ∃ w, writeHttpResponse NewRecorder demoEvent = some (none, w) ∧
      (w.status.map Int.ofNat) = some 403 ∧
      w.body = [79, 75] ∧
      w.header = demoEventHeader.filter (fun x => !x.2.isEmpty) ∧
      w.wroteHeader = some ((403 : Int).toNat,
        demoEventHeader.filter (fun x => !x.2.isEmpty)) ∧
      (∀ x ∈ demoEventHeader, x.2 ≠ [] → Header.lookup w.header x.1 = some x.2) :=
  writeHttpResponse_fresh demoEvent demoEventHeader (by decide)
    (Or.inl (by decide)) (by decide) (by decide) (by decide)

/-- C18 (counterexample). An event without a status code (status 0) makes `WriteHeader`, and
so `writeHttpResponse`, panic on a fresh writer. For the event with status 204, one header
with string values under a canonical key and the body `OK`, the write of the body is
refused: `writeHttpResponse` returns `http.ErrBodyNotAllowed`, not nil. And for an event
with status 403 whose headers are `Key1` without values and `Key2` with the value `v`, both
keys in canonical casing, `fromHeaders` gives both keys but the response written has `Key2`
only. -/
theorem writeHttpResponse_panics_or_drops_key :
    writeHttpResponse NewRecorder demoEventNoStatus = none ∧
    (writeHttpResponse NewRecorder demoEventNoContent).map (fun p => (p.1, p.2.status)) =
      some (some ErrBodyNotAllowed, some 204) ∧
    fromHeaders demoEventEmptyKey.Headers = .ok (some [("Key1", []), ("Key2", ["v"])]) ∧
    (writeHttpResponse NewRecorder demoEventEmptyKey).map (fun p => (p.1, p.2.header)) =
      some (none, [("Key2", [GoString.ofString "v"])]) := by
  decide

/-! ## Recovery handler -/

/-- C19. For every target handler and every event: when the target's `HandleRequest`
panics, the recovery handler's `HandleRequest` returns, with a nil byte slice and a nil
error, and when the target's `HandleNotify` panics, the recovery handler's `HandleNotify`
returns a nil error; when the target returns, the recovery handler returns exactly the
target's results. In no case does a call of the recovery handler panic. -/
theorem recoveryHandler_contains_panic (target : PanickingHandler) (event : Bytes) :
    (∀ value, target.HandleRequest event = .panicked value →
      (NewRecoveryHandler target).HandleRequest event = .returned (.ok [])) ∧
    (∀ value, target.HandleNotify event = .panicked value →
      (NewRecoveryHandler target).HandleNotify event = .returned none) ∧
    (∀ r, target.HandleRequest event = .returned r →
      (NewRecoveryHandler target).HandleRequest event = .returned r) ∧
    (∀ r, target.HandleNotify event = .returned r →
      (NewRecoveryHandler target).HandleNotify event = .returned r) ∧
    (∀ value, (NewRecoveryHandler target).HandleRequest event ≠ .panicked value) ∧
    (∀ value, (NewRecoveryHandler target).HandleNotify event ≠ .panicked value) := by
  refine ⟨?_, ?_, ?_, ?_, ?_, ?_⟩
  · intro value h
    simp [NewRecoveryHandler, recoveryHandler.HandleRequest, recovering, h]
  · intro value h
    simp [NewRecoveryHandler, recoveryHandler.HandleNotify, recovering, h]
  · intro r h
    simp [NewRecoveryHandler, recoveryHandler.HandleRequest, recovering, h]
  · intro r h
    simp [NewRecoveryHandler, recoveryHandler.HandleNotify, recovering, h]
  · intro value
    cases h : target.HandleRequest event <;>
      simp [NewRecoveryHandler, recoveryHandler.HandleRequest, recovering, h]
  · intro value
    cases h : target.HandleNotify event <;>
      simp [NewRecoveryHandler, recoveryHandler.HandleNotify, recovering, h]

/-- The recovery handler around a handler that panics on the empty event: the panic is
logged and `(nil, nil)` is returned; another event is passed through. -/
theorem recoveryHandler_example :
    recoveryHandler.HandleRequest demoPanicking [] =
      (.returned (.ok []), ["[Recovery] panic recovered error=boom"]) ∧
    recoveryHandler.HandleNotify demoPanicking [] =
      (.returned none, ["[Recovery] panic recovered error=boom"]) ∧
    recoveryHandler.HandleRequest demoPanicking [7] = (.returned (.ok [7]), []) := by
  decide

/-! ## Pool lookups -/

theorem visit_keys_nodup (m : Pool) (it : MapRange m.clients) (hvalid : m.Valid) :
    (it.visit.map Prod.fst).Nodup :=
  (it.perm.map Prod.fst).nodup_iff.mpr hvalid

theorem filter_keys_nodup (l : List (ConnRef × GoString)) (p : ConnRef × GoString → Bool)
    (h : (l.map Prod.fst).Nodup) : ((l.filter p).map Prod.fst).Nodup :=
  h.sublist ((List.filter_sublist l).map Prod.fst)

theorem mem_GetConnsByID (m : Pool) (it : MapRange m.clients) (id : GoString) (c : ConnRef) :
    c ∈ m.GetConnsByID it id ↔ (c, id) ∈ m.clients := by
  unfold Pool.GetConnsByID
  simp only [List.mem_map, List.mem_filter, decide_eq_true_eq]
  constructor
  · rintro ⟨e, ⟨he, hid⟩, hc⟩
    have : e = (c, id) := Prod.ext hc hid
    rw [← this]
    exact it.perm.mem_iff.mp he
  · intro h
    exact ⟨(c, id), ⟨it.perm.mem_iff.mpr h, rfl⟩, rfl⟩

theorem register_valid (m : Pool) (conn : ConnRef) (id : GoString) (hvalid : m.Valid) :
    (m.register conn id).Valid := by
  unfold Pool.Valid Pool.register Pool.unregister at *
  rw [List.map_cons, List.nodup_cons]
  refine ⟨?_, filter_keys_nodup _ _ hvalid⟩
  intro hmem
  simp only [List.mem_map, List.mem_filter] at hmem
  obtain ⟨e, ⟨_, hne⟩, he⟩ := hmem
  simp [he] at hne

theorem register_new (m : Pool) (conn : ConnRef) (id : GoString)
    (hnew : conn ∉ m.clients.map Prod.fst) :
    (m.register conn id).clients = (conn, id) :: m.clients := by
  unfold Pool.register Pool.unregister
  simp only [List.cons.injEq, true_and]
  rw [List.filter_eq_self]
  intro e he
  have hne : ¬ e.1 = conn := fun heq => hnew (heq ▸ List.mem_map_of_mem Prod.fst he)
  simpa using hne

theorem registerAll_new (conns : List ConnRef) (id : GoString) :
    ∀ m : Pool, m.Valid → conns.Nodup → (∀ c ∈ conns, c ∉ m.clients.map Prod.fst) →
      (m.registerAll conns id).Valid ∧
      (m.registerAll conns id).Size = m.Size + conns.length ∧
      (∀ c ∈ conns, (c, id) ∈ (m.registerAll conns id).clients) ∧
      (∀ e ∈ m.clients, e ∈ (m.registerAll conns id).clients) := by
  induction conns with
  | nil =>
    intro m hvalid _ _
    refine ⟨hvalid, rfl, ?_, ?_⟩
    · intro c hc
      cases hc
    · intro e he
      exact he
  | cons c conns ih =>
    intro m hvalid hnodup hnew
    rw [List.nodup_cons] at hnodup
    have hc := register_new m c id (hnew c (List.mem_cons_self _ _))
    have hstep := ih (m.register c id) (register_valid m c id hvalid) hnodup.2 (by
      intro x hx hmem
      rw [hc, List.map_cons, List.mem_cons] at hmem
      rcases hmem with h | h
      · have hxc : x = c := h
        exact hnodup.1 (hxc ▸ hx)
      · exact hnew x (List.mem_cons_of_mem _ hx) h)
    obtain ⟨h1, h2, h3, h4⟩ := hstep
    have hunfold : m.registerAll (c :: conns) id = (m.register c id).registerAll conns id := rfl
    rw [hunfold]
    refine ⟨h1, ?_, ?_, ?_⟩
    · rw [h2]
      simp only [Pool.Size, hc, List.length_cons]
      omega
    · intro x hx
      rcases List.mem_cons.mp hx with h | h
      · rw [h]
        exact h4 (c, id) (by rw [hc]; exact List.mem_cons_self _ _)
      · exact h3 x h
    · intro e he
      exact h4 e (by rw [hc]; exact List.mem_cons_of_mem _ he)

/-- C20. For every pool, every order in which the map is visited and every client id,
`GetConnsByID(id)` returns each registered connection whose client id is `id` exactly once
and no other connection. And after `register` of `n` distinct connections that were not
registered, all with the same client id, the size of the pool has grown by `n`, all that
was registered is still registered and `GetConnsByID` returns all `n` of them. -/
theorem GetConnsByID_exact (m : Pool) (it : MapRange m.clients) (id : GoString)
    (hvalid : m.Valid) :
    (∀ c, c ∈ m.GetConnsByID it id ↔ (c, id) ∈ m.clients) ∧
    (m.GetConnsByID it id).Nodup ∧
    (∀ c, (c, id) ∈ m.clients → (m.GetConnsByID it id).count c = 1) ∧
    (∀ conns : List ConnRef, conns.Nodup → (∀ c ∈ conns, c ∉ m.clients.map Prod.fst) →
      (m.registerAll conns id).Size = m.Size + conns.length ∧
      (∀ e ∈ m.clients, e ∈ (m.registerAll conns id).clients) ∧
      ∀ it1 : MapRange (m.registerAll conns id).clients,
        (∀ c ∈ conns, c ∈ (m.registerAll conns id).GetConnsByID it1 id) ∧
        ((m.registerAll conns id).GetConnsByID it1 id).Nodup) := by
  have hnodup : ∀ (p : Pool) (i : MapRange p.clients), p.Valid →
      (p.GetConnsByID i id).Nodup := by
    intro p i hp
    exact filter_keys_nodup _ _ (visit_keys_nodup p i hp)
  refine ⟨mem_GetConnsByID m it id, hnodup m it hvalid, ?_, ?_⟩
  · intro c hc
    exact List.count_eq_one_of_mem (hnodup m it hvalid) ((mem_GetConnsByID m it id c).mpr hc)
  · intro conns hnd hnew
    obtain ⟨h1, h2, h3, h4⟩ := registerAll_new conns id m hvalid hnd hnew
    refine ⟨h2, h4, fun it1 => ⟨?_, hnodup _ it1 h1⟩⟩
    intro c hc
    exact (mem_GetConnsByID _ it1 id c).mpr (h3 c hc)

theorem GetConnsByID_exact_witness :
    demoServe.pool.Valid ∧
    (∀ c, c ∈ demoServe.pool.GetConnsByID (MapRange.inOrder _) "c1" ↔
      (c, GoString.ofString "c1") ∈ demoServe.pool.clients) ∧
    (demoServe.pool.GetConnsByID (MapRange.inOrder _) "c1").Nodup ∧
    (demoServe.pool.registerAll [7, 8, 9] "c1").Size = demoServe.pool.Size + 3 ∧
    (∀ it1 : MapRange (demoServe.pool.registerAll [7, 8, 9] "c1").clients,
      (∀ c ∈ [7, 8, 9], c ∈ (demoServe.pool.registerAll [7, 8, 9] "c1").GetConnsByID it1 "c1") ∧
      ((demoServe.pool.registerAll [7, 8, 9] "c1").GetConnsByID it1 "c1").Nodup) :=
  have h := GetConnsByID_exact demoServe.pool (MapRange.inOrder _) "c1" (by decide)
  have hreg := h.2.2.2 [7, 8, 9] (by decide) (by decide)
  ⟨by decide, h.1, h.2.1, hreg.1, hreg.2.2⟩

/-- Three connections registered with the same client id in an empty pool are all kept and
all returned, and a connection of another client is not. -/
theorem registerAll_example :
    ((NewPool.register 5 "c2").registerAll [1, 2, 3] "c1").Size = 4 ∧
    ((NewPool.register 5 "c2").registerAll [1, 2, 3] "c1").GetConnsByID (MapRange.inOrder _)
      "c1" = [3, 2, 1] := by
  decide

/-! ## Requests rebuilt from events -/

set_option maxRecDepth 1000000 in
theorem escapeByte_unescape : ∀ x : Fin 256,
    (shouldEscape x .encodePath = true →
      ishex (upperhex (x.val / 16)) = true ∧ ishex (upperhex (x.val % 16)) = true ∧
      (Fin.ofNat (unhex (upperhex (x.val / 16)) * 16 + unhex (upperhex (x.val % 16))) :
        Fin 256) = x) ∧
    (shouldEscape x .encodePath = false →
      Char.ofNat x.val ≠ '%' ∧ utf8EncodeChar (Char.ofNat x.val) = [x]) := by
  decide

set_option maxRecDepth 1000000 in
theorem escapeByte_chars : ∀ x : Fin 256, ∀ c ∈ escapeByte x .encodePath,
    c ≠ '#' ∧ c ≠ '?' ∧ (decide (c.toNat < 0x20) || decide (c.toNat = 0x7f)) = false := by
  decide

theorem escapeBytes_chars (b : Bytes) : ∀ c ∈ escapeBytes b .encodePath,
    c ≠ '#' ∧ c ≠ '?' ∧ (decide (c.toNat < 0x20) || decide (c.toNat = 0x7f)) = false := by
  intro c hc
  unfold escapeBytes at hc
  rw [List.mem_flatMap] at hc
  obtain ⟨x, _, hx⟩ := hc
  exact escapeByte_chars x c hx

theorem unescape_cons (c : Char) (rest : List Char) (h : c ≠ '%') :
    unescape (c :: rest) = (unescape rest).map (fun t => utf8EncodeChar c ++ t) := by
  rw [unescape.eq_def]
  simp only [h, if_false]

theorem unescape_percent (h1 h2 : Char) (rest : List Char)
    (hh : (ishex h1 && ishex h2) = true) :
    unescape ('%' :: h1 :: h2 :: rest) =
      (unescape rest).map (fun t => Fin.ofNat (unhex h1 * 16 + unhex h2) :: t) := by
  rw [unescape.eq_def]
  simp only [if_true, hh]

theorem unescape_escapeByte (x : Fin 256) (rest : List Char) :
    unescape (escapeByte x .encodePath ++ rest) = (unescape rest).map (fun t => x :: t) := by
  obtain ⟨h1, h2⟩ := escapeByte_unescape x
  unfold escapeByte
  cases hs : shouldEscape x .encodePath with
  | true =>
    obtain ⟨ha, hb, hc⟩ := h1 hs
    simp only [if_true, List.cons_append, List.nil_append]
    rw [unescape_percent _ _ _ (by rw [ha, hb]; rfl), hc]
  | false =>
    obtain ⟨ha, hb⟩ := h2 hs
    simp only [Bool.false_eq_true, if_false, List.cons_append, List.nil_append]
    rw [unescape_cons _ _ ha, hb]
    rfl

theorem unescape_escapeBytes (b : Bytes) : unescape (escapeBytes b .encodePath) = .ok b := by
  induction b with
  | nil => rfl
  | cons x b ih =>
    have h : escapeBytes (x :: b) .encodePath =
        escapeByte x .encodePath ++ escapeBytes b .encodePath := by
      simp [escapeBytes]
    rw [h, unescape_escapeByte, ih]
    rfl

theorem cut_of_not_mem (s : List Char) (sep : Char) (h : sep ∉ s) : cut s sep = (s, []) := by
  unfold cut
  have h1 : s.takeWhile (fun c => decide (c ≠ sep)) = s := by
    rw [List.takeWhile_eq_self_iff]
    intro c hc
    simp only [decide_eq_true_eq]
    intro heq
    exact h (heq ▸ hc)
  have h2 : s.dropWhile (fun c => decide (c ≠ sep)) = [] := by
    rw [List.dropWhile_eq_nil_iff]
    intro c hc
    simp only [decide_eq_true_eq]
    intro heq
    exact h (heq ▸ hc)
  rw [h1, h2]
  rfl

theorem cut_append_sep (a b : List Char) (sep : Char) (h : sep ∉ a) :
    cut (a ++ sep :: b) sep = (a, b) := by
  unfold cut
  have hall : ∀ c ∈ a, decide (c ≠ sep) = true := by
    intro c hc
    simp only [decide_eq_true_eq]
    intro heq
    exact h (heq ▸ hc)
  rw [List.takeWhile_append_of_pos hall, List.dropWhile_append_of_pos hall]
  simp


theorem getScheme_http (rest : List Char) :
    getScheme ('h' :: 't' :: 't' :: 'p' :: ':' :: rest) = .ok (['h', 't', 't', 'p'], rest) :=
  rfl

theorem cut_append_left (a b : List Char) (sep : Char) (h : sep ∉ a) :
    cut (a ++ b) sep = (a ++ (cut b sep).1, (cut b sep).2) := by
  unfold cut
  have hall : ∀ c ∈ a, decide (c ≠ sep) = true := by
    intro c hc
    simp only [decide_eq_true_eq]
    intro heq
    exact h (heq ▸ hc)
  rw [List.takeWhile_append_of_pos hall, List.dropWhile_append_of_pos hall]

theorem parse_built (E q0 : List Char) (P : String)
    (hE : E = [] ∨ ∃ E1, E = '/' :: E1)
    (hnoq : '?' ∉ E)
    (hq0 : q0 = [] ∨ ∃ q1, q0 = '?' :: q1)
    (hctl : stringContainsCTLByte (httpLocalhost ++ E ++ q0) = false)
    (hun : unescape E = .ok (utf8 P)) :
    parse (httpLocalhost ++ E ++ q0) =
      some (.ok { Scheme := "http", Host := "localhost", Path := P,
                  RawPath := if E = (escape P .encodePath).data then "" else String.mk E,
                  RawQuery := String.mk (q0.drop 1) }) := by
  have hstar : httpLocalhost ++ E ++ q0 ≠ ['*'] := by
    intro h
    simp [httpLocalhost] at h
  have hnoq1 : '?' ∉ ('/' :: '/' :: 'l' :: 'o' :: 'c' :: 'a' :: 'l' :: 'h' :: 'o' :: 's' ::
      't' :: E) := by
    intro h
    simp only [List.mem_cons] at h
    rcases h with h | h | h | h | h | h | h | h | h | h | h | h
    all_goals first
      | exact absurd h (by decide)
      | exact hnoq h
  have hsplit : (if (('/' :: '/' :: 'l' :: 'o' :: 'c' :: 'a' :: 'l' :: 'h' :: 'o' :: 's' ::
        't' :: E) ++ q0).getLast? = some '?' ∧
        (('/' :: '/' :: 'l' :: 'o' :: 'c' :: 'a' :: 'l' :: 'h' :: 'o' :: 's' ::
        't' :: E) ++ q0).count '?' = 1
      then ((('/' :: '/' :: 'l' :: 'o' :: 'c' :: 'a' :: 'l' :: 'h' :: 'o' :: 's' ::
        't' :: E) ++ q0).dropLast, [])
      else cut (('/' :: '/' :: 'l' :: 'o' :: 'c' :: 'a' :: 'l' :: 'h' :: 'o' :: 's' ::
        't' :: E) ++ q0) '?') =
      ('/' :: '/' :: 'l' :: 'o' :: 'c' :: 'a' :: 'l' :: 'h' :: 'o' :: 's' :: 't' :: E,
        q0.drop 1) := by
    rcases hq0 with hq | ⟨q1, hq⟩
    · subst hq
      rw [List.append_nil, if_neg, cut_of_not_mem _ _ hnoq1]
      · rfl
      · rintro ⟨_, hcount⟩
        rw [List.count_eq_zero_of_not_mem hnoq1] at hcount
        exact absurd hcount (by decide)
    · subst hq
      by_cases hq1 : q1 = []
      · subst hq1
        rw [if_pos, List.dropLast_concat]
        · rfl
        · refine ⟨List.getLast?_concat _, ?_⟩
          rw [List.count_append, List.count_eq_zero_of_not_mem hnoq1]
          rfl
      · rw [if_neg, cut_append_sep _ _ _ hnoq1]
        · rfl
        · rintro ⟨hlast, hcount⟩
          rw [List.count_append, List.count_eq_zero_of_not_mem hnoq1, List.count_cons_self]
            at hcount
          have hq2 : q1.count '?' = 0 := by omega
          obtain ⟨c, q2, rfl⟩ := List.exists_cons_of_ne_nil hq1
          rw [List.getLast?_append_of_ne_nil _ (by simp), List.getLast?_cons_cons] at hlast
          exact List.count_eq_zero.mp hq2 (List.mem_of_getLast?_eq_some hlast)
  have hauth : (E.takeWhile (fun c => decide (c ≠ '/')) = [] ∧
      E.dropWhile (fun c => decide (c ≠ '/')) = E) := by
    rcases hE with h | ⟨E1, h⟩ <;> subst h <;> exact ⟨rfl, rfl⟩
  have hpath : URL.setPath { Scheme := "http", Host := "localhost", Path := "", RawPath := "",
                             RawQuery := String.mk (q0.drop 1) } E =
      some (.ok { Scheme := "http", Host := "localhost", Path := P,
                  RawPath := if E = (escape P .encodePath).data then "" else String.mk E,
                  RawQuery := String.mk (q0.drop 1) }) := by
    unfold URL.setPath
    rw [hun]
    simp only [utf8Decode_utf8]
  unfold parse
  rw [hctl]
  simp only [Bool.false_eq_true, if_false, hstar]
  have hshape : httpLocalhost ++ E ++ q0 =
      'h' :: 't' :: 't' :: 'p' :: ':' :: (('/' :: '/' :: 'l' :: 'o' :: 'c' :: 'a' :: 'l' ::
        'h' :: 'o' :: 's' :: 't' :: E) ++ q0) := rfl
  rw [hshape, getScheme_http]
  simp only [hsplit]
  simp only [List.head?_cons, ne_eq, not_true_eq_false, false_and, if_false, List.take,
    and_true, List.map_cons, List.map_nil, reduceCtorEq, not_false_eq_true, true_or,
    if_true]
  have hl : ∀ (X : List Char), (('l' :: 'o' :: 'c' :: 'a' :: 'l' :: 'h' :: 'o' :: 's' ::
      't' :: X).takeWhile (fun c => decide (c ≠ '/')) =
        'l' :: 'o' :: 'c' :: 'a' :: 'l' :: 'h' :: 'o' :: 's' :: 't' ::
          X.takeWhile (fun c => decide (c ≠ '/'))) ∧
      (('l' :: 'o' :: 'c' :: 'a' :: 'l' :: 'h' :: 'o' :: 's' ::
      't' :: X).dropWhile (fun c => decide (c ≠ '/')) =
          X.dropWhile (fun c => decide (c ≠ '/'))) := fun _ => ⟨rfl, rfl⟩
  have hd : ('/' :: '/' :: 'l' :: 'o' :: 'c' :: 'a' :: 'l' :: 'h' :: 'o' :: 's' ::
      't' :: E).drop 2 = 'l' :: 'o' :: 'c' :: 'a' :: 'l' :: 'h' :: 'o' :: 's' :: 't' :: E := rfl
  rw [hd, (hl E).1, (hl E).2, hauth.1, hauth.2]
  exact hpath

theorem escape_head (P : String) (hP : P = "" ∨ P.data.head? = some '/') :
    (escape P .encodePath).data = [] ∨
      ∃ E1, (escape P .encodePath).data = '/' :: E1 := by
  rcases hP with h | h
  · subst h
    exact Or.inl rfl
  · obtain ⟨cs⟩ := P
    cases cs with
    | nil => exact Or.inl rfl
    | cons c cs =>
      simp only [List.head?_cons, Option.some.injEq] at h
      subst h
      exact Or.inr ⟨escapeBytes (utf8 (String.mk cs)) .encodePath, rfl⟩

theorem String_data (P Q : String) :
    (URL.String { Scheme := "http", Host := "localhost", Path := P, RawPath := "",
                  RawQuery := Q }).data =
      httpLocalhost ++
        (if ¬ URL.EscapedPath { Scheme := "http", Host := "localhost", Path := P,
                                RawPath := "", RawQuery := Q } = "" ∧
            ¬ (URL.EscapedPath { Scheme := "http", Host := "localhost", Path := P,
                                 RawPath := "", RawQuery := Q }).data.head? = some '/'
          then ['/'] else []) ++
        (URL.EscapedPath { Scheme := "http", Host := "localhost", Path := P, RawPath := "",
                           RawQuery := Q }).data ++
        (if Q.data = [] then [] else '?' :: Q.data) := by
  have hhost : escape "localhost" .encodeHost = "localhost" := by decide
  have h1 : ("http" : String) ≠ "" := by decide
  have h2 : ("localhost" : String) ≠ "" := by decide
  have h3 : ("http" : String) ++ ":" ++ "//" ++ "localhost" = String.mk httpLocalhost := by
    decide
  have h4 : ∀ t : String, String.mk httpLocalhost ++ t ≠ "" := by
    intro t h
    have hd := congrArg String.data h
    rw [String.data_append] at hd
    exact absurd hd (by simp [httpLocalhost])
  have h4a : String.mk httpLocalhost ≠ "" := by decide
  unfold URL.String
  simp only [hhost, h1, h2, h3, ne_eq, not_false_eq_true, true_or, if_true,
    if_false, and_true, not_true_eq_false]
  by_cases hs : ¬ URL.EscapedPath { Scheme := "http", Host := "localhost", Path := P,
                                    RawPath := "", RawQuery := Q } = "" ∧
      ¬ (URL.EscapedPath { Scheme := "http", Host := "localhost", Path := P,
                           RawPath := "", RawQuery := Q }).data.head? = some '/'
  · simp only [hs, and_self, not_false_eq_true, if_true, h4, false_and, if_false]
    by_cases hq : Q.data = []
    · have hq2 : Q = "" := String.ext hq
      simp [hq2, String.data_append]
    · have hq2 : ¬ Q = "" := fun h => hq (by rw [h])
      simp [hq, hq2, String.data_append]
  · simp only [hs, if_false, h4a, false_and]
    by_cases hq : Q.data = []
    · have hq2 : Q = "" := String.ext hq
      simp [hq2, String.data_append]
    · have hq2 : ¬ Q = "" := fun h => hq (by rw [h])
      simp [hq, hq2, String.data_append]

theorem EscapedPath_built (P Q : String) :
    URL.EscapedPath { Scheme := "http", Host := "localhost", Path := P, RawPath := "",
                      RawQuery := Q } = if P = "*" then "*" else escape P .encodePath := by
  unfold URL.EscapedPath
  simp

theorem String_built (P Q : String) (hP : P = "" ∨ P.data.head? = some '/') :
    (URL.String { Scheme := "http", Host := "localhost", Path := P, RawPath := "",
                  RawQuery := Q }).data =
      httpLocalhost ++ (escape P .encodePath).data ++
        (if Q.data = [] then [] else '?' :: Q.data) := by
  have hstar : P ≠ "*" := by
    rcases hP with h | h
    · subst h
      decide
    · intro h2
      subst h2
      exact absurd h (by decide)
  have h5 : ¬ (¬ escape P .encodePath = "" ∧
      ¬ (escape P .encodePath).data.head? = some '/') := by
    rintro ⟨ha, hb⟩
    rcases escape_head P hP with h | ⟨E1, h⟩
    · exact ha (String.ext h)
    · rw [h] at hb
      exact hb rfl
  rw [String_data, EscapedPath_built, if_neg hstar, if_neg h5, List.append_nil]

theorem utf8_slash (P : String) : utf8 ("/" ++ P) = 47 :: utf8 P := by
  rw [utf8_append]
  rfl

theorem String_shape (P Q : String) :
    ∃ E s, (URL.String { Scheme := "http", Host := "localhost", Path := P, RawPath := "",
                         RawQuery := Q }).data =
        httpLocalhost ++ E ++ (if Q.data = [] then [] else '?' :: Q.data) ∧
      (E = [] ∨ ∃ E1, E = '/' :: E1) ∧
      (∀ c ∈ E, c ≠ '#' ∧ c ≠ '?' ∧
        (decide (c.toNat < 0x20) || decide (c.toNat = 0x7f)) = false) ∧
      unescape E = .ok (utf8 s) := by
  by_cases hstar : P = "*"
  · subst hstar
    refine ⟨['/', '*'], "/*", ?_, Or.inr ⟨_, rfl⟩, by decide, by decide⟩
    rw [String_data, EscapedPath_built]
    rfl
  · by_cases hs : ¬ escape P .encodePath = "" ∧
        ¬ (escape P .encodePath).data.head? = some '/'
    · refine ⟨'/' :: (escape P .encodePath).data, "/" ++ P, ?_, Or.inr ⟨_, rfl⟩, ?_, ?_⟩
      · rw [String_data, EscapedPath_built, if_neg hstar, if_pos hs]
        rfl
      · intro c hc
        rcases List.mem_cons.mp hc with h | h
        · subst h
          decide
        · exact escapeBytes_chars _ c h
      · rw [unescape_cons _ _ (by decide), utf8_slash]
        show (unescape (escapeBytes (utf8 P) .encodePath)).map _ = _
        rw [unescape_escapeBytes]
        rfl
    · refine ⟨(escape P .encodePath).data, P, ?_, ?_, escapeBytes_chars _,
        unescape_escapeBytes _⟩
      · rw [String_data, EscapedPath_built, if_neg hstar, if_neg hs, List.append_nil]
      · by_cases he : escape P .encodePath = ""
        · exact Or.inl (by rw [he])
        · have hh : (escape P .encodePath).data.head? = some '/' := by
            by_contra hne
            exact hs ⟨he, hne⟩
          cases hd : (escape P .encodePath).data with
          | nil => exact Or.inl rfl
          | cons c cs =>
            rw [hd] at hh
            simp only [List.head?_cons, Option.some.injEq] at hh
            exact Or.inr ⟨cs, by rw [hh]⟩

theorem Parse_built (P Q : String) (hP : P = "" ∨ P.data.head? = some '/')
    (hQ : ∀ c ∈ Q.data, c ≠ '#' ∧
      (decide (c.toNat < 0x20) || decide (c.toNat = 0x7f)) = false) :
    Parse (URL.String { Scheme := "http", Host := "localhost", Path := P, RawPath := "",
                        RawQuery := Q }) =
      some (.ok { Scheme := "http", Host := "localhost", Path := P, RawPath := "",
                  RawQuery := Q }) := by
  have hnohash : '#' ∉ httpLocalhost ++ (escape P .encodePath).data ++
      (if Q.data = [] then [] else '?' :: Q.data) := by
    intro h
    rw [List.mem_append, List.mem_append] at h
    rcases h with (h | h) | h
    · exact absurd h (by decide)
    · exact (escapeBytes_chars _ _ h).1 rfl
    · by_cases hq : Q.data = []
      · simp [hq] at h
      · rw [if_neg hq, List.mem_cons] at h
        rcases h with h | h
        · exact absurd h (by decide)
        · exact (hQ _ h).1 rfl
  have hctl : stringContainsCTLByte (httpLocalhost ++ (escape P .encodePath).data ++
      (if Q.data = [] then [] else '?' :: Q.data)) = false := by
    unfold stringContainsCTLByte
    rw [List.any_eq_false]
    intro c hc
    rw [List.mem_append, List.mem_append] at hc
    rcases hc with (hc | hc) | hc
    · revert c
      decide
    · simpa using (escapeBytes_chars _ c hc).2.2
    · by_cases hq0 : Q.data = []
      · simp [hq0] at hc
      · rw [if_neg hq0, List.mem_cons] at hc
        rcases hc with hc | hc
        · subst hc
          decide
        · simpa using (hQ c hc).2
  have hq0 : (if Q.data = [] then [] else '?' :: Q.data) = [] ∨
      ∃ q1, (if Q.data = [] then [] else '?' :: Q.data) = '?' :: q1 := by
    by_cases h : Q.data = []
    · exact Or.inl (if_pos h)
    · exact Or.inr ⟨Q.data, if_neg h⟩
  have hdrop : String.mk ((if Q.data = [] then [] else '?' :: Q.data).drop 1) = Q := by
    by_cases h : Q.data = []
    · rw [if_pos h]
      exact String.ext h.symm
    · rw [if_neg h]
      rfl
  unfold Parse
  rw [String_built P Q hP, cut_of_not_mem _ _ hnohash]
  simp only []
  rw [parse_built (escape P .encodePath).data _ P (escape_head P hP)
    (fun h => (escapeBytes_chars _ _ h).2.1 rfl) hq0 hctl (unescape_escapeBytes _), hdrop]
  simp only [if_true]

theorem NewRequest_built (method P Q : String) (body : Bytes)
    (hm : validMethod method = true) (hP : P = "" ∨ P.data.head? = some '/')
    (hQ : ∀ c ∈ Q.data, c ≠ '#' ∧
      (decide (c.toNat < 0x20) || decide (c.toNat = 0x7f)) = false) :
    NewRequest method
        (URL.String { Scheme := "http", Host := "localhost", Path := P, RawPath := "",
                      RawQuery := Q }) body =
      some (.ok { Method := method,
                  URL := { Scheme := "http", Host := "localhost", Path := P, RawPath := "",
                           RawQuery := Q },
                  Header := some [], Body := .ok body }) := by
  have hne : method ≠ "" := by
    intro h
    subst h
    exact absurd hm (by decide)
  unfold NewRequest
  simp only [if_neg hne, hm, Bool.not_true, Bool.false_eq_true, if_false, Parse_built P Q hP hQ]
  rfl

theorem Parse_in_model (P Q : String) :
    ∃ x, Parse (URL.String { Scheme := "http", Host := "localhost", Path := P, RawPath := "",
                             RawQuery := Q }) = some x := by
  obtain ⟨E, s, hS, hE, hchars, hun⟩ := String_shape P Q
  have hnohash : '#' ∉ httpLocalhost ++ E := by
    intro h
    rcases List.mem_append.mp h with h | h
    · exact absurd h (by decide)
    · exact (hchars _ h).1 rfl
  have hq0 : (cut (if Q.data = [] then [] else '?' :: Q.data) '#').1 = [] ∨
      ∃ q1, (cut (if Q.data = [] then [] else '?' :: Q.data) '#').1 = '?' :: q1 := by
    by_cases h : Q.data = []
    · rw [if_pos h]
      exact Or.inl rfl
    · rw [if_neg h]
      exact Or.inr ⟨Q.data.takeWhile (fun c => decide (c ≠ '#')), rfl⟩
  have hparse : ∃ y, parse (httpLocalhost ++ E ++
      (cut (if Q.data = [] then [] else '?' :: Q.data) '#').1) = some y := by
    cases hctl : stringContainsCTLByte (httpLocalhost ++ E ++
        (cut (if Q.data = [] then [] else '?' :: Q.data) '#').1) with
    | true =>
      unfold parse
      rw [hctl]
      exact ⟨_, rfl⟩
    | false =>
      exact ⟨_, parse_built E _ s hE (fun h => (hchars _ h).2.1 rfl) hq0 hctl hun⟩
  obtain ⟨y, hy⟩ := hparse
  unfold Parse
  rw [hS, cut_append_left _ _ _ hnohash]
  simp only [hy]
  cases y with
  | error err => exact ⟨_, rfl⟩
  | ok url =>
    simp only []
    by_cases hfrag : (cut (if Q.data = [] then [] else '?' :: Q.data) '#').2 = []
    · rw [if_pos hfrag]
      exact ⟨_, rfl⟩
    · rw [if_neg hfrag]
      cases unescape (cut (if Q.data = [] then [] else '?' :: Q.data) '#').2 with
      | error err => exact ⟨_, rfl⟩
      | ok b => exact ⟨_, rfl⟩

theorem NewRequest_in_model (method P Q : String) (body : Bytes) :
    ∃ x, NewRequest method
      (URL.String { Scheme := "http", Host := "localhost", Path := P, RawPath := "",
                    RawQuery := Q }) body = some x := by
  obtain ⟨y, hy⟩ := Parse_in_model P Q
  unfold NewRequest
  simp only [hy]
  cases validMethod (if method = "" then "GET" else method) with
  | false => exact ⟨_, rfl⟩
  | true =>
    cases y with
    | error err => exact ⟨_, rfl⟩
    | ok u => exact ⟨_, rfl⟩

theorem toHttpRequest_built (method P Q : String) (entries : Header) (body : Bytes)
    (hm : validMethod method = true) (hP : P = "" ∨ P.data.head? = some '/')
    (hQ : stringContainsCTLByte Q.data = false ∧ '#' ∉ Q.data) :
    toHttpRequest { Method := method, RawPath := P, RawQuery := Q,
                    Headers := some (entries.map
                      (fun e => (e.1, some (e.2.map StructValue.StringValue)))),
                    Body := body } =
      some (.ok { Method := method,
                  URL := { Scheme := "http", Host := "localhost", Path := P, RawPath := "",
                           RawQuery := Q },
                  Header := some entries, Body := .ok body }) := by
  have hQ1 : ∀ c ∈ Q.data, c ≠ '#' ∧
      (decide (c.toNat < 0x20) || decide (c.toNat = 0x7f)) = false := by
    intro c hc
    refine ⟨fun h => hQ.2 (h ▸ hc), ?_⟩
    have hall := hQ.1
    unfold stringContainsCTLByte at hall
    rw [List.any_eq_false] at hall
    simpa using hall c hc
  unfold toHttpRequest
  simp only [NewRequest_built method P Q body hm hP hQ1, fromHeaders_strings]

/-- The model of `net/url` covers `toHttpRequest`: whatever the event, the URL it builds has
the authority `localhost` and a path that unescapes to valid UTF-8, so `toHttpRequest` has
an outcome in the model, a request or an error. -/
theorem toHttpRequest_in_model (event : EventHTTPRequest) :
    ∃ x, toHttpRequest event = some x := by
  obtain ⟨y, hy⟩ := NewRequest_in_model event.Method event.RawPath event.RawQuery event.Body
  unfold toHttpRequest
  simp only [hy]
  cases y with
  | error err => exact ⟨_, rfl⟩
  | ok request =>
    cases fromHeaders event.Headers with
    | error err => exact ⟨_, rfl⟩
    | ok header => exact ⟨_, rfl⟩

/-- C14 (as amended). For every request whose body can be read, whose header values are all
valid UTF-8, whose method is a non-empty HTTP token, whose URL has an empty `RawPath`, a
`Path` that is empty or starts with `/` and a `RawQuery` without `#` and without control
characters, `fromHttpRequest` succeeds and `toHttpRequest` of its event succeeds and yields
a request with the same
method, a header with exactly the entries of the original, the same `URL.Path`, the same
(empty) `URL.RawPath`, the same `URL.RawQuery` and the same body bytes, with the URL scheme
`http` and the host `localhost`. -/
theorem toHttpRequest_fromHttpRequest (r : Request) (body : Bytes)
    (hbody : r.Body = .ok body) (hvalid : r.Header.entries.ValidUTF8 = true)
    (hmethod : validMethod r.Method = true)
    (hraw : r.URL.RawPath = "")
    (hpath : r.URL.Path = "" ∨ r.URL.Path.data.head? = some '/')
    (hquery : stringContainsCTLByte r.URL.RawQuery.data = false ∧ '#' ∉ r.URL.RawQuery.data) :
    ∃ event, fromHttpRequest r = .ok event ∧
      toHttpRequest event =
        some (.ok { Method := r.Method,
                    URL := { Scheme := "http", Host := "localhost", Path := r.URL.Path,
                             RawPath := r.URL.RawPath, RawQuery := r.URL.RawQuery },
                    Header := some r.Header.entries,
                    Body := .ok body }) := by
  refine ⟨_, fromHttpRequest_ok r body hbody hvalid, ?_⟩
  rw [if_pos hraw, hraw]
  exact toHttpRequest_built r.Method r.URL.Path r.URL.RawQuery r.Header.entries body hmethod
    hpath hquery

theorem toHttpRequest_fromHttpRequest_witness :
    ∃ event, fromHttpRequest demoSearch = .ok event ∧
      toHttpRequest event =
        some (.ok { Method := "POST",
                    URL := { Scheme := "http", Host := "localhost", Path := "/search",
                             RawPath := demoSearch.URL.RawPath, RawQuery := "q=dotnet" },
                    Header := some [("key1", ["value1"])],
                    Body := .ok [79, 75] }) :=
  toHttpRequest_fromHttpRequest demoSearch [79, 75] rfl (by decide) (by decide) rfl
    (Or.inr (by decide)) (by decide)

/-- C14 (counterexample). For the request whose body cannot be read `fromHttpRequest`
returns the error of the read, so there is no event to convert back; the same holds, with
the error of `toHeaders`, for the request `GET /test` with a header value that is not valid
UTF-8. For the other four requests `fromHttpRequest` succeeds, and then: with the raw query
`q=dotnet#top` the request rebuilt has the raw query `q=dotnet`, as `url.Parse` cuts the
URL at the `#`; with a line feed in the raw query `toHttpRequest` fails; with the empty
method the request rebuilt has the method `GET`; and with the path `search` the request
rebuilt has the path `/search`. -/
theorem toHttpRequest_fromHttpRequest_not_always :
    fromHttpRequest demoUnreadable = .error (.errorString "unexpected EOF") ∧
    Header.lookup demoBadHeaderRequest.Header.entries "X-Tag" = some [{ bytes := [255] }] ∧
    (∃ err, fromHttpRequest demoBadHeaderRequest = .error err) ∧
    demoHashQuery.URL.RawQuery = "q=dotnet#top" ∧
    (∃ event, fromHttpRequest demoHashQuery = .ok event ∧
      (toHttpRequest event).map (fun x => x.map (fun req => req.URL.RawQuery)) =
        some (.ok "q=dotnet")) ∧
    (∃ event, fromHttpRequest demoControlQuery = .ok event ∧
      (toHttpRequest event).map (fun x => x.map (fun req => req.URL)) =
        some (.error (.wrapError "parse"
          (.errorString "net/url: invalid control character in URL")))) ∧
    demoNoMethod.Method = "" ∧
    (∃ event, fromHttpRequest demoNoMethod = .ok event ∧
      (toHttpRequest event).map (fun x => x.map (fun req => req.Method)) =
        some (.ok "GET")) ∧
    demoRelative.URL.Path = "search" ∧
    (∃ event, fromHttpRequest demoRelative = .ok event ∧
      (toHttpRequest event).map (fun x => x.map (fun req => req.URL.Path)) =
        some (.ok "/search")) := by
  refine ⟨rfl, by decide,
    ⟨GoError.errorString "proto: invalid UTF-8 in string", by decide⟩, rfl, ⟨_, rfl, ?_⟩,
    ⟨_, rfl, ?_⟩, rfl, ⟨_, rfl, ?_⟩, rfl, ⟨_, rfl, ?_⟩⟩ <;> decide

/-- The request for the path `/a/b` with the encoded form `/a%2Fb`: the event carries the
encoded form, `toHttpRequest` takes it for a decoded path, and the request it yields has the
path `/a%2Fb` and no raw path, so that its encoded form is `/a%252Fb`. -/
theorem toHttpRequest_encoded_path :
    demoEncodedSlash.URL.Path = "/a/b" ∧ demoEncodedSlash.URL.RawPath = "/a%2Fb" ∧
    (∃ event, fromHttpRequest demoEncodedSlash = .ok event ∧
      event.RawPath = "/a%2Fb" ∧
      (toHttpRequest event).map (fun x => x.map (fun req => (req.URL, req.URL.EscapedPath))) =
        some (.ok ({ Scheme := "http", Host := "localhost", Path := "/a%2Fb", RawPath := "",
                     RawQuery := "q=dotnet" }, "/a%252Fb"))) := by
  refine ⟨rfl, rfl, _, rfl, ?_, ?_⟩
  · decide
  · decide

/-- The events of `TestToHttpRequest`, and what `toHttpRequest` does with an empty method,
a path without a leading slash, the path `*`, a path with a space and a letter outside
ASCII, a method that is no token and a control character in the query. -/
theorem toHttpRequest_examples :
    (toHttpRequest { Method := "GET", RawPath := "/search", RawQuery := "q=dotnet",
                     Headers := some [], Body := [] }).map
        (fun x => x.map (fun req => (req.Method, req.URL, req.Header))) =
      some (.ok ("GET", { Scheme := "http", Host := "localhost", Path := "/search",
                          RawPath := "", RawQuery := "q=dotnet" }, some [])) ∧
    (toHttpRequest { Method := "POST", RawPath := "", RawQuery := "",
                     Headers := some [("key1", some [.StringValue "value1"])],
                     Body := [79, 75] }).map
        (fun x => x.map (fun req => (req.Method, req.URL, req.Header, req.Body))) =
      some (.ok ("POST", { Scheme := "http", Host := "localhost", Path := "", RawPath := "",
                           RawQuery := "" }, some [("key1", ["value1"])], .ok [79, 75])) ∧
    (toHttpRequest { Method := "", RawPath := "search", RawQuery := "", Headers := none,
                     Body := [] }).map
        (fun x => x.map (fun req => (req.Method, req.URL, req.Header))) =
      some (.ok ("GET", { Scheme := "http", Host := "localhost", Path := "/search",
                          RawPath := "", RawQuery := "" }, some [])) ∧
    (toHttpRequest { Method := "OPTIONS", RawPath := "*", RawQuery := "", Headers := none,
                     Body := [] }).map (fun x => x.map (fun req => req.URL)) =
      some (.ok { Scheme := "http", Host := "localhost", Path := "/*", RawPath := "/*",
                  RawQuery := "" }) ∧
    (toHttpRequest { Method := "GET", RawPath := "/a bé", RawQuery := "a b", Headers := none,
                     Body := [] }).map (fun x => x.map (fun req => req.URL)) =
      some (.ok { Scheme := "http", Host := "localhost", Path := "/a bé", RawPath := "",
                  RawQuery := "a b" }) ∧
    (toHttpRequest { Method := "G T", RawPath := "/", RawQuery := "", Headers := none,
                     Body := [] }).map (fun x => x.map (fun req => req.URL)) =
      some (.error (.errorString "net/http: invalid method")) ∧
    (toHttpRequest { Method := "GET", RawPath := "/", RawQuery := "a\nb", Headers := none,
                     Body := [] }).map (fun x => x.map (fun req => req.URL)) =
      some (.error (.wrapError "parse"
        (.errorString "net/url: invalid control character in URL"))) := by
  refine ⟨?_, ?_, ?_, ?_, ?_, ?_, ?_⟩ <;> first | decide | rfl

/-! ## Pool lookups by client id and unregistration -/

theorem GetConnByID_some (m : Pool) (it : MapRange m.clients) (id : GoString) (c : ConnRef)
    (h : m.GetConnByID it id = some c) : (c, id) ∈ m.clients := by
  unfold Pool.GetConnByID at h
  rw [Option.map_eq_some'] at h
  obtain ⟨e, he, hc⟩ := h
  have hmem := List.mem_of_find?_eq_some he
  have hid := List.find?_some he
  simp only [decide_eq_true_eq] at hid
  have : e = (c, id) := Prod.ext hc hid
  rw [← this]
  exact it.perm.mem_iff.mp hmem

/-- C21. For every pool, every order in which the map is visited and every client id,
`GetConnByID(id)` returns nil if and only if no registered connection has the client id
`id`; and a connection it returns is registered with the client id `id`, so that whenever
some registered connection has the client id `id` it returns one of those. -/
theorem GetConnByID_nil_iff (m : Pool) (it : MapRange m.clients) (id : GoString) :
    (m.GetConnByID it id = none ↔ ∀ c, (c, id) ∉ m.clients) ∧
    (∀ c, m.GetConnByID it id = some c → (c, id) ∈ m.clients) ∧
    ((∃ c, (c, id) ∈ m.clients) →
      ∃ c, m.GetConnByID it id = some c ∧ (c, id) ∈ m.clients) := by
  have hnone : m.GetConnByID it id = none ↔ ∀ c, (c, id) ∉ m.clients := by
    constructor
    · intro h c hc
      unfold Pool.GetConnByID at h
      rw [Option.map_eq_none', List.find?_eq_none] at h
      have := h (c, id) (it.perm.mem_iff.mpr hc)
      simp at this
    · intro h
      apply GetConnByID_none
      intro e he hid
      exact h e.1 (by rw [← hid]; exact he)
  refine ⟨hnone, GetConnByID_some m it id, ?_⟩
  rintro ⟨c, hc⟩
  cases hget : m.GetConnByID it id with
  | none => exact absurd hc (hnone.mp hget c)
  | some c1 => exact ⟨c1, rfl, GetConnByID_some m it id c1 hget⟩

/-- In a pool with two connections of client `c1`, `GetConnByID` returns the one the loop
visits first, connection 1 in one order and connection 2 in another; for a client without
a connection it returns nil. -/
theorem GetConnByID_example :
    demoPool.GetConnByID (MapRange.inOrder _) "c1" = some 1 ∧
    demoPool.GetConnByID demoPoolReversed "c1" = some 2 ∧
    demoPool.GetConnByID (MapRange.inOrder _) "c2" = some 3 ∧
    demoPool.GetConnByID (MapRange.inOrder _) "c3" = none ∧
    demoPool.GetConnByID demoPoolReversed "c3" = none := by
  decide

theorem unregister_clients (m : Pool) (c : ConnRef) (e : ConnRef × GoString) :
    e ∈ (m.unregister c).clients ↔ e ∈ m.clients ∧ e.1 ≠ c := by
  unfold Pool.unregister
  simp

/-- C22. For every pool and every connection `c`: unregistering `c` twice gives the same
pool as unregistering it once; unregistering a connection that is not registered leaves the
pool as it was; after `unregister(c)` none of `GetConn`, `GetConnByID` and `GetConnsByID`
returns `c`, in whatever order the map is visited; and every entry of another connection
stays in the pool, while nothing is added. -/
theorem unregister_idempotent (m : Pool) (c : ConnRef) :
    (m.unregister c).unregister c = m.unregister c ∧
    ((∀ e ∈ m.clients, e.1 ≠ c) → m.unregister c = m) ∧
    (∀ it : MapRange (m.unregister c).clients, (m.unregister c).GetConn it ≠ some c) ∧
    (∀ (it : MapRange (m.unregister c).clients) (id : GoString),
      (m.unregister c).GetConnByID it id ≠ some c) ∧
    (∀ (it : MapRange (m.unregister c).clients) (id : GoString),
      c ∉ (m.unregister c).GetConnsByID it id) ∧
    (∀ e ∈ m.clients, e.1 ≠ c → e ∈ (m.unregister c).clients) ∧
    (∀ e ∈ (m.unregister c).clients, e ∈ m.clients) := by
  have hgone : ∀ e ∈ (m.unregister c).clients, e.1 ≠ c :=
    fun e he => ((unregister_clients m c e).mp he).2
  refine ⟨?_, ?_, ?_, ?_, ?_, ?_, ?_⟩
  · unfold Pool.unregister
    simp only [List.filter_filter, Bool.and_self]
  · intro h
    unfold Pool.unregister
    have hself : m.clients.filter (fun e => !decide (e.1 = c)) = m.clients := by
      rw [List.filter_eq_self]
      intro e he
      simpa using h e he
    rw [hself]
  · intro it hget
    unfold Pool.GetConn at hget
    rw [Option.map_eq_some'] at hget
    obtain ⟨e, he, hc⟩ := hget
    exact hgone e (it.perm.mem_iff.mp (List.mem_of_mem_head? he)) hc
  · intro it id hget
    exact hgone (c, id) (GetConnByID_some _ it id c hget) rfl
  · intro it id hmem
    exact hgone (c, id) ((mem_GetConnsByID _ it id c).mp hmem) rfl
  · intro e he hne
    exact (unregister_clients m c e).mpr ⟨he, hne⟩
  · intro e he
    exact ((unregister_clients m c e).mp he).1

/-- Connection 1 leaves `demoPool` and the connections 2 and 3 stay; unregistering it again,
or unregistering a connection that was never registered, changes nothing. -/
theorem unregister_example :
    (demoPool.unregister 1).clients = [(2, GoString.ofString "c1"), (3, "c2")] ∧
    (demoPool.unregister 1).unregister 1 = demoPool.unregister 1 ∧
    demoPool.unregister 9 = demoPool ∧
    (demoPool.unregister 1).GetConn (MapRange.inOrder _) = some 2 ∧
    (demoPool.unregister 1).GetConnByID (MapRange.inOrder _) "c1" = some 2 ∧
    (demoPool.unregister 1).GetConnsByID (MapRange.inOrder _) "c1" = [2] ∧
    demoPool.GetConnsByID (MapRange.inOrder _) "c1" = [1, 2] := by
  decide

/-! ## Notify -/

/-- C23 (as amended). Let the envelope with the drawn id, type `NOTIFY` and the payload as
data encode to the frame `data`, and let the outbound queue be open with room. Then `Notify`
with a context that is not done returns nil and enqueues exactly the one frame `data` at the
end of the queue, leaving the pending-response table and the reply channels as they were;
with a done context it does that or returns the error of the context with nothing enqueued,
as the `select` chooses. With either codec of the repository the frame decodes to the
envelope with that id, type `NOTIFY` and the payload as data. -/
theorem Notify_enqueues_one_frame (d : ConnDeps) (c : Conn) (id : String)
    (input data : Bytes)
    (henc : d.codec.Encode { Id := id, Typ := Message_NOTIFY, Data := input } = .ok data)
    (hopen : c.sendCh.closed = false) (hroom : c.sendCh.buf.length < c.sendCh.cap) :
    (∀ pick, c.Notify d pick none id input =
      some (none, { c with sendCh := { c.sendCh with buf := c.sendCh.buf ++ [data] } })) ∧
    (∀ cause pick, c.Notify d pick (some cause) id input =
      some (if pick then
          (none, { c with sendCh := { c.sendCh with buf := c.sendCh.buf ++ [data] } })
        else (some cause.toError, c))) ∧
    (∀ pick ctx err c1, c.Notify d pick ctx id input = some (err, c1) →
      c1.respMap = c.respMap ∧ c1.chans = c.chans ∧
      (c1.sendCh.buf = c.sendCh.buf ∨ c1.sendCh.buf = c.sendCh.buf ++ [data])) ∧
    (d.codec = NewJsonCodec ∨ d.codec = NewProtoCodec →
      d.codec.Decode data = .ok { Id := id, Typ := Message_NOTIFY, Data := input }) := by
  have hready : c.sendCh.sendReady = true := by
    simp [Chan.sendReady, hopen, hroom]
  have h1 : ∀ pick, c.Notify d pick none id input =
      some (none, { c with sendCh := { c.sendCh with buf := c.sendCh.buf ++ [data] } }) := by
    intro pick
    simp [Conn.Notify, henc, safeSend, hready, hopen]
  have h2 : ∀ cause pick, c.Notify d pick (some cause) id input =
      some (if pick then
          (none, { c with sendCh := { c.sendCh with buf := c.sendCh.buf ++ [data] } })
        else (some cause.toError, c)) := by
    intro cause pick
    cases pick <;> simp [Conn.Notify, henc, safeSend, hready, hopen]
  refine ⟨h1, h2, ?_, ?_⟩
  · intro pick ctx err c1 h
    cases ctx with
    | none =>
      rw [h1] at h
      cases h
      exact ⟨rfl, rfl, Or.inr rfl⟩
    | some cause =>
      rw [h2] at h
      cases pick
      · simp only [Bool.false_eq_true, if_false, Option.some.injEq, Prod.mk.injEq] at h
        obtain ⟨_, hc⟩ := h
        subst hc
        exact ⟨rfl, rfl, Or.inl rfl⟩
      · simp only [if_true, Option.some.injEq, Prod.mk.injEq] at h
        obtain ⟨_, hc⟩ := h
        subst hc
        exact ⟨rfl, rfl, Or.inr rfl⟩
  · intro hcodec
    rcases hcodec with hc | hc
    · rw [hc] at henc ⊢
      have hd : jsonMarshal { Id := id, Typ := Message_NOTIFY, Data := input } = data := by
        simpa [NewJsonCodec] using henc
      rw [← hd]
      exact jsonUnmarshal_jsonMarshal _ (Nat.zero_le 2)
    · rw [hc] at henc ⊢
      have hd : protoMarshal { Id := id, Typ := Message_NOTIFY, Data := input } = data := by
        simpa [NewProtoCodec] using henc
      rw [← hd]
      exact protoUnmarshal_protoMarshal _ (Nat.pos_pow_of_pos 32 (by decide))

theorem Notify_enqueues_one_frame_witness :
    NewProtoCodec.Encode { Id := "a", Typ := Message_NOTIFY, Data := [5] } =
      .ok [10, 1, 97, 26, 1, 5] ∧
    (∀ pick, (Conn.init "c1").Notify protoDeps pick none "a" [5] =
      some (none, { Conn.init "c1" with
        sendCh := { (Conn.init "c1").sendCh with buf := [[10, 1, 97, 26, 1, 5]] } })) ∧
    NewProtoCodec.Decode [10, 1, 97, 26, 1, 5] =
      .ok { Id := "a", Typ := Message_NOTIFY, Data := [5] } :=
  have h := Notify_enqueues_one_frame protoDeps (Conn.init "c1") "a" [5]
    [10, 1, 97, 26, 1, 5] (by decide) (by decide) (by decide)
  ⟨by decide, h.1, h.2.2.2 (Or.inr rfl)⟩

/-- C23 (counterexample). On a fresh connection, whose outbound queue is open and empty with
room for 1024 frames, `Notify` with a cancelled context can return the error of the context
and enqueue nothing (the `select` of `safeSend` may take the `ctx.Done()` case); and with a
codec whose `Encode` fails it returns that error and enqueues nothing. -/
theorem Notify_on_open_queue_may_fail :
    (Conn.init "c1").sendCh.closed = false ∧
    (Conn.init "c1").sendCh.buf.length < (Conn.init "c1").sendCh.cap ∧
    (Conn.init "c1").Notify demoDeps false (some .Canceled) "a" [5] =
      some (some GoError.Canceled, Conn.init "c1") ∧
    (Conn.init "c1").Notify brokenCodecDeps true none "a" [5] =
      some (some (GoError.errorString "encode"), Conn.init "c1") := by
  decide

/-! ## Frames handled by the read loop -/

/-- C24. For every inbound frame, `handleReceived` returns a frame if and only if the
inbound frame decodes to an envelope of type `REQUEST`, `HandleRequest` returns no error for
its data and the envelope of the response encodes; the frame returned is then that
encoding. For a frame that does not decode, for every `NOTIFY` whatever `HandleNotify`
returns, and for a `REQUEST` whose handler returns an error, it returns nil and leaves the
connection as it was; for a `RESPONSE` it returns nil if it returns; and whenever it
returns nil the read loop enqueues nothing on the outbound queue. -/
theorem handleReceived_reply_iff (d : ConnDeps) (c : Conn) (input : Bytes) :
    ((∃ data c1, c.handleReceived d input = some (some data, c1)) ↔
      ∃ msg output data, d.codec.Decode input = .ok msg ∧ msg.Typ = Message_REQUEST ∧
        d.handler.HandleRequest msg.Data = .ok output ∧
        d.codec.Encode { msg with Data := output, Typ := Message_RESPONSE } = .ok data) ∧
    (∀ msg output data, d.codec.Decode input = .ok msg → msg.Typ = Message_REQUEST →
      d.handler.HandleRequest msg.Data = .ok output →
      d.codec.Encode { msg with Data := output, Typ := Message_RESPONSE } = .ok data →
      c.handleReceived d input = some (some data, c)) ∧
    (∀ err, d.codec.Decode input = .error err → c.handleReceived d input = some (none, c)) ∧
    (∀ msg, d.codec.Decode input = .ok msg → msg.Typ = Message_NOTIFY →
      c.handleReceived d input = some (none, c)) ∧
    (∀ msg err, d.codec.Decode input = .ok msg → msg.Typ = Message_REQUEST →
      d.handler.HandleRequest msg.Data = .error err →
      c.handleReceived d input = some (none, c)) ∧
    (∀ msg, d.codec.Decode input = .ok msg → msg.Typ = Message_RESPONSE →
      ∀ out c1, c.handleReceived d input = some (out, c1) → out = none) ∧
    (∀ (s : Tunnel) c1, s.conn.handleReceived d input = some (none, c1) →
      s.step d (.received input) = some { s with conn := c1 } ∧
      c1.sendCh = s.conn.sendCh) := by
  have hreq : ∀ msg output data, d.codec.Decode input = .ok msg → msg.Typ = Message_REQUEST →
      d.handler.HandleRequest msg.Data = .ok output →
      d.codec.Encode { msg with Data := output, Typ := Message_RESPONSE } = .ok data →
      c.handleReceived d input = some (some data, c) := by
    intro msg output data hdec htyp hh henc
    simp [Conn.handleReceived, hdec, htyp, hh, henc, Message_REQUEST, Message_NOTIFY]
  refine ⟨⟨?_, ?_⟩, hreq, ?_, ?_, ?_, ?_, ?_⟩
  · rintro ⟨data, c1, h⟩
    unfold Conn.handleReceived at h
    cases hdec : d.codec.Decode input with
    | error err => simp [hdec] at h
    | ok msg =>
      simp only [hdec] at h
      by_cases h0 : msg.Typ = Message_NOTIFY
      · rw [if_pos h0] at h
        cases hn : d.handler.HandleNotify msg.Data <;> simp [hn] at h
      · rw [if_neg h0] at h
        by_cases h1 : msg.Typ = Message_REQUEST
        · rw [if_pos h1] at h
          cases hh : d.handler.HandleRequest msg.Data with
          | error err => simp [hh] at h
          | ok output =>
            simp only [hh] at h
            cases henc : d.codec.Encode { msg with Data := output, Typ := Message_RESPONSE } with
            | error err => simp [henc] at h
            | ok data1 => exact ⟨msg, output, data1, rfl, h1, hh, henc⟩
        · rw [if_neg h1] at h
          by_cases h2 : msg.Typ = Message_RESPONSE
          · rw [if_pos h2] at h
            cases hg : SyncedMap.Get c.respMap msg.Id with
            | none => simp [hg] at h
            | some respCh =>
              simp only [hg] at h
              cases hp : chanPut c.chans respCh msg.Data <;> simp [hp] at h
          · rw [if_neg h2] at h
            simp at h
  · rintro ⟨msg, output, data, hdec, htyp, hh, henc⟩
    exact ⟨data, c, hreq msg output data hdec htyp hh henc⟩
  · intro err hdec
    simp [Conn.handleReceived, hdec]
  · intro msg hdec htyp
    cases hn : d.handler.HandleNotify msg.Data <;>
      simp [Conn.handleReceived, hdec, htyp, hn]
  · intro msg err hdec htyp hh
    simp [Conn.handleReceived, hdec, htyp, hh, Message_REQUEST, Message_NOTIFY]
  · intro msg hdec htyp out c1 h
    unfold Conn.handleReceived at h
    simp only [hdec, htyp, Message_RESPONSE, Message_REQUEST, Message_NOTIFY] at h
    simp only [OfNat.ofNat_ne_zero, OfNat.ofNat_ne_one, if_false, if_true] at h
    cases hg : SyncedMap.Get c.respMap msg.Id with
    | none =>
      simp only [hg] at h
      cases h
      rfl
    | some respCh =>
      simp only [hg] at h
      cases hp : chanPut c.chans respCh msg.Data with
      | none => simp [hp] at h
      | some chans =>
        simp only [hp] at h
        cases h
        rfl
  · intro s c1 h
    refine ⟨?_, (handleReceived_frame d s.conn c1 input none h).2.1⟩
    simp [Tunnel.step, h]

/-- The frames of the two-byte-header codec on a fresh connection: a `REQUEST` is answered
with the `RESPONSE` frame of the same id; a `NOTIFY`, a `RESPONSE` without a waiter, a frame
that is too short to decode and a frame of an unknown type are not answered; and with a
handler that fails neither a `REQUEST` nor a `NOTIFY` is answered. -/
theorem handleReceived_example :
    (Conn.init "c1").handleReceived demoDeps [1, 0, 7] = some (some [2, 0, 7], Conn.init "c1") ∧
    (Conn.init "c1").handleReceived demoDeps [0, 0, 7] = some (none, Conn.init "c1") ∧
    (Conn.init "c1").handleReceived demoDeps [2, 0, 7] = some (none, Conn.init "c1") ∧
    (Conn.init "c1").handleReceived demoDeps [1] = some (none, Conn.init "c1") ∧
    (Conn.init "c1").handleReceived demoDeps [9, 0, 7] = some (none, Conn.init "c1") ∧
    (Conn.init "c1").handleReceived failingDeps [1, 0, 7] =
      some (none, Conn.init "c1") ∧
    (Conn.init "c1").handleReceived failingDeps [0, 0, 7] =
      some (none, Conn.init "c1") :=
  ⟨rfl, rfl, rfl, rfl, rfl, rfl, rfl⟩

/-! ## Timeout of an exchange -/

theorem ProxyHttpRequest_timeout (x : Exchange) (conn : ConnRef) (w : ResponseWriter)
    (r : Request) (codec : HttpCodec) (dflt t : Duration) (ev : EventHTTPRequest)
    (input : Bytes) (hev : fromHttpRequest r = .ok ev)
    (henc : codec.RequestCodec.Encode ev = .ok input)
    (ht : GetRequestTimeout x.ParseDuration r dflt = (t, none)) :
    ProxyHttpRequest x conn w r codec dflt =
      proxyReply w codec (x.Send conn (if t > 0 then some t else none) input) := by
  unfold ProxyHttpRequest proxyReply
  simp only [hev, henc, ht]

theorem HttpRequestHandler_timeout (ParseDuration : GoString → Except GoError Duration)
    (handler : HandlerFunc) (event : Bytes) (codec : HttpCodec) (dflt t : Duration)
    (inputEvent : EventHTTPRequest) (req : Request)
    (hdec : codec.RequestCodec.Decode event = .ok inputEvent)
    (hreq : toHttpRequest inputEvent = some (.ok req))
    (ht : GetRequestTimeout ParseDuration req dflt = (t, none)) :
    HttpRequestHandler ParseDuration handler event codec dflt =
      recorderReply codec (handler (if t > 0 then some t else none) NewRecorder req) := by
  unfold HttpRequestHandler recorderReply
  simp only [hdec, hreq, ht]

/-- C25. Let the request of `ProxyHttpRequest` convert and encode, let the event of
`HttpRequestHandler` decode and convert, and let `GetRequestTimeout` resolve the timeouts `t`
and `t1` for the two requests without an error. `ProxyHttpRequest` calls `conn.Send` with a
context bounded by the timeout `t` when `t > 0` and with the incoming context as it is when
`t ≤ 0`; `HttpRequestHandler` hands the handler a request whose context is bounded by `t1`
when `t1 > 0` and the incoming context when `t1 ≤ 0`. The timeout resolved is the default
when the header is absent or empty and the parsed duration when it parses, so a header that
parses to zero or less, or no header with a default of zero or less, adds no timeout; and
the default of `NewHTTPHandler` without options is 0. -/
theorem timeout_added_iff_positive (x : Exchange) (conn : ConnRef) (w : ResponseWriter)
    (r : Request) (codec : HttpCodec) (dflt t t1 : Duration) (ev : EventHTTPRequest)
    (input : Bytes) (handler : HandlerFunc) (event : Bytes) (inputEvent : EventHTTPRequest)
    (req : Request)
    (hev : fromHttpRequest r = .ok ev) (henc : codec.RequestCodec.Encode ev = .ok input)
    (ht : GetRequestTimeout x.ParseDuration r dflt = (t, none))
    (hdec : codec.RequestCodec.Decode event = .ok inputEvent)
    (hreq : toHttpRequest inputEvent = some (.ok req))
    (ht1 : GetRequestTimeout x.ParseDuration req dflt = (t1, none)) :
    (0 < t → ProxyHttpRequest x conn w r codec dflt =
      proxyReply w codec (x.Send conn (some t) input)) ∧
    (t ≤ 0 → ProxyHttpRequest x conn w r codec dflt =
      proxyReply w codec (x.Send conn none input)) ∧
    (0 < t1 → HttpRequestHandler x.ParseDuration handler event codec dflt =
      recorderReply codec (handler (some t1) NewRecorder req)) ∧
    (t1 ≤ 0 → HttpRequestHandler x.ParseDuration handler event codec dflt =
      recorderReply codec (handler none NewRecorder req)) ∧
    (∀ (q : Request) (d : Duration), q.Header.Get HeaderRequestTimeout = "" →
      GetRequestTimeout x.ParseDuration q d = (d, none)) ∧
    (∀ (q : Request) (d v : Duration), q.Header.Get HeaderRequestTimeout ≠ "" →
      x.ParseDuration (q.Header.Get HeaderRequestTimeout) = .ok v →
      GetRequestTimeout x.ParseDuration q d = (v, none)) ∧
    (∀ (h : HandlerFunc) (c : HttpCodec), (NewHTTPHandler h c []).defaultRequestTimeout = 0 ∧
      (NewHTTPHandler h c []).HandleRequest x.ParseDuration event =
        HttpRequestHandler x.ParseDuration h event c 0) := by
  have hp := ProxyHttpRequest_timeout x conn w r codec dflt t ev input hev henc ht
  have ha := HttpRequestHandler_timeout x.ParseDuration handler event codec dflt t1 inputEvent
    req hdec hreq ht1
  refine ⟨?_, ?_, ?_, ?_, ?_, ?_, fun _ _ => ⟨rfl, rfl⟩⟩
  · intro hpos
    rw [hp, if_pos hpos]
  · intro hle
    rw [hp, if_neg (not_lt.mpr hle)]
  · intro hpos
    rw [ha, if_pos hpos]
  · intro hle
    rw [ha, if_neg (not_lt.mpr hle)]
  · intro q d h
    simp [GetRequestTimeout, h]
  · intro q d v h hv
    simp [GetRequestTimeout, h, hv]

theorem timeout_added_iff_positive_witness :
    GetRequestTimeout timedExchange.ParseDuration (demoTimed "0s") DefaultRequestTimeout =
      (0, none) ∧
    ProxyHttpRequest timedExchange 1 NewRecorder (demoTimed "0s") timedHttpCodec
        DefaultRequestTimeout =
      proxyReply NewRecorder timedHttpCodec (timedExchange.Send 1 none []) ∧
    GetRequestTimeout timedExchange.ParseDuration demoAgentRequest DefaultRequestTimeout =
      (5000000000, none) ∧
    HttpRequestHandler timedExchange.ParseDuration timedHandlerFunc [2] timedHttpCodec
        DefaultRequestTimeout =
      recorderReply timedHttpCodec (timedHandlerFunc (some 5000000000) NewRecorder
        demoAgentRequest) :=
  have h := timeout_added_iff_positive timedExchange 1 NewRecorder (demoTimed "0s")
    timedHttpCodec DefaultRequestTimeout 0 5000000000 _ [] timedHandlerFunc [2] _
    demoAgentRequest rfl rfl (by decide) rfl rfl (by decide)
  ⟨by decide, h.2.1 (by decide), by decide, h.2.2.1 (by decide)⟩

/-- The edge with a default of three seconds: the header values `0s` and `-1s` leave the
exchange without a deadline, `5s` bounds it by five seconds, no header bounds it by the
default, and no header with the default 0 leaves it without a deadline. The agent made by
`NewHTTPHandler` without options hands its handler a context with a timeout only for the
header value `5s`; with the option for a default of three seconds it does so without a
header too. -/
theorem request_timeout_example :
    (ProxyHttpRequest timedExchange 1 NewRecorder (demoTimed "0s") demoHttpCodec
        DefaultRequestTimeout).map Prod.fst =
      some (some (GoError.errorString "no deadline")) ∧
    (ProxyHttpRequest timedExchange 1 NewRecorder (demoTimed "-1s") demoHttpCodec
        DefaultRequestTimeout).map Prod.fst =
      some (some (GoError.errorString "no deadline")) ∧
    (ProxyHttpRequest timedExchange 1 NewRecorder (demoTimed "5s") demoHttpCodec
        DefaultRequestTimeout).map Prod.fst =
      some (some (GoError.errorString "deadline 5s")) ∧
    (ProxyHttpRequest timedExchange 1 NewRecorder demoRequest demoHttpCodec
        DefaultRequestTimeout).map Prod.fst =
      some (some (GoError.errorString "other deadline")) ∧
    (ProxyHttpRequest timedExchange 1 NewRecorder demoRequest demoHttpCodec 0).map Prod.fst =
      some (some (GoError.errorString "no deadline")) ∧
    (NewHTTPHandler timedHandlerFunc timedHttpCodec []).HandleRequest demoParseDuration [0] =
      some (.ok [200]) ∧
    (NewHTTPHandler timedHandlerFunc timedHttpCodec []).HandleRequest demoParseDuration [1] =
      some (.ok [200]) ∧
    (NewHTTPHandler timedHandlerFunc timedHttpCodec []).HandleRequest demoParseDuration [2] =
      some (.ok [202]) ∧
    (NewHTTPHandler timedHandlerFunc timedHttpCodec []).HandleRequest demoParseDuration [] =
      some (.ok [200]) ∧
    (NewHTTPHandler timedHandlerFunc timedHttpCodec
        [WithHTTPDefaultRequestTimeout DefaultRequestTimeout]).HandleRequest
        demoParseDuration [] = some (.ok [202]) := by
  refine ⟨?_, ?_, ?_, ?_, ?_, ?_, ?_, ?_, ?_, ?_⟩ <;> decide

end Backstream
